import Mathlib

/-!
# MeshUp: animation resolution engine

A shallow embedding of the animation code of MeshUp
(`src/src/MeshupModel.cc`, `src/src/Animation.cc`, `src/src/string_utils.h`)
together with theorems about it.

Conventions of the embedding.

* `float` and `double` values are exact rationals (`ℚ`) and an arithmetic
  operation is the exact one, except where rounding decides what the code
  does: the decimation test of the reader (`skipRow`), the conversion of
  radians (`radiansToDegrees`), the numbers read by the sample environments
  (`readFloatDecimal`) and the playback clock of `Rounded` round to nearest,
  ties to even (`toFloat`, `toDouble`).
* The rotation that the interpolation returns is modelled a second time over
  the real numbers (`Reals`), with the `slerp` of the specification.
* The vectors of a segment, which the code tests with `isnan`, have components
  that are an exact rational, an infinity or NaN (`XFloat`).
* `std::string` is `List Char` (abbreviation `Str`); positions are indices.
* A `std::list` iterator is the suffix of the list that starts at the
  iterator; `end()` is the empty suffix.
* Functions of libraries that are not part of the sources (quaternion
  `slerp`, stream extraction of a number, ...) are parameters.
* A call that does not return to its caller (`exit`, `abort`, a failed
  `assert`, an uncaught exception, a read outside of a string or vector) yields
  `Except.error` with the kind of end (`Halt`). Whether `assert` is compiled in
  is a parameter (`ndebug`).
* The value obtained by dereferencing `poses.end ()` in `interpolatePose` is a
  parameter (`junk`), so that what the function returns can be stated.
* A loop whose termination is in question (`wrapLoop`, `tokenizeLoop`,
  `frameTraversal.loop`) takes a bound on the number of evaluations of its
  condition and yields `none` when the bound is reached.
-/

namespace MeshUp

/-! ## Small vectors and quaternions (SimpleMath value types) -/

/-- Three-component vector (`Vector3f`). -/
structure Vector3f where
  x : ℚ
  y : ℚ
  z : ℚ
deriving DecidableEq, Repr

namespace Vector3f

/-- Component-wise sum (`operator+`). -/
def add (a b : Vector3f) : Vector3f := ⟨a.x + b.x, a.y + b.y, a.z + b.z⟩

/-- Component-wise difference (`operator-`). -/
def sub (a b : Vector3f) : Vector3f := ⟨a.x - b.x, a.y - b.y, a.z - b.z⟩

/-- Product with a scalar (`scalar * vector`, `vector * scalar`). -/
def smul (f : ℚ) (a : Vector3f) : Vector3f := ⟨f * a.x, f * a.y, f * a.z⟩

/-- The expression `a + f * (b - a)` used by every linear interpolation. -/
def lerp (a b : Vector3f) (f : ℚ) : Vector3f := add a (smul f (sub b a))

/-- Read access `v[i]` for `i = 0, 1, 2`. -/
def get (v : Vector3f) (i : Fin 3) : ℚ :=
  match i with
  | 0 => v.x
  | 1 => v.y
  | 2 => v.z

/-- Write access `v[i] = a` for `i = 0, 1, 2`. -/
def set (v : Vector3f) (i : Fin 3) (a : ℚ) : Vector3f :=
  match i with
  | 0 => { v with x := a }
  | 1 => { v with y := a }
  | 2 => { v with z := a }

end Vector3f

/-- Quaternion (`smQuaternion`), components in the order x, y, z, w. -/
structure smQuaternion where
  x : ℚ
  y : ℚ
  z : ℚ
  w : ℚ
deriving DecidableEq, Repr

/-! ## FrameAnimationTrack::interpolatePose (MeshupModel.cc 182-232) -/

/-- One keyframe of a per-frame pose track (`FramePose`). -/
structure FramePose where
  timestamp : ℚ
  translation : Vector3f
  rotation : Vector3f
  rotation_quaternion : smQuaternion
  scaling : Vector3f
deriving DecidableEq, Repr

/-- Modelled from the spec: the constructor `FramePose()` is declared in a
header that is not among the sources. The value is the identity pose, with the
same defaults as the pose fields of `Frame()` in `MeshupModel.h`. -/
def FramePose.init : FramePose :=
  { timestamp := 0
    translation := ⟨0, 0, 0⟩
    rotation := ⟨0, 0, 0⟩
    rotation_quaternion := ⟨0, 0, 0, 1⟩
    scaling := ⟨1, 1, 1⟩ }

/-- The bracketing loop of `interpolatePose` (lines 197-201).

`it` is the iterator `pose_iter` (the suffix of `poses` starting at it),
`start_pose` and `end_pose` are the two locals. One step of the loop is
`start_pose = end_pose; pose_iter++; end_pose = *pose_iter;`. When the
incremented iterator is `end()`, the dereference reads no keyframe: the value it
yields is `junk`. The result is the state when the loop is left. -/
def bracketLoop (junk : FramePose) (time : ℚ) :
    List FramePose → FramePose → FramePose → List FramePose × FramePose × FramePose
  | [], start_pose, end_pose => ([], start_pose, end_pose)
  | p :: rest, start_pose, end_pose =>
    if end_pose.timestamp ≤ time then
      bracketLoop junk time rest end_pose (rest.headD junk)
    else
      (p :: rest, start_pose, end_pose)

/-- The interpolation step of `interpolatePose` (lines 211-231) for the two
bracketing poses. -/
def blendPoses (slerp : smQuaternion → ℚ → smQuaternion → smQuaternion)
    (start_pose end_pose : FramePose) (time : ℚ) : FramePose :=
  if end_pose.timestamp - start_pose.timestamp = 0 then start_pose
  else
    let fraction := (time - start_pose.timestamp) / (end_pose.timestamp - start_pose.timestamp)
    let fraction := if fraction > 1 then 1 else fraction
    let fraction := if fraction < 0 then 0 else fraction
    { timestamp := start_pose.timestamp + fraction * (end_pose.timestamp - start_pose.timestamp)
      translation := Vector3f.lerp start_pose.translation end_pose.translation fraction
      rotation := Vector3f.lerp start_pose.rotation end_pose.rotation fraction
      rotation_quaternion :=
        slerp start_pose.rotation_quaternion fraction end_pose.rotation_quaternion
      scaling := Vector3f.lerp start_pose.scaling end_pose.scaling fraction }

/-- `FrameAnimationTrack::interpolatePose (float time)`.

`slerp q0 f q1` stands for `q0.slerp (f, q1)` of SimpleMath, `junk` for the
value a dereference of `poses.end()` yields. -/
def interpolatePose (slerp : smQuaternion → ℚ → smQuaternion → smQuaternion)
    (junk : FramePose) (poses : List FramePose) (time : ℚ) : FramePose :=
  match poses with
  | [] => FramePose.init
  | [p] => p
  | p0 :: p1 :: rest =>
    match bracketLoop junk time (p1 :: rest) p0 p1 with
    | (it, start_pose, end_pose) =>
      let end_pose := if it = [] then start_pose else end_pose
      blendPoses slerp start_pose end_pose time

/-! ## Floating-point rounding -/

/-- The number of times a natural number can be halved before it is below 2
(the position of its leading binary digit); the first argument bounds the
number of halvings. -/
def binaryLog : Nat → Nat → Nat
  | 0, _ => 0
  | fuel + 1, n => if 2 ≤ n then binaryLog fuel (n / 2) + 1 else 0

/-- The integer nearest to `n / d`, the even one of the two when `n / d` lies
halfway between two integers. -/
def roundHalfEven (n d : Nat) : Nat :=
  if 2 * (n % d) < d then n / d
  else if d < 2 * (n % d) then n / d + 1
  else if n / d % 2 = 0 then n / d
  else n / d + 1

/-- The exponent `e` with `2 ^ e ≤ n / d < 2 ^ (e + 1)`, for positive `n` and
`d`. -/
def binaryExponent (n d : Nat) : Int :=
  let e : Int := (binaryLog n n : Int) - (binaryLog d d : Int)
  if 0 ≤ e then (if 2 ^ e.toNat * d ≤ n then e else e - 1)
  else (if d ≤ 2 ^ (-e).toNat * n then e else e - 1)

/-- The conversion of a real number to a binary floating-point format with
`precision` significant digits, by rounding to nearest, ties to even (the
default mode of IEEE 754). The range of the exponent is not bounded: there is
no overflow to infinity and there are no subnormal numbers. -/
def roundNearestEven (precision : Nat) (q : ℚ) : ℚ :=
  if q = 0 then 0
  else
    let n := q.num.natAbs
    let d := q.den
    let e : Int := binaryExponent n d - ((precision : Int) - 1)
    let v : ℚ :=
      if 0 ≤ e then (roundHalfEven n (d * 2 ^ e.toNat) : ℚ) * (2 ^ e.toNat : Nat)
      else (roundHalfEven (n * 2 ^ (-e).toNat) d : ℚ) / (2 ^ (-e).toNat : Nat)
    if q < 0 then -v else v

/-- The conversion to `float` (24 significant binary digits). -/
def toFloat (q : ℚ) : ℚ := roundNearestEven 24 q

/-- The conversion to `double` (53 significant binary digits). -/
def toDouble (q : ℚ) : ℚ := roundNearestEven 53 q

/-! ## Playback time (Animation.cc 528-542, MeshupModel.cc 377-388) -/

/-- The loop `while (current_time > duration) current_time -= duration;` over
exact arithmetic. The first argument bounds the number of evaluations of the
loop condition; `none` means the bound was reached before the loop was left. -/
def wrapLoop (duration : ℚ) : Nat → ℚ → Option ℚ
  | 0, _ => none
  | fuel + 1, current_time =>
    if current_time > duration then wrapLoop duration fuel (current_time - duration)
    else some current_time

/-- The clamp-or-wrap statement shared by both players
(`if (current_time > duration) { if (loop) ... else ... }`): the value of
`current_time` afterwards. -/
def clampTime (fuel : Nat) (duration : ℚ) (loop : Bool) (current_time : ℚ) : Option ℚ :=
  if current_time > duration then
    if loop then wrapLoop duration fuel current_time
    else some duration
  else some current_time

/-- The time fields of an animation (`Animation`, and the `animation` member
of the model). -/
structure Playback where
  current_time : ℚ
  duration : ℚ
  loop : Bool
deriving DecidableEq, Repr

/-- `InterpolateModelFramesFromAnimation (model, animation, time)`, lines
530-539: the time fields of `animation` after the time update. (Line 541 is
`assert (0 && !"Not yet implemented!")`, the rest of the function is absent.) -/
def InterpolateModelFramesFromAnimation (fuel : Nat) (animation : Playback) (time : ℚ) :
    Option Playback :=
  (clampTime fuel animation.duration animation.loop time).map
    fun t => { animation with current_time := t }

/-- `MeshupModel::updatePose ()`, lines 379-388: the time fields of
`animation` after the time update; `ntracks` is `animation.frametracks.size()`. -/
def updatePoseTime (fuel : Nat) (ntracks : Nat) (animation : Playback) : Option Playback :=
  if ntracks ≠ 0 then
    (clampTime fuel animation.duration animation.loop animation.current_time).map
      fun t => { animation with current_time := t }
  else some animation

/-! ### Playback time in floating-point arithmetic -/

namespace Rounded

/-- The loop `while (current_time > duration) current_time -= duration;` with
the difference stored in a floating-point member: `rnd` is the rounding to the
type of `current_time` (`toFloat` for a `float`, `toDouble` for a `double`).
The first argument bounds the number of evaluations of the loop condition. -/
def wrapLoop (rnd : ℚ → ℚ) (duration : ℚ) : Nat → ℚ → Option ℚ
  | 0, _ => none
  | fuel + 1, current_time =>
    if current_time > duration then wrapLoop rnd duration fuel (rnd (current_time - duration))
    else some current_time

/-- The clamp-or-wrap statement shared by both players, with the rounding
`rnd` of the type of `current_time`. -/
def clampTime (rnd : ℚ → ℚ) (fuel : Nat) (duration : ℚ) (loop : Bool) (current_time : ℚ) :
    Option ℚ :=
  if current_time > duration then
    if loop then wrapLoop rnd duration fuel current_time
    else some duration
  else some current_time

/-- `InterpolateModelFramesFromAnimation (model, animation, time)`, lines
530-539, with the rounding `rnd` of the type of `current_time`. -/
def InterpolateModelFramesFromAnimation (rnd : ℚ → ℚ) (fuel : Nat) (animation : Playback)
    (time : ℚ) : Option Playback :=
  (clampTime rnd fuel animation.duration animation.loop time).map
    fun t => { animation with current_time := t }

/-- `MeshupModel::updatePose ()`, lines 379-388, with the rounding `rnd` of the
type of `current_time`. -/
def updatePoseTime (rnd : ℚ → ℚ) (fuel : Nat) (ntracks : Nat) (animation : Playback) :
    Option Playback :=
  if ntracks ≠ 0 then
    (clampTime rnd fuel animation.duration animation.loop animation.current_time).map
      fun t => { animation with current_time := t }
  else some animation

end Rounded


/-! ### Sample track -/

/-- A keyframe at time 0 with the identity pose. -/
def sampleKeyA : FramePose := FramePose.init

/-- A keyframe at time 2, translated to (4, 0, 0) and scaled by (3, 1, 1). -/
def sampleKeyB : FramePose :=
  { FramePose.init with timestamp := 2, translation := ⟨4, 0, 0⟩, scaling := ⟨3, 1, 1⟩ }

/-- A stand-in for the quaternion interpolation: it returns its first argument. -/
def sampleSlerp (q0 : smQuaternion) (_f : ℚ) (_q1 : smQuaternion) : smQuaternion := q0

/-- A `std::string`: the list of its characters. -/
abbrev Str := List Char

/-- The ways in which a call can end without returning to its caller. -/
inductive Halt where
  /-- `exit (1)` -/
  | exit1
  /-- `abort ()` -/
  | abort
  /-- a failed `assert` (builds with assertions enabled) -/
  | assertion
  /-- `std::out_of_range`, thrown by `substr` and never caught -/
  | out_of_range
  /-- a read outside of a string or container: the behaviour is undefined -/
  | undefined
deriving DecidableEq, Repr

deriving instance DecidableEq for Except

/-- `const std::string whitespaces_std (" \t\n\r")`. -/
def whitespaces_std : Str := [' ', '\t', '\n', '\r']

/-- `s.find_first_of (set)`: the first position of `s` that holds a character
of `set`; `none` is `npos`. -/
def find_first_of (s set : Str) : Option Nat :=
  match s with
  | [] => none
  | c :: cs => if c ∈ set then some 0 else (find_first_of cs set).map (· + 1)

/-- `s.find_first_not_of (set)`: the first position of `s` that holds a
character outside of `set`; `none` is `npos`. -/
def find_first_not_of (s set : Str) : Option Nat :=
  match s with
  | [] => none
  | c :: cs => if c ∈ set then (find_first_not_of cs set).map (· + 1) else some 0

/-- `s.substr (pos, n)`, with `n = none` for a count that is `npos` (or any
count not below the remaining length): throws when `pos > s.size()`. -/
def substr (s : Str) (pos : Nat) (n : Option Nat) : Except Halt Str :=
  if pos > s.length then .error .out_of_range
  else
    match n with
    | none => .ok (s.drop pos)
    | some k => .ok ((s.drop pos).take k)

/-- `strip_comments`: `line.substr (0, line.find ('#'))`. -/
def strip_comments (line : Str) : Except Halt Str :=
  substr line 0 (find_first_of line ['#'])

/-- The loop of `strip_whitespaces` (lines 19-21) on the reversed string:
`while (whitespaces.find (result[result.size() - 1]) != npos) result =
result.substr (0, result.size() - 1);`. On the empty string the loop condition
reads `result[size_t (-1)]`. -/
def stripTrailing (whitespaces : Str) : Str → Except Halt Str
  | [] => .error .undefined
  | c :: rev => if c ∈ whitespaces then stripTrailing whitespaces rev else .ok (c :: rev).reverse

/-- Lines 15-17 of `strip_whitespaces`: when the line holds a whitespace
character, `result = result.substr (result.find_first_not_of (whitespaces),
result.size ())`; `find_first_not_of` returns `npos` (a position beyond the
end) for a line of whitespace only. -/
def stripLeading (whitespaces : Str) (line : Str) : Except Halt Str :=
  if (find_first_of line whitespaces).isSome then
    match find_first_not_of line whitespaces with
    | some i => substr line i (some line.length)
    | none => substr line (line.length + 1) (some line.length)
  else .ok line

/-- `strip_whitespaces (line, whitespaces)`. -/
def strip_whitespaces_with (whitespaces : Str) (line : Str) : Except Halt Str :=
  stripLeading whitespaces line >>= fun result => stripTrailing whitespaces result.reverse

/-- `strip_whitespaces (line)` with the default set `whitespaces_std`. -/
def strip_whitespaces (line : Str) : Except Halt Str :=
  strip_whitespaces_with whitespaces_std line

/-- `tolower (line)`: the C function `tolower` on every character. -/
def tolower (line : Str) : Str := line.map Char.toLower

/-- The loop of `tokenize`: `token` holds, reversed, the characters read since
the last delimiter. A delimiter closes the token (`result.push_back (token)`),
what remains after the last delimiter is a token when it is not empty. -/
def tokenizeFrom (delimiter : Str) : Str → Str → List Str
  | [], token => if token = [] then [] else [token.reverse]
  | c :: cs, token =>
    if c ∈ delimiter then token.reverse :: tokenizeFrom delimiter cs []
    else tokenizeFrom delimiter cs (c :: token)

/-- `tokenize (line_in, delimiter)`. -/
def tokenize (line_in delimiter : Str) : List Str := tokenizeFrom delimiter line_in []

/-- `std::string (s.c_str ())`: the characters before the first NUL. -/
def c_str (s : Str) : Str := s.takeWhile (· ≠ Char.ofNat 0)

/-! ## Animation files: column section (Animation.cc 279-396) -/

/-- `ColumnInfo::TransformType` of `Animation.h`. -/
inductive TransformType where
  | TransformTypeUnknown
  | TransformTypeRotation
  | TransformTypeTranslation
  | TransformTypeScale
deriving DecidableEq, Repr

/-- `ColumnInfo::AxisType` of `Animation.h`. -/
inductive AxisType where
  | AxisTypeUnknown
  | AxisTypeX
  | AxisTypeY
  | AxisTypeZ
  | AxisTypeNegativeX
  | AxisTypeNegativeY
  | AxisTypeNegativeZ
deriving DecidableEq, Repr

/-- `ColumnInfo` of `Animation.h`: what one data column holds. -/
structure ColumnInfo where
  frame_name : Str
  type : TransformType
  axis : AxisType
  is_time_column : Bool
  is_empty : Bool
  is_radian : Bool
deriving DecidableEq, Repr

/-- Modelled from the spec: the constructor `ColumnInfo()` of `Animation.h`,
a header that is not among the sources. The values are those of the constructor
of the `ColumnInfo` of `MeshupModel.cc` (unknown type and axis, no flag set). -/
def ColumnInfo.init : ColumnInfo :=
  { frame_name := []
    type := .TransformTypeUnknown
    axis := .AxisTypeUnknown
    is_time_column := false
    is_empty := false
    is_radian := false }

/-- Lines 333-352: the transform type named by `type_str`, `none` for the
error branch. -/
def parseTransformType (type_str : Str) : Option TransformType :=
  if type_str = "rotation".toList ∨ type_str = "r".toList then
    some .TransformTypeRotation
  else if type_str = "translation".toList ∨ type_str = "t".toList then
    some .TransformTypeTranslation
  else if type_str = "scale".toList ∨ type_str = "s".toList then
    some .TransformTypeScale
  else none

/-- Lines 355-376: the axis named by `axis_str`, `none` for the error branch. -/
def parseAxisType (axis_str : Str) : Option AxisType :=
  if axis_str = "x".toList then some .AxisTypeX
  else if axis_str = "y".toList then some .AxisTypeY
  else if axis_str = "z".toList then some .AxisTypeZ
  else if axis_str = "-x".toList then some .AxisTypeNegativeX
  else if axis_str = "-y".toList then some .AxisTypeNegativeY
  else if axis_str = "-z".toList then some .AxisTypeNegativeZ
  else none

/-- Lines 378-383: the radian flag, from the fourth field when there is one. -/
def parseUnit (s3 : Option Str) : Except Halt Bool :=
  match s3 with
  | some u =>
    strip_whitespaces u >>= fun stripped =>
      let unit_str := tolower stripped
      .ok (decide (unit_str = "r".toList ∨ unit_str = "rad".toList
        ∨ unit_str = "radian".toList ∨ unit_str = "radians".toList))
  | none => .ok false

/-- Lines 330-392 for a column definition with three or four fields.
The result `none` is `return false`. -/
def parseColumnFields (strict : Bool) (s0 s1 s2 : Str) (s3 : Option Str) :
    Except Halt (Option ColumnInfo) :=
  strip_whitespaces s0 >>= fun stripped0 =>
  let frame_name := c_str stripped0
  strip_whitespaces s1 >>= fun stripped1 =>
  let type_str := tolower stripped1
  match parseTransformType type_str with
  | none => if strict then .error .exit1 else .ok none
  | some type =>
    strip_whitespaces s2 >>= fun stripped2 =>
    let axis_str := tolower stripped2
    match parseAxisType axis_str with
    | none => if strict then .error .exit1 else .ok none
    | some axis_name =>
      parseUnit s3 >>= fun unit_is_radian =>
      .ok (some { ColumnInfo.init with
        frame_name := frame_name
        type := type
        axis := axis_name
        is_radian := unit_is_radian })

/-- Lines 320-392: `column_def` is split at the colons; a definition with
fewer than three or more than four fields is an error (`abort ()` when strict,
`return false` otherwise). -/
def parseColumnSpec (strict : Bool) (column_def : Str) : Except Halt (Option ColumnInfo) :=
  match tokenize column_def [':'] with
  | [s0, s1, s2] => parseColumnFields strict s0 s1 s2 none
  | [s0, s1, s2, s3] => parseColumnFields strict s0 s1 s2 (some s3)
  | _ => if strict then .error .abort else .ok none

/-- Lines 291-392, the body of the loop over the elements of a column line:
element `element` at position `ei`, with the column list and the column index
so far. The result `none` is `return false`. -/
def parseColumnElement (strict : Bool) (ei : Nat) (element : Str)
    (acc : List ColumnInfo × Int) : Except Halt (Option (List ColumnInfo × Int)) :=
  if element.length = 0 then .ok (some acc)
  else
    let column_index := acc.2 + 1
    strip_whitespaces element >>= fun column_def =>
    if tolower column_def = "time".toList then
      if ei ≠ 0 then .error .abort
      else .ok (some (acc.1 ++ [{ ColumnInfo.init with is_time_column := true }], column_index))
    else if tolower column_def = "empty".toList then
      .ok (some (acc.1 ++ [{ ColumnInfo.init with is_empty := true }], column_index))
    else
      parseColumnSpec strict column_def >>= fun parsed =>
      match parsed with
      | none => .ok none
      | some col_info => .ok (some (acc.1 ++ [col_info], column_index))

/-- The loop `for (int ei = 0; ei < elements.size(); ei++)` of lines 290-393,
from position `ei` on. The result holds the column list and the column index
when the loop is left, and tells whether it ran to its end (`true`) or was left
by `return false`. -/
def parseColumnElements (strict : Bool) :
    Nat → List Str → List ColumnInfo × Int → Except Halt (Bool × (List ColumnInfo × Int))
  | _, [], acc => .ok (true, acc)
  | ei, element :: elements, acc =>
    parseColumnElement strict ei element acc >>= fun parsed =>
    match parsed with
    | none => .ok (false, (acc.1, acc.2 + 1))
    | some acc => parseColumnElements strict (ei + 1) elements acc

/-- The column token made of the given fields: `frame:type:axis`, or
`frame:type:axis:unit` when there is a unit field. -/
def columnToken (frame type axis : Str) (unit : Option Str) : Str :=
  frame ++ ':' :: (type ++ ':' :: (axis ++
    match unit with
    | none => []
    | some u => ':' :: u))

/-! ## Animation files: the reader of Animation.cc (lines 165-520) -/

/-- `M_PI` of `<cmath>`: the double nearest to π, as an exact rational. -/
def M_PI : ℚ := 884279719003555 / 281474976710656

/-- `value *= 180. / M_PI` for a `float value`: the quotient and the product
are computed in `double`, the product is stored as a `float`. -/
def radiansToDegrees (value : ℚ) : ℚ :=
  toFloat (toDouble (value * toDouble (180 / M_PI)))

/-- `FrameConfig`: the axis configuration. Only the change-of-basis matrix
`axes_rotation` is read by the code embedded here. -/
structure FrameConfig where
  axes_rotation : Matrix (Fin 3) (Fin 3) ℚ
deriving DecidableEq

/-- `TransformInfo` of `Animation.h`: the pose of one frame in a keyframe. -/
structure TransformInfo where
  timestamp : ℚ
  translation : Vector3f
  rotation_angles : Vector3f
  rotation_quaternion : smQuaternion
  scaling : Vector3f
deriving DecidableEq, Repr

/-- Modelled from the spec: the constructor `TransformInfo()` of `Animation.h`,
a header that is not among the sources; the identity pose, as for `Frame()`. -/
def TransformInfo.init : TransformInfo :=
  { timestamp := 0
    translation := ⟨0, 0, 0⟩
    rotation_angles := ⟨0, 0, 0⟩
    rotation_quaternion := ⟨0, 0, 0, 1⟩
    scaling := ⟨1, 1, 1⟩ }

/-- `KeyFrame` of `Animation.h`: a timestamp and the map `transformations`
from frame names to poses (here the list of its entries, in order of insertion). -/
structure KeyFrame where
  timestamp : ℚ
  transformations : List (Str × TransformInfo)
deriving DecidableEq, Repr

/-- The members of `Animation` that the reader touches. -/
structure Animation where
  configuration : FrameConfig
  column_infos : List ColumnInfo
  keyframes : List KeyFrame
  animation_filename : Str
  duration : ℚ
deriving DecidableEq

/-- What the reader takes from outside of the sources. -/
structure Env where
  /-- `NDEBUG` is defined: `assert` does nothing. -/
  ndebug : Bool
  /-- `value_stream >> value` on a stream holding the given token: the number
  read, or `none` when the extraction fails. -/
  readFloat : Str → Option ℚ
  /-- `tokenize_strip_whitespaces (line, delimiter)` (not among the sources). -/
  tokenize_strip_whitespaces : Str → Str → Except Halt (List Str)
  /-- `tokenize_csv_strip_whitespaces (line)` (not among the sources). -/
  tokenize_csv_strip_whitespaces : Str → Except Halt (List Str)
  /-- The file system: the content of the file at a path, `none` when it
  cannot be opened. -/
  open_file : Str → Option Str
  /-- `smQuaternion::fromGLRotate (angle, x, y, z)`. -/
  fromGLRotate : ℚ → ℚ → ℚ → ℚ → smQuaternion
  /-- The product of two quaternions (`operator*=`). -/
  qmul : smQuaternion → smQuaternion → smQuaternion

/-- The results of the successive calls `getline (file_in, line)` on a stream
with the given content, up to the call that sets `eofbit`, which yields the
last element: the text after the last newline (empty when the file ends with a
newline, or is empty). `token` holds, reversed, the characters of the current
line. -/
def getlinesFrom : Str → Str → List Str
  | [], token => [token.reverse]
  | c :: cs, token =>
    if c = '\n' then token.reverse :: getlinesFrom cs [] else getlinesFrom cs (c :: token)

/-- The lines that `getline` yields for a file with the given content. -/
def getlines (content : Str) : List Str := getlinesFrom content []

/-- The local variables of `loadFromFileAtFrameRate`, and the object itself. -/
structure LoadState where
  anim : Animation
  force_fps_previous_frame : ℚ
  force_fps_frame_count : Int
  force_fps_skipped_frame_count : Int
  last_line : Bool
  csv_mode : Bool
  filename_str : Str
  line : Str
  found_column_section : Bool
  found_data_section : Bool
  column_section : Bool
  data_section : Bool
  column_index : Int
  line_number : Int
deriving DecidableEq

/-- Lines 467-482: the unit vector of an axis; `none` is the `default:` branch
(`abort ()`). -/
def axisVector (axis : AxisType) : Option Vector3f :=
  match axis with
  | .AxisTypeX => some ⟨1, 0, 0⟩
  | .AxisTypeY => some ⟨0, 1, 0⟩
  | .AxisTypeZ => some ⟨0, 0, 1⟩
  | .AxisTypeNegativeX => some ⟨-1, 0, 0⟩
  | .AxisTypeNegativeY => some ⟨0, -1, 0⟩
  | .AxisTypeNegativeZ => some ⟨0, 0, -1⟩
  | .AxisTypeUnknown => none

/-- Lines 484-489: the update of the local copy `transform`. -/
def foldColumn (env : Env) (col : ColumnInfo) (value : ℚ) (axis : Vector3f)
    (transform : TransformInfo) : TransformInfo :=
  if col.type = .TransformTypeTranslation then
    { transform with translation := Vector3f.add transform.translation (Vector3f.smul value axis) }
  else if col.type = .TransformTypeScale then transform
  else if col.type = .TransformTypeRotation then
    { transform with
      rotation_quaternion :=
        env.qmul transform.rotation_quaternion (env.fromGLRotate value axis.x axis.y axis.z) }
  else transform

/-- `keyframe.transformations[name]` after the insertion of line 448-449. -/
def ensureTransform (name : Str) (m : List (Str × TransformInfo)) : List (Str × TransformInfo) :=
  if m.lookup name = none then m ++ [(name, TransformInfo.init)] else m

/-- Lines 445-492, the body of the loop over the columns of a data row, for
column `ci`. `TransformInfo transform = keyframe.transformations[...]` is a
copy: the value folded into it (`foldColumn`) is not stored in the keyframe. -/
def dataColumn (env : Env) (columns : List Str) (ci : Nat) (col : ColumnInfo)
    (keyframe : KeyFrame) : Except Halt KeyFrame :=
  if col.is_empty then .ok keyframe
  else
    let keyframe :=
      { keyframe with transformations := ensureTransform col.frame_name keyframe.transformations }
    let transform := (keyframe.transformations.lookup col.frame_name).getD TransformInfo.init
    match columns.get? ci with
    | none => .error .undefined
    | some token =>
      match env.readFloat token with
      | none => .error .abort
      | some value =>
        let value :=
          if col.type = .TransformTypeRotation ∧ col.is_radian then radiansToDegrees value else value
        match axisVector col.axis with
        | none => .error .abort
        | some axis =>
          let _transform := foldColumn env col value axis transform
          if env.ndebug then .ok keyframe else .error .assertion

/-- The loop `for (int ci = 1; ci < column_infos.size(); ci++)` of line 444,
from column `ci` on (`cols` are the columns from `ci` on). -/
def dataColumns (env : Env) (columns : List Str) :
    Nat → List ColumnInfo → KeyFrame → Except Halt KeyFrame
  | _, [], keyframe => .ok keyframe
  | ci, col :: cols, keyframe =>
    dataColumn env columns ci col keyframe >>= fun keyframe =>
    dataColumns env columns (ci + 1) cols keyframe

/-- Lines 430-435: the row at `column_time` is skipped. The quotient
`1. / frames_per_second` and the sum are values of type `double`. -/
def skipRow (frames_per_second : ℚ) (last_line : Bool) (force_fps_previous_frame column_time : ℚ) :
    Bool :=
  decide (column_time ≠ 0 ∧ last_line = false ∧ frames_per_second ≠ -1 ∧
    toDouble (force_fps_previous_frame + toDouble (1 / frames_per_second)) ≥ column_time)

/-- Lines 411-497: a data row whose tokens are `columns`. -/
def dataRowTokens (env : Env) (frames_per_second : ℚ) (st : LoadState) (columns : List Str) :
    Except Halt LoadState :=
  if columns.length < st.anim.column_infos.length then .error .abort
  else
    match columns with
    | [] => .error .undefined
    | first :: _ =>
      match env.readFloat first with
      | none => .error .abort
      | some column_time =>
        if skipRow frames_per_second st.last_line st.force_fps_previous_frame column_time then
          .ok { st with
            force_fps_skipped_frame_count := st.force_fps_skipped_frame_count + 1 }
        else
          dataColumns env columns 1 (st.anim.column_infos.drop 1)
            { timestamp := column_time, transformations := [] } >>= fun keyframe =>
          .ok { st with
            force_fps_previous_frame := column_time
            force_fps_frame_count := st.force_fps_frame_count + 1
            anim := { st.anim with keyframes := st.anim.keyframes ++ [keyframe] } }

/-- Lines 398-498: one line of the data section. -/
def dataRow (env : Env) (frames_per_second : ℚ) (st : LoadState) (line : Str) :
    Except Halt LoadState :=
  (if st.csv_mode then env.tokenize_csv_strip_whitespaces line
    else .ok (tokenize line whitespaces_std)) >>= fun columns =>
  dataRowTokens env frames_per_second st columns

/-- How one pass through the body of the reading loop ends. -/
inductive Flow where
  /-- the loop goes on (`continue`, or the end of the body) -/
  | next (st : LoadState)
  /-- `return false` -/
  | ret (st : LoadState)
  /-- `DATA_FROM:`: the stream was closed, the file at `path` is to be opened -/
  | reopen (path : Str) (st : LoadState)

/-- Modelled from the spec: `boost::filesystem::path::parent_path`, the
directory of a file: the text before its last `/` (empty when there is none). -/
def parent_path (file : Str) : Str :=
  ((file.reverse.dropWhile (· ≠ '/')).drop 1).reverse

/-- Lines 248-256: the path of a `DATA_FROM:` file. The test of line 252 is
`!data_path.string()[0] == '/'`, which compares the negation of the first
character (0 or 1) with the character `/`. -/
def resolveDataPath (filename data_path : Str) : Str :=
  let first : Char := data_path.headD (Char.ofNat 0)
  let negated : Nat := if first = Char.ofNat 0 then 1 else 0
  if negated = '/'.toNat then parent_path filename ++ '/' :: data_path
  else data_path

/-- Lines 240-498: the body of the reading loop after the `COLUMNS:` marker
has been dealt with. -/
def processSections (env : Env) (filename : Str) (frames_per_second : ℚ) (strict : Bool)
    (st : LoadState) (line : Str) : Except Halt Flow :=
  if line.take 5 = "DATA:".toList then
    .ok (.next { st with
      found_data_section := true, column_section := false, data_section := true, line := line })
  else if st.data_section = false ∧ line.take 10 = "DATA_FROM:".toList then
    substr line 10 (some line.length) >>= fun rest =>
    strip_whitespaces rest >>= fun data_path =>
    .ok (.reopen (resolveDataPath filename data_path) { st with line := line })
  else if st.column_section then
    (if st.csv_mode then env.tokenize_csv_strip_whitespaces line
      else env.tokenize_strip_whitespaces line [',', '\t', '\n', '\r']) >>= fun elements =>
    parseColumnElements strict 0 elements (st.anim.column_infos, st.column_index) >>= fun parsed =>
    let st := { st with
      anim := { st.anim with column_infos := parsed.2.1 }, column_index := parsed.2.2, line := line }
    if parsed.1 then .ok (.next st) else .ok (.ret st)
  else if st.data_section then
    dataRow env frames_per_second { st with line := line } line >>= fun st => .ok (.next st)
  else .ok (.next { st with line := line })

/-- Lines 211-498: one pass through the body of the reading loop, for the
line `got` that `getline` has read; `eof` tells whether that call has set
`eofbit`. -/
def processLine (env : Env) (filename : Str) (frames_per_second : ℚ) (strict : Bool)
    (st : LoadState) (got : Str) (eof : Bool) : Except Halt Flow :=
  let previous_line := st.line
  let line := if eof then previous_line else got
  let st :=
    if eof then { st with last_line := true } else { st with line_number := st.line_number + 1 }
  strip_whitespaces line >>= fun stripped =>
  strip_comments stripped >>= fun line =>
  if line.length = 0 then .ok (.next { st with line := line })
  else if line.take 8 = "COLUMNS:".toList then
    let st := { st with found_column_section := true, column_section := true, column_index := -1 }
    substr line 8 (some line.length) >>= fun rest =>
    strip_whitespaces rest >>= fun stripped =>
    strip_comments stripped >>= fun line =>
    if line.length = 0 then .ok (.next { st with line := line })
    else processSections env filename frames_per_second strict st line
  else processSections env filename frames_per_second strict st line

/-- Lines 501-519: what follows the reading loop. -/
def finishLoad (env : Env) (filename : Str) (st : LoadState) : Except Halt (Bool × Animation) :=
  if st.found_column_section = false then .error .abort
  else if st.found_data_section = false then .error .abort
  else if env.ndebug = false then .error .assertion
  else .ok (true, { st.anim with animation_filename := filename })

/-- The reading loop `while (!file_in.eof ())` on the file of a `DATA_FROM:`
directive; `lines` are the results of the calls of `getline` still to come.
(In the data section no further `DATA_FROM:` is looked for.) -/
def readDataLines (env : Env) (filename : Str) (frames_per_second : ℚ) (strict : Bool) :
    List Str → LoadState → Except Halt (Bool × Animation)
  | [], st => finishLoad env filename st
  | got :: lines, st =>
    processLine env filename frames_per_second strict st got lines.isEmpty >>= fun flow =>
    match flow with
    | .next st => readDataLines env filename frames_per_second strict lines st
    | .ret st => .ok (false, st.anim)
    | .reopen _ st => readDataLines env filename frames_per_second strict lines st

/-- Lines 258-276: the file of a `DATA_FROM:` directive is opened and read. -/
def reopenAndRead (env : Env) (filename : Str) (frames_per_second : ℚ) (strict : Bool)
    (path : Str) (st : LoadState) : Except Halt (Bool × Animation) :=
  match env.open_file path with
  | none => if strict then .error .exit1 else .ok (false, st.anim)
  | some content =>
    readDataLines env filename frames_per_second strict (getlines content)
      { st with
        filename_str := path, line_number := 0
        found_data_section := true, column_section := false, data_section := true }

/-- The reading loop `while (!file_in.eof ())` on the animation file itself. -/
def readLines (env : Env) (filename : Str) (frames_per_second : ℚ) (strict : Bool) :
    List Str → LoadState → Except Halt (Bool × Animation)
  | [], st => finishLoad env filename st
  | got :: lines, st =>
    processLine env filename frames_per_second strict st got lines.isEmpty >>= fun flow =>
    match flow with
    | .next st => readLines env filename frames_per_second strict lines st
    | .ret st => .ok (false, st.anim)
    | .reopen path st => reopenAndRead env filename frames_per_second strict path st

/-- The state with which the reading loop is entered (lines 177-208). -/
def initialLoadState (this : Animation) (filename : Str) (frame_config : FrameConfig) :
    LoadState :=
  { anim := { this with configuration := frame_config, column_infos := [] }
    force_fps_previous_frame := 0
    force_fps_frame_count := 0
    force_fps_skipped_frame_count := 0
    last_line := false
    csv_mode := decide (filename.length > 4 ∧ filename.drop (filename.length - 4) = ".csv".toList)
    filename_str := filename
    line := []
    found_column_section := false
    found_data_section := false
    column_section := false
    data_section := false
    column_index := 0
    line_number := 0 }

/-- `Animation::loadFromFileAtFrameRate (filename, frame_config,
frames_per_second, strict)` on the object `this`: the value returned and the
object afterwards, or the way in which the process ended. -/
def loadFromFileAtFrameRate (env : Env) (this : Animation) (filename : Str)
    (frame_config : FrameConfig) (frames_per_second : ℚ) (strict : Bool) :
    Except Halt (Bool × Animation) :=
  match env.open_file filename with
  | none => if strict then .error .exit1 else .ok (false, this)
  | some content =>
    readLines env filename frames_per_second strict (getlines content)
      (initialLoadState this filename frame_config)

/-- `Animation::loadFromFile`: no target frame rate (`-1.f`). -/
def loadFromFile (env : Env) (this : Animation) (filename : Str)
    (frame_config : FrameConfig) (strict : Bool) : Except Halt (Bool × Animation) :=
  loadFromFileAtFrameRate env this filename frame_config (-1) strict

/-! ### A sample environment -/

/-- The value of a string of decimal digits read after the digits `acc`;
`none` when a character is not a digit. -/
def readDigits : Str → Nat → Option Nat
  | [], acc => some acc
  | c :: cs, acc =>
    if c.isDigit then readDigits cs (10 * acc + (c.toNat - '0'.toNat)) else none

/-- A non-negative decimal numeral `digits` or `digits.digits`. -/
def readUnsigned (s : Str) : Option ℚ :=
  let whole := s.takeWhile (· ≠ '.')
  let frac := (s.dropWhile (· ≠ '.')).drop 1
  if whole = [] then none
  else
    match readDigits whole 0, readDigits frac 0 with
    | some w, some f => some ((w : ℚ) + (f : ℚ) / (10 : ℚ) ^ frac.length)
    | _, _ => none

/-- The value of a plain decimal numeral with an optional minus sign. -/
def readDecimal (s : Str) : Option ℚ :=
  match s with
  | '-' :: rest => (readUnsigned rest).map fun v => -v
  | _ => readUnsigned s

/-- A stand-in for `value_stream >> value` with `float value`, for plain
decimal numerals: the `float` nearest to the value of the numeral. -/
def readFloatDecimal (s : Str) : Option ℚ :=
  (readDecimal s).map toFloat

/-- Modelled from the spec: `tokenize_strip_whitespaces` is not among the
sources; a line is split at the delimiters and every non-empty piece is
stripped of surrounding whitespace. -/
def sampleTokenizeStrip (line delimiter : Str) : Except Halt (List Str) :=
  (tokenize line delimiter).mapM fun token =>
    if token = [] then .ok [] else strip_whitespaces token

/-- The sample environment: assertions compiled out, decimal numerals, a file
system that holds one file, `anim.txt`, with the given content. -/
def sampleEnv (content : Str) : Env :=
  { ndebug := true
    readFloat := readFloatDecimal
    tokenize_strip_whitespaces := sampleTokenizeStrip
    tokenize_csv_strip_whitespaces := fun line => sampleTokenizeStrip line [',']
    open_file := fun path => if path = "anim.txt".toList then some content else none
    fromGLRotate := fun _ x y z => ⟨x, y, z, 0⟩
    qmul := fun a _ => a }

/-- An animation object before any load. -/
def emptyAnimation : Animation :=
  { configuration := ⟨1⟩
    column_infos := []
    keyframes := []
    animation_filename := []
    duration := 0 }

/-- The timestamps of the keyframes of a load that returned. -/
def loadedTimestamps (r : Except Halt (Bool × Animation)) : Option (List ℚ) :=
  match r with
  | .ok (_, a) => some (a.keyframes.map (·.timestamp))
  | .error _ => none

/-- The rows `0.00`, `0.01`, ..., `0.99`, `1.0`. -/
def decimationRows : List Str :=
  (List.range 100).map (fun i => ['0', '.', Nat.digitChar (i / 10), Nat.digitChar (i % 10)])
    ++ ["1.0".toList]

/-- An animation file with a time column only and the rows `decimationRows`,
each row followed by a newline. -/
def decimationFile : Str :=
  "COLUMNS: time\nDATA:\n".toList ++ decimationRows.foldr (fun row text => row ++ '\n' :: text) []

/-- A reader state in the data section of a file with a time column only,
before the first row. -/
def sampleDataState : LoadState :=
  { initialLoadState emptyAnimation "anim.txt".toList ⟨1⟩ with
    anim := { emptyAnimation with column_infos := [{ ColumnInfo.init with is_time_column := true }] }
    found_column_section := true
    found_data_section := true
    data_section := true
    line := "DATA:".toList
    line_number := 2 }

/-! ### The rows of the data section and the rule of decimation -/

/-- A row of the data section: its text, the number of its first token and
the keyframe that lines 441-495 build for it. -/
structure DataRow where
  raw : Str
  time : ℚ
  keyframe : KeyFrame
deriving DecidableEq

/-- The line `raw` is a plain data row for the columns `column_infos` (not a
csv file): it carries no comment and no outer whitespace, it is not a section
marker, it has a token for every column, `time` is what `value_stream >> value`
reads from its first token and `keyframe` is what the loop over the columns
(lines 441-493) returns. -/
def DataRow.Plain (env : Env) (column_infos : List ColumnInfo) (r : DataRow) : Prop :=
  strip_whitespaces r.raw = .ok r.raw ∧ strip_comments r.raw = .ok r.raw ∧
  r.raw.take 8 ≠ "COLUMNS:".toList ∧ r.raw.take 5 ≠ "DATA:".toList ∧
  column_infos.length ≤ (tokenize r.raw whitespaces_std).length ∧
  (tokenize r.raw whitespaces_std).head?.bind env.readFloat = some r.time ∧
  dataColumns env (tokenize r.raw whitespaces_std) 1 (column_infos.drop 1)
    { timestamp := r.time, transformations := [] } = .ok r.keyframe

/-- Whether a line is a plain data row can be computed. -/
instance (env : Env) (column_infos : List ColumnInfo) (r : DataRow) :
    Decidable (r.Plain env column_infos) := by
  unfold DataRow.Plain
  infer_instance

/-- The rule of decimation in words: of a list of rows, read one after the
other before the end of the file, a row with the timestamp `t` is kept when
`t` is 0 or greater than the sum of `p` and `1 / frames_per_second`, where `p`
is the timestamp of the most recently kept row (at first the value given);
quotient and sum are rounded to `double`. The keyframes of the rows kept. -/
def keptRows (frames_per_second : ℚ) : ℚ → List DataRow → List KeyFrame
  | _, [] => []
  | p, r :: rows =>
    if r.time = 0 ∨ toDouble (p + toDouble (1 / frames_per_second)) < r.time then
      r.keyframe :: keptRows frames_per_second r.time rows
    else keptRows frames_per_second p rows

/-- The local variables after the keyframe of the row `r` was stored (lines
437-495); `eof` tells whether the row was read once more at the end of the
file. -/
def LoadState.kept (st : LoadState) (r : DataRow) (eof : Bool) : LoadState :=
  { st with
    line := r.raw
    last_line := eof
    line_number := if eof then st.line_number else st.line_number + 1
    force_fps_previous_frame := r.time
    force_fps_frame_count := st.force_fps_frame_count + 1
    anim := { st.anim with keyframes := st.anim.keyframes ++ [r.keyframe] } }

/-- The local variables after the row `r` was skipped (lines 431-434). -/
def LoadState.skipped (st : LoadState) (r : DataRow) : LoadState :=
  { st with
    line := r.raw
    last_line := false
    line_number := st.line_number + 1
    force_fps_skipped_frame_count := st.force_fps_skipped_frame_count + 1 }

/-- A row with the time column only. -/
def timeRow (raw : Str) (time : ℚ) : DataRow :=
  { raw := raw, time := time, keyframe := ⟨time, []⟩ }

/-! ## The frame tree (MeshupModel.h 27-73, MeshupModel.cc 148-177, 402-412) -/

/-- `Matrix44f`: a 4x4 matrix. Vectors are rows: the translation of an affine
transform is in row 3 (see `Frame::getFrameTransformTranslation`). -/
abbrev Matrix44f := Matrix (Fin 4) (Fin 4) ℚ

/-- The functions of `SimpleMathGL.h` (not among the sources) that build the
pose matrices. -/
structure GLOps where
  /-- `smScale (x, y, z)` -/
  smScale : ℚ → ℚ → ℚ → Matrix44f
  /-- `smTranslate (x, y, z)` -/
  smTranslate : ℚ → ℚ → ℚ → Matrix44f
  /-- `q.toGLMatrix ()` -/
  toGLMatrix : smQuaternion → Matrix44f

/-- `struct Frame` of `MeshupModel.h`; `children` holds the frames that the
pointers of the vector `children` point to. -/
inductive Frame where
  | mk (name : Str) (pose_translation : Vector3f) (pose_rotation : Vector3f)
      (pose_rotation_quaternion : smQuaternion) (pose_scaling : Vector3f)
      (frame_transform : Matrix44f) (parent_transform : Matrix44f)
      (pose_transform : Matrix44f) (children : List Frame)

namespace Frame

/-- The member `name`. -/
def name : Frame → Str
  | mk n _ _ _ _ _ _ _ _ => n

/-- The member `pose_translation`. -/
def pose_translation : Frame → Vector3f
  | mk _ t _ _ _ _ _ _ _ => t

/-- The member `pose_rotation`. -/
def pose_rotation : Frame → Vector3f
  | mk _ _ r _ _ _ _ _ _ => r

/-- The member `pose_rotation_quaternion`. -/
def pose_rotation_quaternion : Frame → smQuaternion
  | mk _ _ _ q _ _ _ _ _ => q

/-- The member `pose_scaling`. -/
def pose_scaling : Frame → Vector3f
  | mk _ _ _ _ s _ _ _ _ => s

/-- The member `frame_transform`. -/
def frame_transform : Frame → Matrix44f
  | mk _ _ _ _ _ m _ _ _ => m

/-- The member `parent_transform`. -/
def parent_transform : Frame → Matrix44f
  | mk _ _ _ _ _ _ m _ _ => m

/-- The member `pose_transform`. -/
def pose_transform : Frame → Matrix44f
  | mk _ _ _ _ _ _ _ m _ => m

/-- The member `children`. -/
def children : Frame → List Frame
  | mk _ _ _ _ _ _ _ _ cs => cs

/-- The constructor `Frame()`. -/
def init : Frame :=
  mk [] ⟨0, 0, 0⟩ ⟨0, 0, 0⟩ ⟨0, 0, 0, 1⟩ ⟨1, 1, 1⟩ 1 1 1 []

end Frame

mutual
/-- `Frame::updatePoseTransform (parent_pose_transform, config)`. -/
def Frame.updatePoseTransform (gl : GLOps) : Frame → Matrix44f → Frame
  | .mk name pose_translation pose_rotation pose_rotation_quaternion pose_scaling
      frame_transform parent_transform _ children, parent_pose_transform =>
    let pose_transform := frame_transform * parent_pose_transform
    let pose_transform :=
      gl.smScale pose_scaling.x pose_scaling.y pose_scaling.z
        * gl.toGLMatrix pose_rotation_quaternion
        * gl.smTranslate pose_translation.x pose_translation.y pose_translation.z
        * pose_transform
    .mk name pose_translation pose_rotation pose_rotation_quaternion pose_scaling
      frame_transform parent_transform pose_transform
      (updatePoseTransformChildren gl children pose_transform)
/-- The loop over `children` of `updatePoseTransform` (lines 161-163). -/
def updatePoseTransformChildren (gl : GLOps) : List Frame → Matrix44f → List Frame
  | [], _ => []
  | child :: children, pose_transform =>
    child.updatePoseTransform gl pose_transform
      :: updatePoseTransformChildren gl children pose_transform
end

mutual
/-- `Frame::initDefaultFrameTransform (parent_frame_transform, config)`. -/
def Frame.initDefaultFrameTransform : Frame → Frame
  | .mk name pose_translation pose_rotation pose_rotation_quaternion pose_scaling
      _ parent_transform pose_transform children =>
    .mk name pose_translation pose_rotation pose_rotation_quaternion pose_scaling
      parent_transform parent_transform pose_transform
      (initDefaultFrameTransformChildren children)
/-- The loop over `children` of `initDefaultFrameTransform` (lines 174-176). -/
def initDefaultFrameTransformChildren : List Frame → List Frame
  | [] => []
  | child :: children =>
    child.initDefaultFrameTransform :: initDefaultFrameTransformChildren children
end

mutual
/-- Every frame of the subtree of a frame, paired with the `pose_transform`
of its parent; the root of the subtree is paired with `parent_pose`. -/
def Frame.withParentPose : Frame → Matrix44f → List (Frame × Matrix44f)
  | .mk name pose_translation pose_rotation pose_rotation_quaternion pose_scaling
      frame_transform parent_transform pose_transform children, parent_pose =>
    (.mk name pose_translation pose_rotation pose_rotation_quaternion pose_scaling
      frame_transform parent_transform pose_transform children, parent_pose)
      :: withParentPoseChildren children pose_transform
/-- The frames of the subtrees of a list of siblings, with `withParentPose`. -/
def withParentPoseChildren : List Frame → Matrix44f → List (Frame × Matrix44f)
  | [], _ => []
  | child :: children, parent_pose =>
    child.withParentPose parent_pose ++ withParentPoseChildren children parent_pose
end

/-! ## The model (MeshupModel.h 100-218, MeshupModel.cc 127-143, 237-267, 328-348) -/

/-- A `FramePtr` that points to a frame: the position of the root frame in the
vector `frames`, followed by the positions in the successive vectors
`children`. The null pointer is `none` of `Option FramePtr`. -/
abbrev FramePtr := List Nat

/-- The frame that a path of child positions leads to, from a frame. -/
def Frame.descend : List Nat → Frame → Option Frame
  | [], f => some f
  | i :: path, f =>
    match f.children.get? i with
    | none => none
    | some child => Frame.descend path child

/-- `children.push_back (frame)` on the frame that a path leads to. -/
def Frame.pushChildAt : List Nat → Frame → Frame → Option Frame
  | [], .mk name pose_translation pose_rotation pose_rotation_quaternion pose_scaling
      frame_transform parent_transform pose_transform children, frame =>
    some (.mk name pose_translation pose_rotation pose_rotation_quaternion pose_scaling
      frame_transform parent_transform pose_transform (children ++ [frame]))
  | i :: path, .mk name pose_translation pose_rotation pose_rotation_quaternion pose_scaling
      frame_transform parent_transform pose_transform children, frame =>
    match children.get? i with
    | none => none
    | some child =>
      match Frame.pushChildAt path child frame with
      | none => none
      | some child =>
        some (.mk name pose_translation pose_rotation pose_rotation_quaternion pose_scaling
          frame_transform parent_transform pose_transform (children.set i child))

/-- One keyframe track (`FrameAnimationTrack`): the list `poses`. -/
abbrev FrameAnimationTrack := List FramePose

/-- The member `animation` of the model: the tracks `frametracks`, a map from
frame pointers to tracks (its entries in order of insertion), and the clock. -/
structure ModelAnimation where
  frametracks : List (Option FramePtr × FrameAnimationTrack)
  current_time : ℚ
  duration : ℚ
  loop : Bool

/-! ## Segments (MeshupModel.h 75-98) -/

/-- A `float` that may be infinite or NaN: a finite value (exact, without
rounding and without the sign of zero), `+inf`, `-inf` or NaN. -/
inductive XFloat where
  | fin (q : ℚ)
  | pinf
  | ninf
  | nan
deriving DecidableEq

namespace XFloat

/-- `isnan (a)`. -/
def isnan : XFloat → Bool
  | nan => true
  | _ => false

/-- Unary minus. -/
def neg : XFloat → XFloat
  | fin q => fin (-q)
  | pinf => ninf
  | ninf => pinf
  | nan => nan

/-- `fabs (a)`. -/
def fabs : XFloat → XFloat
  | fin q => fin |q|
  | pinf => pinf
  | ninf => pinf
  | nan => nan

/-- `a + b`: the sum of opposite infinities is NaN. -/
def add : XFloat → XFloat → XFloat
  | fin a, fin b => fin (a + b)
  | nan, _ => nan
  | _, nan => nan
  | pinf, ninf => nan
  | ninf, pinf => nan
  | pinf, _ => pinf
  | _, pinf => pinf
  | ninf, _ => ninf
  | _, ninf => ninf

/-- `a - b`. -/
def sub (a b : XFloat) : XFloat := add a (neg b)

/-- An infinity with the sign of `q`, NaN for zero: the product of `q` and `+inf`. -/
def signedInf (q : ℚ) : XFloat :=
  if q = 0 then nan else if 0 < q then pinf else ninf

/-- `a * b`: the product of zero and an infinity is NaN. -/
def mul : XFloat → XFloat → XFloat
  | fin a, fin b => fin (a * b)
  | nan, _ => nan
  | _, nan => nan
  | fin a, pinf => signedInf a
  | fin a, ninf => signedInf (-a)
  | pinf, fin b => signedInf b
  | ninf, fin b => signedInf (-b)
  | pinf, pinf => pinf
  | pinf, ninf => ninf
  | ninf, pinf => ninf
  | ninf, ninf => pinf

/-- `a / b`, a zero divisor being `+0`: `0 / 0` and the quotient of two
infinities are NaN, another value over zero is an infinity. -/
def div : XFloat → XFloat → XFloat
  | fin a, fin b => if b = 0 then signedInf a else fin (a / b)
  | nan, _ => nan
  | _, nan => nan
  | fin _, pinf => fin 0
  | fin _, ninf => fin 0
  | pinf, fin b => if 0 ≤ b then pinf else ninf
  | ninf, fin b => if 0 ≤ b then ninf else pinf
  | pinf, pinf => nan
  | pinf, ninf => nan
  | ninf, pinf => nan
  | ninf, ninf => nan

/-- `a > b`: false when one of the two is NaN. -/
def gt : XFloat → XFloat → Bool
  | fin a, fin b => decide (b < a)
  | nan, _ => false
  | _, nan => false
  | pinf, pinf => false
  | pinf, _ => true
  | _, pinf => false
  | ninf, _ => false
  | fin _, ninf => true

/-- The value of a finite number. -/
def toRat : XFloat → Option ℚ
  | fin q => some q
  | _ => none

end XFloat

/-- A `Vector3f` whose components may be infinite or NaN. -/
structure Vector3fx where
  x : XFloat
  y : XFloat
  z : XFloat
deriving DecidableEq

namespace Vector3fx

/-- A vector of finite components. -/
def ofVector3f (v : Vector3f) : Vector3fx := ⟨.fin v.x, .fin v.y, .fin v.z⟩

/-- `Vector3f::Zero ()`. -/
def zero : Vector3fx := ⟨.fin 0, .fin 0, .fin 0⟩

/-- Component-wise sum (`operator+`). -/
def add (a b : Vector3fx) : Vector3fx := ⟨a.x.add b.x, a.y.add b.y, a.z.add b.z⟩

/-- Component-wise difference (`operator-`). -/
def sub (a b : Vector3fx) : Vector3fx := ⟨a.x.sub b.x, a.y.sub b.y, a.z.sub b.z⟩

/-- Product with a scalar (`vector * scalar`). -/
def smul (f : XFloat) (a : Vector3fx) : Vector3fx := ⟨a.x.mul f, a.y.mul f, a.z.mul f⟩

/-- `squaredNorm ()`. -/
def squaredNorm (a : Vector3fx) : XFloat :=
  ((a.x.mul a.x).add (a.y.mul a.y)).add (a.z.mul a.z)

/-- The product `m * v` of a matrix and a vector. -/
def mulMatrix (m : Matrix (Fin 3) (Fin 3) ℚ) (v : Vector3fx) : Vector3fx :=
  ⟨(((XFloat.fin (m 0 0)).mul v.x).add ((XFloat.fin (m 0 1)).mul v.y)).add
      ((XFloat.fin (m 0 2)).mul v.z),
    (((XFloat.fin (m 1 0)).mul v.x).add ((XFloat.fin (m 1 1)).mul v.y)).add
      ((XFloat.fin (m 1 2)).mul v.z),
    (((XFloat.fin (m 2 0)).mul v.x).add ((XFloat.fin (m 2 1)).mul v.y)).add
      ((XFloat.fin (m 2 2)).mul v.z)⟩

end Vector3fx

/-- The members of `MeshVBO` (its header is not among the sources) that the
segment code reads: the corners of the bounding box. -/
structure MeshVBO where
  bbox_min : Vector3fx
  bbox_max : Vector3fx
deriving DecidableEq

/-- `struct Segment`. `mesh` is the mesh that the pointer `mesh` points to;
`gl_matrix` is `none` for a matrix with an entry that is not a finite number. -/
structure Segment where
  name : Str
  dimensions : Vector3fx
  scale : Vector3fx
  color : Vector3fx
  mesh : MeshVBO
  meshcenter : Vector3fx
  translate : Vector3fx
  gl_matrix : Option Matrix44f
  frame : Option FramePtr
  mesh_filename : Str

/-- The constructor `Segment ()`; `color` and `mesh` stand for the members
that it does not initialise. -/
def Segment.init (color : Vector3fx) (mesh : MeshVBO) : Segment :=
  { name := "unnamed".toList
    dimensions := ⟨.fin (-1), .fin (-1), .fin (-1)⟩
    scale := ⟨.fin (-1), .fin (-1), .fin (-1)⟩
    color := color
    mesh := mesh
    meshcenter := ⟨.pinf, .fin 0, .fin 0⟩
    translate := ⟨.fin 0, .fin 0, .fin 0⟩
    gl_matrix := some 1
    frame := none
    mesh_filename := [] }

/-- `struct MeshupModel`, without its curves. -/
structure MeshupModel where
  /-- `segments`, a list, in order of insertion. -/
  segments : List Segment
  /-- `meshmap`, a map from mesh names to meshes: its entries, the most recent
  assignment of a name first. -/
  meshmap : List (Str × MeshVBO)
  frames : List Frame
  /-- `framemap`, a map from names to frame pointers: its entries, the most
  recent assignment of a name first. -/
  framemap : List (Str × FramePtr)
  configuration : FrameConfig
  frames_initialized : Bool
  animation : ModelAnimation
  animation_filename : Str

/-- What the model code takes from outside of the sources. -/
structure ModelEnv where
  /-- `is_numeric (name)` (not among the sources). -/
  is_numeric : Str → Bool
  /-- `value_stream >> value`: the number read, `none` when the extraction fails. -/
  readFloat : Str → Option ℚ
  /-- The content of `value` after a failed extraction. -/
  failedValue : ℚ
  /-- `configuration.convertAnglesToQuaternion (angles)` (`FrameConfig.h`). -/
  convertAnglesToQuaternion : FrameConfig → Vector3f → smQuaternion
  /-- The file system. -/
  open_file : Str → Option Str
  /-- `find_mesh_file_by_name` followed by `load_obj` (not among the sources):
  the mesh of a file and a sub object (empty for the whole file), `none` when
  the file is not found. -/
  load_mesh : Str → Str → Option MeshVBO

/-- `invalid_id_characters` of `MeshupModel.cc` (line 34). -/
def invalid_id_characters : Str := "{}[],;: \r\n\t".toList

/-- `sanitize_frame_name (frame_name)`. -/
def sanitize_frame_name (env : ModelEnv) (frame_name : Str) : Except Halt Str :=
  let frame_name_sanitized := if env.is_numeric frame_name then '_' :: frame_name else frame_name
  if (find_first_of frame_name invalid_id_characters).isSome then .error .exit1
  else .ok frame_name_sanitized

/-- The constructor `MeshupModel()`: a model with the frame `BASE`. -/
def MeshupModel.init (configuration : FrameConfig) : MeshupModel :=
  { segments := []
    meshmap := []
    frames := [.mk "BASE".toList ⟨0, 0, 0⟩ ⟨0, 0, 0⟩ ⟨0, 0, 0, 1⟩ ⟨1, 1, 1⟩ 1 1 1 []]
    framemap := [("BASE".toList, [0])]
    configuration := configuration
    frames_initialized := false
    animation := { frametracks := [], current_time := 0, duration := 0, loop := false }
    animation_filename := [] }

namespace MeshupModel

/-- `findFrame (frame_name)`: the null pointer when the name is not in `framemap`. -/
def findFrame (m : MeshupModel) (frame_name : Str) : Option FramePtr :=
  m.framemap.lookup frame_name

/-- The frame that a frame pointer points to. -/
def frameAt (m : MeshupModel) (p : FramePtr) : Option Frame :=
  match p with
  | [] => none
  | i :: path =>
    match m.frames.get? i with
    | none => none
    | some root => Frame.descend path root

/-- `addFrame (parent_frame_name, frame_name, parent_transform)`. The new
frame becomes the last child of the frame that `framemap` holds for the parent
name. (A pointer of `framemap` always leads to a frame; the branches for one
that does not are never taken.) -/
def addFrame (env : ModelEnv) (m : MeshupModel) (parent_frame_name frame_name : Str)
    (parent_transform : Matrix44f) : Except Halt MeshupModel :=
  let m := { m with frames_initialized := false }
  sanitize_frame_name env frame_name >>= fun frame_name_sanitized =>
  sanitize_frame_name env parent_frame_name >>= fun parent_frame_name_sanitized =>
  let frame : Frame :=
    .mk frame_name_sanitized ⟨0, 0, 0⟩ ⟨0, 0, 0⟩ ⟨0, 0, 0, 1⟩ ⟨1, 1, 1⟩
      parent_transform parent_transform 1 []
  match m.findFrame (c_str parent_frame_name_sanitized) with
  | none => .error .exit1
  | some [] => .error .undefined
  | some (i :: path) =>
    match m.frames.get? i with
    | none => .error .undefined
    | some root =>
      match Frame.descend path root, Frame.pushChildAt path root frame with
      | some parent, some root =>
        .ok { m with
          frames := m.frames.set i root
          framemap :=
            (frame_name_sanitized, (i :: path) ++ [parent.children.length])
              :: m.framemap.filter (fun e => e.1 ≠ frame_name_sanitized) }
      | _, _ => .error .undefined

/-- `initDefaultFrameTransform ()`. -/
def initDefaultFrameTransform (m : MeshupModel) : MeshupModel :=
  { m with
    frames := m.frames.map Frame.initDefaultFrameTransform
    frames_initialized := true }

/-- `updateFrames ()`. -/
def updateFrames (gl : GLOps) (m : MeshupModel) : MeshupModel :=
  let m := if m.frames_initialized = false then m.initDefaultFrameTransform else m
  { m with frames := m.frames.map fun frame => frame.updatePoseTransform gl 1 }

end MeshupModel

/-! ### A sample model -/

/-- Modelled from the spec: `SimpleMathGL.h` is not among the sources. The
matrices follow the OpenGL layout that `Frame::getFrameTransformTranslation`
reads (vectors are rows, the translation is row 3). -/
def sampleGL : GLOps :=
  { smScale := fun x y z => !![x, 0, 0, 0; 0, y, 0, 0; 0, 0, z, 0; 0, 0, 0, 1]
    smTranslate := fun x y z => !![1, 0, 0, 0; 0, 1, 0, 0; 0, 0, 1, 0; x, y, z, 1]
    toGLMatrix := fun q =>
      !![1 - 2 * q.y * q.y - 2 * q.z * q.z, 2 * q.x * q.y + 2 * q.w * q.z,
          2 * q.x * q.z - 2 * q.w * q.y, 0;
        2 * q.x * q.y - 2 * q.w * q.z, 1 - 2 * q.x * q.x - 2 * q.z * q.z,
          2 * q.y * q.z + 2 * q.w * q.x, 0;
        2 * q.x * q.z + 2 * q.w * q.y, 2 * q.y * q.z - 2 * q.w * q.x,
          1 - 2 * q.x * q.x - 2 * q.y * q.y, 0;
        0, 0, 0, 1] }

/-- A unit quaternion for a rotation about the z axis (cosine 7/25, sine 24/25). -/
def sampleRotation : smQuaternion := ⟨0, 0, 3 / 5, 4 / 5⟩

/-- The frame TORSO: rest translation (0, 1, 0), identity pose. -/
def sampleTorso : Frame :=
  .mk "TORSO".toList ⟨0, 0, 0⟩ ⟨0, 0, 0⟩ ⟨0, 0, 0, 1⟩ ⟨1, 1, 1⟩
    (sampleGL.smTranslate 0 1 0) (sampleGL.smTranslate 0 1 0) 1 []

/-- The frame PELVIS: rest translation (0, 1, 0), posed with `sampleRotation`,
parent of TORSO. -/
def samplePelvis : Frame :=
  .mk "PELVIS".toList ⟨0, 0, 0⟩ ⟨0, 0, 0⟩ sampleRotation ⟨1, 1, 1⟩
    (sampleGL.smTranslate 0 1 0) (sampleGL.smTranslate 0 1 0) 1 [sampleTorso]

/-- The model BASE -> PELVIS -> TORSO. -/
def sampleModel : MeshupModel :=
  { MeshupModel.init ⟨1⟩ with
    frames := [.mk "BASE".toList ⟨0, 0, 0⟩ ⟨0, 0, 0⟩ ⟨0, 0, 0, 1⟩ ⟨1, 1, 1⟩ 1 1 1 [samplePelvis]]
    framemap := [("TORSO".toList, [0, 0, 0]), ("PELVIS".toList, [0, 0]), ("BASE".toList, [0])] }

/-! ## Animation files: the reader of MeshupModel.cc (lines 1312-1672) -/

namespace Model

/-- `ColumnInfo::TransformType` of `MeshupModel.cc`. -/
inductive TransformType where
  | TypeUnknown
  | TypeRotation
  | TypeTranslation
  | TypeScale
deriving DecidableEq, Repr

/-- `ColumnInfo::AxisName` of `MeshupModel.cc`. -/
inductive AxisName where
  | AxisUnknown
  | AxisX
  | AxisY
  | AxisZ
  | AxisMX
  | AxisMY
  | AxisMZ
deriving DecidableEq, Repr

/-- `struct ColumnInfo` of `MeshupModel.cc`. -/
structure ColumnInfo where
  frame : Option FramePtr
  type : TransformType
  axis : AxisName
  is_time_column : Bool
  is_empty : Bool
  is_radian : Bool
deriving DecidableEq, Repr

/-- The constructor `ColumnInfo()`. -/
def ColumnInfo.init : ColumnInfo :=
  { frame := none
    type := .TypeUnknown
    axis := .AxisUnknown
    is_time_column := false
    is_empty := false
    is_radian := false }

/-- `struct AnimationKeyPoses` of `MeshupModel.cc`; `frame_poses` is a map
from frame pointers to poses (its entries in order of insertion). -/
structure AnimationKeyPoses where
  timestamp : ℚ
  columns : List ColumnInfo
  frame_poses : List (Option FramePtr × FramePose)

/-- `frame_poses[frame] = f (frame_poses[frame])`, for a key that is in the map. -/
def updatePose (frame : Option FramePtr) (f : FramePose → FramePose) :
    List (Option FramePtr × FramePose) → List (Option FramePtr × FramePose)
  | [] => []
  | (key, pose) :: rest =>
    if key = frame then (key, f pose) :: rest else (key, pose) :: updatePose frame f rest

/-- Lines 1373-1429 of `setValue`: the write into the pose of the frame. -/
def writeComponent (type : TransformType) (axis : AxisName) (value : ℚ) (pose : FramePose) :
    FramePose :=
  let write (v : Vector3f) : Vector3f :=
    let v := if axis = .AxisX then v.set 0 value else v
    let v := if axis = .AxisY then v.set 1 value else v
    let v := if axis = .AxisZ then v.set 2 value else v
    let v := if axis = .AxisMX then v.set 0 (-value) else v
    let v := if axis = .AxisMY then v.set 1 (-value) else v
    let v := if axis = .AxisMZ then v.set 2 (-value) else v
    v
  if type = .TypeRotation then { pose with rotation := write pose.rotation }
  else if type = .TypeTranslation then { pose with translation := write pose.translation }
  else if type = .TypeScale then { pose with scaling := write pose.scaling }
  else pose

/-- `AnimationKeyPoses::setValue (column_index, value, strict)`: the object
afterwards and the value returned. -/
def AnimationKeyPoses.setValue (k : AnimationKeyPoses) (column_index : Nat) (value : ℚ)
    (strict : Bool) : Except Halt (AnimationKeyPoses × Bool) :=
  match k.columns.get? column_index with
  | none => .error .undefined
  | some col_info =>
    if col_info.is_time_column then .ok ({ k with timestamp := value }, true)
    else if col_info.is_empty then .ok (k, true)
    else
      let frame := col_info.frame
      let frame_poses :=
        if k.frame_poses.lookup frame = none then k.frame_poses ++ [(frame, FramePose.init)]
        else k.frame_poses
      if col_info.type = .TypeRotation ∨ col_info.type = .TypeTranslation
          ∨ col_info.type = .TypeScale then
        .ok ({ k with
          frame_poses :=
            updatePose frame (writeComponent col_info.type col_info.axis value) frame_poses },
          true)
      else if strict then .error .exit1
      else .ok ({ k with frame_poses := frame_poses }, false)

/-- `AnimationKeyPoses::updateTimeValues ()`. -/
def AnimationKeyPoses.updateTimeValues (k : AnimationKeyPoses) : AnimationKeyPoses :=
  { k with frame_poses := k.frame_poses.map fun e => (e.1, { e.2 with timestamp := k.timestamp }) }

/-- Lines 1546-1565: the transform type named by `type_str`. -/
def parseTransformType (type_str : Str) : Option TransformType :=
  if type_str = "rotation".toList ∨ type_str = "r".toList then some .TypeRotation
  else if type_str = "translation".toList ∨ type_str = "t".toList then some .TypeTranslation
  else if type_str = "scale".toList ∨ type_str = "s".toList then some .TypeScale
  else none

/-- Lines 1568-1589: the axis named by `axis_str`. -/
def parseAxisName (axis_str : Str) : Option AxisName :=
  if axis_str = "x".toList then some .AxisX
  else if axis_str = "y".toList then some .AxisY
  else if axis_str = "z".toList then some .AxisZ
  else if axis_str = "-x".toList then some .AxisMX
  else if axis_str = "-y".toList then some .AxisMY
  else if axis_str = "-z".toList then some .AxisMZ
  else none

/-- Lines 1591-1596: the radian flag. -/
def parseUnit (s3 : Option Str) : Except Halt Bool :=
  match s3 with
  | some u =>
    strip_whitespaces u >>= fun stripped =>
      let unit_str := tolower stripped
      .ok (decide (unit_str = "r".toList ∨ unit_str = "rad".toList
        ∨ unit_str = "radians".toList))
  | none => .ok false

/-- Lines 1535-1605 for a column definition with three or four fields; `none`
is `return false`. -/
def parseColumnFields (m : MeshupModel) (strict : Bool) (s0 s1 s2 : Str) (s3 : Option Str) :
    Except Halt (Option ColumnInfo) :=
  strip_whitespaces s0 >>= fun stripped0 =>
  match m.findFrame (c_str stripped0) with
  | none => if strict then .error .exit1 else .ok none
  | some frame =>
    strip_whitespaces s1 >>= fun stripped1 =>
    match parseTransformType (tolower stripped1) with
    | none => if strict then .error .exit1 else .ok none
    | some type =>
      strip_whitespaces s2 >>= fun stripped2 =>
      match parseAxisName (tolower stripped2) with
      | none => if strict then .error .exit1 else .ok none
      | some axis_name =>
        parseUnit s3 >>= fun unit_is_radian =>
        .ok (some { ColumnInfo.init with
          frame := some frame
          type := type
          axis := axis_name
          is_radian := unit_is_radian })

/-- Lines 1525-1605: a column definition that is neither `time` nor `empty`. -/
def parseColumnSpec (m : MeshupModel) (strict : Bool) (column_def : Str) :
    Except Halt (Option ColumnInfo) :=
  match tokenize column_def [':'] with
  | [s0, s1, s2] => parseColumnFields m strict s0 s1 s2 none
  | [s0, s1, s2, s3] => parseColumnFields m strict s0 s1 s2 (some s3)
  | _ => if strict then .error .exit1 else .ok none

/-- Lines 1500-1605, the body of the loop over the elements of a column line. -/
def parseColumnElement (m : MeshupModel) (strict : Bool) (element : Str)
    (acc : List ColumnInfo × Int) : Except Halt (Option (List ColumnInfo × Int)) :=
  if element.length = 0 then .ok (some acc)
  else
    let column_index := acc.2 + 1
    strip_whitespaces element >>= fun column_def =>
    if tolower column_def = "time".toList then
      .ok (some (acc.1 ++ [{ ColumnInfo.init with is_time_column := true }], column_index))
    else if tolower column_def = "empty".toList then
      .ok (some (acc.1 ++ [{ ColumnInfo.init with is_empty := true }], column_index))
    else
      parseColumnSpec m strict column_def >>= fun parsed =>
      match parsed with
      | none => .ok none
      | some col_info => .ok (some (acc.1 ++ [col_info], column_index))

/-- The loop over the elements of a column line (line 1499): the column list
and the column index when the loop is left, and whether it ran to its end
(`true`) or was left by `return false`. -/
def parseColumnElements (m : MeshupModel) (strict : Bool) :
    List Str → List ColumnInfo × Int → Except Halt (Bool × (List ColumnInfo × Int))
  | [], acc => .ok (true, acc)
  | element :: elements, acc =>
    parseColumnElement m strict element acc >>= fun parsed =>
    match parsed with
    | none => .ok (false, (acc.1, acc.2 + 1))
    | some acc => parseColumnElements m strict elements acc

end Model

/-- The product `axes_rotation.transpose () * v`. -/
def transposeMul (a : Matrix (Fin 3) (Fin 3) ℚ) (v : Vector3f) : Vector3f :=
  ⟨a 0 0 * v.x + a 1 0 * v.y + a 2 0 * v.z,
    a 0 1 * v.x + a 1 1 * v.y + a 2 1 * v.z,
    a 0 2 * v.x + a 1 2 * v.y + a 2 2 * v.z⟩

/-- `animation.frametracks[frame].poses.push_back (pose)`. -/
def pushPose (frame : Option FramePtr) (pose : FramePose) :
    List (Option FramePtr × FrameAnimationTrack) → List (Option FramePtr × FrameAnimationTrack)
  | [] => [(frame, [pose])]
  | (key, track) :: rest =>
    if key = frame then (key, track ++ [pose]) :: rest
    else (key, track) :: pushPose frame pose rest

namespace MeshupModel

/-- `addFramePose (frame_name, time, frame_translation, frame_rotation,
frame_scaling)`. -/
def addFramePose (env : ModelEnv) (m : MeshupModel) (frame_name : Str) (time : ℚ)
    (frame_translation frame_rotation frame_scaling : Vector3f) : Except Halt MeshupModel :=
  sanitize_frame_name env frame_name >>= fun sanitized =>
  let frame := m.findFrame (c_str sanitized)
  let pose : FramePose :=
    { timestamp := time
      translation := transposeMul m.configuration.axes_rotation frame_translation
      rotation := frame_rotation
      rotation_quaternion := env.convertAnglesToQuaternion m.configuration frame_rotation
      scaling := frame_scaling }
  let animation := { m.animation with frametracks := pushPose frame pose m.animation.frametracks }
  let animation :=
    if time > animation.duration then { animation with duration := time } else animation
  .ok { m with animation := animation }

/-- Lines 1643-1664: `addFramePose` for every entry of `frame_poses`. -/
def addFramePoses (env : ModelEnv) :
    MeshupModel → List (Option FramePtr × FramePose) → Except Halt MeshupModel
  | m, [] => .ok m
  | m, (frame, pose) :: rest =>
    match frame.bind m.frameAt with
    | none => .error .undefined
    | some f =>
      addFramePose env m (c_str f.name) pose.timestamp pose.translation pose.rotation
        pose.scaling >>= fun m =>
      addFramePoses env m rest

/-- Lines 1625-1638: the values of a data row are handed to `setValue`, from
column `ci` on (`cols` are the columns from `ci` on). -/
def setValues (env : ModelEnv) (strict : Bool) (columns : List Str) :
    Nat → List Model.ColumnInfo → Model.AnimationKeyPoses → Except Halt Model.AnimationKeyPoses
  | _, [], k => .ok k
  | ci, col :: cols, k =>
    match columns.get? ci with
    | none => .error .undefined
    | some token =>
      let value := (env.readFloat token).getD env.failedValue
      let value :=
        if col.type = .TypeRotation ∧ col.is_radian then radiansToDegrees value else value
      k.setValue ci value strict >>= fun r =>
      setValues env strict columns (ci + 1) cols r.1

/-- Lines 1627-1634: the value that the loop over the columns of a data row
hands to `setValue` for the column `col` and its token. -/
def columnValue (env : ModelEnv) (col : Model.ColumnInfo) (token : Str) : ℚ :=
  let value := (env.readFloat token).getD env.failedValue
  if col.type = .TypeRotation ∧ col.is_radian then radiansToDegrees value else value

/-- The key poses after `setValue` has returned true for the column
`col_info` and the value `value` (lines 1358-1429): a time column sets the
timestamp, an empty column sets nothing, another column writes into the pose
of its frame. -/
def written (k : Model.AnimationKeyPoses) (col_info : Model.ColumnInfo) (value : ℚ) :
    Model.AnimationKeyPoses :=
  if col_info.is_time_column then { k with timestamp := value }
  else if col_info.is_empty then k
  else
    { k with
      frame_poses :=
        Model.updatePose col_info.frame
          (Model.writeComponent col_info.type col_info.axis value)
          (if k.frame_poses.lookup col_info.frame = none
            then k.frame_poses ++ [(col_info.frame, FramePose.init)] else k.frame_poses) }

/-- The key poses after the columns of a row, each with its token, have been
handed to `setValue`. -/
def writtenAll (env : ModelEnv) :
    List (Model.ColumnInfo × Str) → Model.AnimationKeyPoses → Model.AnimationKeyPoses
  | [], k => k
  | e :: rest, k => writtenAll env rest (written k e.1 (columnValue env e.1 e.2))

/-- The local variables of `loadAnimationFromFile`, and the model. -/
structure AnimLoadState where
  model : MeshupModel
  column_section : Bool
  data_section : Bool
  column_index : Int
  line_number : Int
  animation_keyposes : Model.AnimationKeyPoses

/-- Lines 1471-1666: one pass through the body of the reading loop: the
state afterwards, and whether the loop goes on (`true`) or the function
returns false. -/
def loadAnimationLine (env : ModelEnv) (ndebug strict : Bool) (st : AnimLoadState) (got : Str) :
    Except Halt (Bool × AnimLoadState) :=
  let st := { st with line_number := st.line_number + 1 }
  strip_whitespaces got >>= fun stripped =>
  strip_comments stripped >>= fun line =>
  if line.length = 0 then .ok (true, st)
  else if line.take 8 = "COLUMNS:".toList then
    .ok (true, { st with column_section := true, column_index := -1 })
  else if line.take 5 = "DATA:".toList then
    .ok (true, { st with column_section := false, data_section := true })
  else if st.column_section then
    Model.parseColumnElements st.model strict (tokenize line [',', ' ', '\t', '\n', '\r'])
      (st.animation_keyposes.columns, st.column_index) >>= fun parsed =>
    .ok (parsed.1, { st with
      animation_keyposes := { st.animation_keyposes with columns := parsed.2.1 }
      column_index := parsed.2.2 })
  else if st.data_section then
    let columns := tokenize line whitespaces_std
    if ndebug = false ∧ columns.length < st.animation_keyposes.columns.length then
      .error .assertion
    else
      let keyposes := { st.animation_keyposes with frame_poses := [] }
      setValues env strict columns 0 keyposes.columns keyposes >>= fun keyposes =>
      let keyposes := keyposes.updateTimeValues
      addFramePoses env st.model keyposes.frame_poses >>= fun model =>
      .ok (true, { st with model := model, animation_keyposes := keyposes })
  else .ok (true, st)

/-- The reading loop `while (!file_in.eof ())` of `loadAnimationFromFile`:
the state when the loop is left, and whether it was left at the end of the file
(`true`) or by `return false`. -/
def loadAnimationLines (env : ModelEnv) (ndebug strict : Bool) :
    List Str → AnimLoadState → Except Halt (Bool × AnimLoadState)
  | [], st => .ok (true, st)
  | got :: lines, st =>
    loadAnimationLine env ndebug strict st got >>= fun next =>
    if next.1 then loadAnimationLines env ndebug strict lines next.2
    else .ok (false, next.2)

/-- `MeshupModel::loadAnimationFromFile (filename, strict)`: the value returned
and the model afterwards, or the way in which the process ended. -/
def loadAnimationFromFile (env : ModelEnv) (ndebug : Bool) (m : MeshupModel) (filename : Str)
    (strict : Bool) : Except Halt (Bool × MeshupModel) :=
  match env.open_file filename with
  | none => if strict then .error .exit1 else .ok (false, m)
  | some content =>
    loadAnimationLines env ndebug strict (getlines content)
      { model := m, column_section := false, data_section := false, column_index := 0
        line_number := 0
        animation_keyposes := { timestamp := 0, columns := [], frame_poses := [] } }
      >>= fun final =>
    if final.1 then .ok (true, { final.2.model with animation_filename := filename })
    else .ok (false, final.2.model)

end MeshupModel

/-- A mesh with the bounding box from (-1, -1, -1) to (1, 3, 1). -/
def sampleMesh : MeshVBO :=
  { bbox_min := ⟨.fin (-1), .fin (-1), .fin (-1)⟩
    bbox_max := ⟨.fin 1, .fin 3, .fin 1⟩ }

/-- The sample environment of the model code: no frame name is numeric,
numbers are decimal numerals, the file system holds `anim.txt`, every mesh
file holds `sampleMesh`. -/
def sampleModelEnv (content : Str) : ModelEnv :=
  { is_numeric := fun _ => false
    load_mesh := fun _ _ => some sampleMesh
    readFloat := readFloatDecimal
    failedValue := 0
    convertAnglesToQuaternion := fun _ angles => ⟨angles.x, angles.y, angles.z, 0⟩
    open_file := fun path => if path = "anim.txt".toList then some content else none }

/-- The tracks of a model after a load that returned. -/
def loadedTracks (r : Except Halt (Bool × MeshupModel)) :
    Option (List (Option FramePtr × FrameAnimationTrack)) :=
  match r with
  | .ok (_, m) => some m.animation.frametracks
  | .error _ => none


/-- A reader state of `Animation.cc` in the column section, before the first
column line. -/
def sampleColumnState : LoadState :=
  { initialLoadState emptyAnimation "anim.txt".toList ⟨1⟩ with
    found_column_section := true
    column_section := true
    column_index := -1
    line := []
    line_number := 1 }

/-- A reader state of `MeshupModel.cc` in the column section of an animation
for `sampleModel`, before the first column line. -/
def sampleAnimLoadState : MeshupModel.AnimLoadState :=
  { model := sampleModel
    column_section := true
    data_section := false
    column_index := -1
    line_number := 1
    animation_keyposes := { timestamp := 0, columns := [], frame_poses := [] } }

/-- A column token with an unknown transform type. -/
def sampleBadToken : Str := "PELVIS:bogus:z".toList

/-- A column line that holds `sampleBadToken` after the time column. -/
def sampleBadLine : Str := "time, PELVIS:bogus:z".toList

/-- The state carried by a `Flow`. -/
def Flow.state : Flow → LoadState
  | .next st => st
  | .ret st => st
  | .reopen _ st => st

/-- What the reading loop keeps of the object: `after` has the duration, the
file name and the configuration of `before`, and the keyframes of `before`
are the first keyframes of `after`. -/
def Animation.Kept (before after : Animation) : Prop :=
  after.duration = before.duration ∧ after.animation_filename = before.animation_filename ∧
    after.configuration = before.configuration ∧ before.keyframes <+: after.keyframes

/-- A rotation column of an earlier load. -/
def priorColumn : ColumnInfo :=
  { ColumnInfo.init with
    frame_name := "A".toList
    type := .TransformTypeRotation
    axis := .AxisTypeX }

/-- An animation object that holds the result of an earlier load. -/
def priorAnimation : Animation :=
  { configuration := ⟨1⟩
    column_infos := [priorColumn]
    keyframes := [⟨3, []⟩]
    animation_filename := "old.txt".toList
    duration := 5 }

/-- An axis configuration other than the identity. -/
def otherConfig : FrameConfig := ⟨fun i j => if i = j then 2 else 0⟩

/-- The value returned by a load and the time-column flags of the column list
it leaves. -/
def loadedTimeFlags (r : Except Halt (Bool × Animation)) : Option (Bool × List Bool) :=
  match r with
  | .ok (b, a) => some (b, a.column_infos.map (·.is_time_column))
  | .error _ => none

/-- The state of the reading loop in the data section of a file without
columns. -/
def sampleNoColumnState : LoadState :=
  { initialLoadState emptyAnimation "anim.txt".toList ⟨1⟩ with
    found_column_section := true
    found_data_section := true
    data_section := true }

/-! ## Segment transformations (Animation.cc 544-581) -/

/-- Lines 546-561 of `UpdateModelSegmentTransformations`: the local `scale`. -/
def UpdateModelSegmentTransformations.scale (seg : Segment) : Vector3fx :=
  let bbox_size := seg.mesh.bbox_max.sub seg.mesh.bbox_min
  if seg.dimensions.squaredNorm.gt (.fin (1 / 10000)) then
    ⟨seg.dimensions.x.fabs.div bbox_size.x,
      seg.dimensions.y.fabs.div bbox_size.y,
      seg.dimensions.z.fabs.div bbox_size.z⟩
  else if seg.scale.x.gt (.fin 0) then seg.scale
  else ⟨.fin 1, .fin 1, .fin 1⟩

/-- Lines 563-571 of `UpdateModelSegmentTransformations`: the local
`translate`. -/
def UpdateModelSegmentTransformations.translate (seg : Segment) : Vector3fx :=
  let bbox_size := seg.mesh.bbox_max.sub seg.mesh.bbox_min
  let scale := UpdateModelSegmentTransformations.scale seg
  let translate : Vector3fx :=
    if seg.meshcenter.x.isnan = false then
      let center := seg.mesh.bbox_min.add (bbox_size.smul (.fin (1 / 2)))
      ⟨(center.x.neg.mul scale.x).add seg.meshcenter.x,
        (center.y.neg.mul scale.y).add seg.meshcenter.y,
        (center.z.neg.mul scale.z).add seg.meshcenter.z⟩
    else ⟨.fin 0, .fin 0, .fin 0⟩
  translate.add seg.translate

/-- Lines 574-577: the matrix `smScale (scale) * smTranslate (translate) *
pose_transform`, when the six arguments are finite numbers. -/
def UpdateModelSegmentTransformations.gl_matrix (gl : GLOps) (scale translate : Vector3fx)
    (pose_transform : Matrix44f) : Option Matrix44f :=
  match scale.x.toRat, scale.y.toRat, scale.z.toRat,
    translate.x.toRat, translate.y.toRat, translate.z.toRat with
  | some sx, some sy, some sz, some tx, some ty, some tz =>
    some (gl.smScale sx sy sz * gl.smTranslate tx ty tz * pose_transform)
  | _, _, _, _, _, _ => none

/-- The body of the loop of `UpdateModelSegmentTransformations` for a segment
whose pointer `frame` points to `frame`. -/
def UpdateModelSegmentTransformations.body (gl : GLOps) (seg : Segment) (frame : Frame) :
    Segment :=
  { seg with
    gl_matrix :=
      UpdateModelSegmentTransformations.gl_matrix gl
        (UpdateModelSegmentTransformations.scale seg)
        (UpdateModelSegmentTransformations.translate seg) frame.pose_transform }

/-- The loop `while (seg_iter != model->segments.end ())` from the segment
`seg_iter` on. A segment whose `frame` does not point to a frame of the model
is dereferenced all the same. -/
def UpdateModelSegmentTransformations.loop (gl : GLOps) (model : MeshupModel) :
    List Segment → Except Halt (List Segment)
  | [] => .ok []
  | seg :: rest =>
    match seg.frame.bind model.frameAt with
    | none => .error .undefined
    | some frame =>
      UpdateModelSegmentTransformations.loop gl model rest >>= fun rest =>
      .ok (UpdateModelSegmentTransformations.body gl seg frame :: rest)

/-- `UpdateModelSegmentTransformations (model)`. -/
def UpdateModelSegmentTransformations (gl : GLOps) (model : MeshupModel) :
    Except Halt MeshupModel :=
  UpdateModelSegmentTransformations.loop gl model model.segments >>= fun segments =>
  .ok { model with segments := segments }

/-- A segment of PELVIS without dimensions and without mesh-center, with the
scale (2, -1, 3) and the translate (1, 2, 3). -/
def sampleSegment : Segment :=
  { Segment.init ⟨.fin 1, .fin 1, .fin 1⟩ sampleMesh with
    name := "pelvis".toList
    dimensions := ⟨.fin 0, .fin 0, .fin 0⟩
    scale := ⟨.fin 2, .fin (-1), .fin 3⟩
    meshcenter := ⟨.nan, .nan, .nan⟩
    translate := ⟨.fin 1, .fin 2, .fin 3⟩
    frame := some [0, 0]
    mesh_filename := "pelvis.obj".toList }

/-- A segment of PELVIS with the dimensions (1, 2, 4), the mesh-center
(5, 6, 7) and the translate (1, 2, 3). -/
def sampleSizedSegment : Segment :=
  { sampleSegment with
    dimensions := ⟨.fin 1, .fin (-2), .fin 4⟩
    meshcenter := ⟨.fin 5, .fin 6, .fin 7⟩ }

/-- The sample model with the two sample segments. -/
def sampleSegmentModel : MeshupModel :=
  { sampleModel with segments := [sampleSegment, sampleSizedSegment] }

/-- A segment of PELVIS without dimensions whose authored scale starts with a
negative component. -/
def sampleUnscaledSegment : Segment :=
  { sampleSegment with scale := ⟨.fin (-1), .fin 2, .fin 3⟩ }

/-- The sample environment with a file system that holds the given files
(pairs of a path and a content). -/
def sampleEnvFiles (files : List (Str × Str)) : Env :=
  { sampleEnv [] with open_file := fun path => files.lookup path }

/-! ## JSON model files (MeshupModel.cc 269-326, 606-678, 731-738, 1058-1075) -/

namespace MeshupModel

/-- `addSegment (frame_name, segment_name, dimensions, scale, color, mesh_name,
translate, mesh_center)`; `ndebug` tells whether the `assert` of line 324 is
compiled out. -/
def addSegment (env : ModelEnv) (ndebug : Bool) (m : MeshupModel)
    (frame_name segment_name : Str) (dimensions scale color : Vector3fx) (mesh_name : Str)
    (translate mesh_center : Vector3fx) : Except Halt MeshupModel :=
  let loaded : Except Halt (MeshVBO × List (Str × MeshVBO)) :=
    match m.meshmap.lookup mesh_name with
    | some mesh => .ok (mesh, m.meshmap)
    | none =>
      let mesh_filename := mesh_name.takeWhile (· ≠ ':')
      let submesh_name := (mesh_name.dropWhile (· ≠ ':')).drop 1
      match env.load_mesh mesh_filename submesh_name with
      | none => .error .exit1
      | some mesh => .ok (mesh, (mesh_name, mesh) :: m.meshmap)
  loaded >>= fun found =>
  sanitize_frame_name env frame_name >>= fun sanitized =>
  let segment : Segment :=
    { Segment.init color found.1 with
      name := segment_name
      dimensions := Vector3fx.mulMatrix m.configuration.axes_rotation.transpose dimensions
      scale := scale
      translate := translate
      meshcenter := Vector3fx.mulMatrix m.configuration.axes_rotation.transpose mesh_center
      frame := m.findFrame (c_str sanitized)
      mesh_filename := mesh_name }
  if segment.frame = none ∧ ndebug = false then .error .assertion
  else .ok { m with meshmap := found.2, segments := m.segments ++ [segment] }

end MeshupModel

/-- `Frame::getFrameTransformRotation ()`. -/
def Frame.getFrameTransformRotation (f : Frame) : Matrix (Fin 3) (Fin 3) ℚ :=
  !![f.frame_transform 0 0, f.frame_transform 1 0, f.frame_transform 2 0;
    f.frame_transform 0 1, f.frame_transform 1 1, f.frame_transform 2 1;
    f.frame_transform 0 2, f.frame_transform 1 2, f.frame_transform 2 2]

/-- `Frame::getFrameTransformTranslation ()`. -/
def Frame.getFrameTransformTranslation (f : Frame) : Vector3f :=
  ⟨f.frame_transform 3 0, f.frame_transform 3 1, f.frame_transform 3 2⟩

/-- The product `m * v` of a matrix and a vector of finite numbers. -/
def matrixMul (a : Matrix (Fin 3) (Fin 3) ℚ) (v : Vector3f) : Vector3f :=
  ⟨a 0 0 * v.x + a 0 1 * v.y + a 0 2 * v.z,
    a 1 0 * v.x + a 1 1 * v.y + a 1 2 * v.z,
    a 2 0 * v.x + a 2 1 * v.y + a 2 2 * v.z⟩

/-- The JSON value of a frame: the members that `frame_to_json_value` and the
traversal of `saveModelToJsonFile` set; `none` is a member that is not set. -/
structure FrameNode where
  name : Str
  parent : Option Str
  parent_translation : Option Vector3f
  parent_rotation : Option Vector3f
deriving DecidableEq

/-- The JSON value of a segment: the members that `segment_to_json_value`
sets; `none` is a member that is not set (`null` when it is read). -/
structure SegmentNode where
  name : Str
  dimensions : Option Vector3fx
  color : Option Vector3fx
  scale : Option Vector3fx
  mesh_center : Option Vector3fx
  translate : Option Vector3fx
  mesh_filename : Str
  frame : Str
deriving DecidableEq

/-- `json_to_vec3 (value, default_value)`; where the source leaves out the
second argument it is `Vector3f (0.f, 0.f, 0.f)`. -/
def json_to_vec3 (value : Option Vector3fx) (default_value : Vector3fx) : Vector3fx :=
  match value with
  | none => default_value
  | some v => v

/-- `frame_to_json_value (frame, frame_config)`. -/
def frame_to_json_value (frame : Frame) (frame_config : FrameConfig) : Except Halt FrameNode :=
  let result : FrameNode :=
    { name := frame.name
      parent := none
      parent_translation :=
        some (matrixMul frame_config.axes_rotation frame.getFrameTransformTranslation)
      parent_rotation := none }
  if (1 : Matrix (Fin 3) (Fin 3) ℚ) ≠ frame.getFrameTransformRotation then .error .abort
  else .ok result

/-- `segment_to_json_value (segment, frame_config)`, for a segment of the
model `m`; a `frame` that points to no frame is dereferenced all the same. -/
def segment_to_json_value (m : MeshupModel) (segment : Segment) (frame_config : FrameConfig) :
    Except Halt SegmentNode :=
  match segment.frame.bind m.frameAt with
  | none => .error .undefined
  | some frame =>
    .ok
      { name := segment.name
        dimensions :=
          if Vector3fx.zero ≠ segment.dimensions then
            some (Vector3fx.mulMatrix frame_config.axes_rotation segment.dimensions)
          else none
        color := if Vector3fx.zero ≠ segment.color then some segment.color else none
        scale := if Vector3fx.zero ≠ segment.scale then some segment.scale else none
        mesh_center :=
          if segment.meshcenter.x.isnan = false then
            some (Vector3fx.mulMatrix frame_config.axes_rotation segment.meshcenter)
          else none
        translate :=
          if segment.meshcenter.x.isnan = false then none
          else some (Vector3fx.mulMatrix frame_config.axes_rotation segment.translate)
        mesh_filename := segment.mesh_filename
        frame := frame.name }

/-- Lines 731-738 of `saveModelToJsonFile`: the array `segments` of the root
node, from the segment `seg_iter` on. -/
def saveModelToJsonFile.segments (m : MeshupModel) : List Segment → Except Halt (List SegmentNode)
  | [] => .ok []
  | seg :: rest =>
    segment_to_json_value m seg m.configuration >>= fun node =>
    saveModelToJsonFile.segments m rest >>= fun nodes =>
    .ok (node :: nodes)

/-- Lines 1058-1075 of `loadModelFromJsonFile`: `addSegment` for every node of
the array `segments`. -/
def loadModelFromJsonFile.segments (env : ModelEnv) (ndebug : Bool) :
    MeshupModel → List SegmentNode → Except Halt MeshupModel
  | m, [] => .ok m
  | m, segment_node :: rest =>
    m.addSegment env ndebug segment_node.frame segment_node.name
      (json_to_vec3 segment_node.dimensions Vector3fx.zero)
      (json_to_vec3 segment_node.scale Vector3fx.zero)
      (json_to_vec3 segment_node.color Vector3fx.zero)
      segment_node.mesh_filename
      (json_to_vec3 segment_node.translate Vector3fx.zero)
      (json_to_vec3 segment_node.mesh_center ⟨.pinf, .pinf, .pinf⟩) >>= fun m =>
    loadModelFromJsonFile.segments env ndebug m rest

/-- The members of a segment that a round trip is to keep, the frame by its
name. -/
structure SegmentSummary where
  name : Str
  frame : Option Str
  dimensions : Vector3fx
  scale : Vector3fx
  color : Vector3fx
  translate : Vector3fx
  meshcenter : Vector3fx
  mesh_filename : Str
deriving DecidableEq

/-- The summary of a segment of the model `m`. -/
def segmentSummary (m : MeshupModel) (seg : Segment) : SegmentSummary :=
  { name := seg.name
    frame := (seg.frame.bind m.frameAt).map Frame.name
    dimensions := seg.dimensions
    scale := seg.scale
    color := seg.color
    translate := seg.translate
    meshcenter := seg.meshcenter
    mesh_filename := seg.mesh_filename }

/-- The sample model with one segment, which has a mesh-center and a
translate. -/
def sampleSavedModel : MeshupModel :=
  { sampleModel with
    segments := [sampleSizedSegment]
    meshmap := [("pelvis.obj".toList, sampleMesh)] }

/-- A frame whose rest transform is a quarter turn about the z axis. -/
def sampleTurnedFrame : Frame :=
  .mk "ARM".toList ⟨0, 0, 0⟩ ⟨0, 0, 0⟩ ⟨0, 0, 0, 1⟩ ⟨1, 1, 1⟩
    !![0, 1, 0, 0; -1, 0, 0, 0; 0, 0, 1, 0; 0, 0, 0, 1]
    !![0, 1, 0, 0; -1, 0, 0, 0; 0, 0, 1, 0; 0, 0, 0, 1] 1 []

/-! ## Sequences of calls -/

/-- The names of the frames of the frame tree, every root followed by its
descendants. -/
def MeshupModel.frameNames (m : MeshupModel) : List Str :=
  m.frames.flatMap fun root => (root.withParentPose 1).map fun e => e.1.name

/-- The arguments of one call of `addFramePose`. -/
structure FramePoseCall where
  frame_name : Str
  time : ℚ
  frame_translation : Vector3f
  frame_rotation : Vector3f
  frame_scaling : Vector3f

/-- A sequence of calls of `addFramePose`, the first call first. -/
def MeshupModel.addFramePoseCalls (env : ModelEnv) :
    MeshupModel → List FramePoseCall → Except Halt MeshupModel
  | m, [] => .ok m
  | m, c :: calls =>
    m.addFramePose env c.frame_name c.time c.frame_translation c.frame_rotation
      c.frame_scaling >>= fun m =>
    MeshupModel.addFramePoseCalls env m calls

/-- Three calls of `addFramePose`, at the times 1, 3 and 2. -/
def sampleCalls : List FramePoseCall :=
  [⟨"PELVIS".toList, 1, ⟨0, 0, 0⟩, ⟨0, 0, 0⟩, ⟨1, 1, 1⟩⟩,
    ⟨"TORSO".toList, 3, ⟨0, 0, 0⟩, ⟨0, 0, 0⟩, ⟨1, 1, 1⟩⟩,
    ⟨"PELVIS".toList, 2, ⟨0, 0, 0⟩, ⟨0, 0, 0⟩, ⟨1, 1, 1⟩⟩]

/-! ## Reads of `interpolatePose` (MeshupModel.cc 189-206) -/

/-- The bracketing loop of `interpolatePose` (lines 197-201) with the reads of
the iterator checked: `end_pose = *pose_iter` with `pose_iter == poses.end ()`
reads no keyframe and is the result `Halt.undefined`. As in `bracketLoop`, `it`
is the suffix of `poses` that starts at `pose_iter`. -/
def bracketLoopChecked (time : ℚ) :
    List FramePose → FramePose → FramePose →
      Except Halt (List FramePose × FramePose × FramePose)
  | [], start_pose, end_pose => .ok ([], start_pose, end_pose)
  | p :: rest, start_pose, end_pose =>
    if end_pose.timestamp ≤ time then
      match rest with
      | [] => .error .undefined
      | q :: _ => bracketLoopChecked time rest end_pose q
    else .ok (p :: rest, start_pose, end_pose)

/-- `FrameAnimationTrack::interpolatePose (float time)` with the reads of the
iterator checked. -/
def interpolatePoseChecked (slerp : smQuaternion → ℚ → smQuaternion → smQuaternion)
    (poses : List FramePose) (time : ℚ) : Except Halt FramePose :=
  match poses with
  | [] => .ok FramePose.init
  | [p] => .ok p
  | p0 :: p1 :: rest =>
    bracketLoopChecked time (p1 :: rest) p0 p1 >>= fun r =>
    let end_pose := if r.1 = [] then r.2.1 else r.2.2
    .ok (blendPoses slerp r.2.1 end_pose time)

/-- An animation clock with duration 0 that loops, at the time 1. -/
def sampleStuckPlayback : Playback := { current_time := 1, duration := 0, loop := true }

/-! ## Segment transformations of the model (MeshupModel.cc 414-451) -/

/-- Lines 420-431 of `MeshupModel::updateSegments`: the local `scale`. -/
def MeshupModel.updateSegments.scale (seg : Segment) : Vector3fx :=
  let bbox_size := seg.mesh.bbox_max.sub seg.mesh.bbox_min
  if seg.dimensions.x ≠ .fin 0 then
    ⟨seg.dimensions.x.fabs.div bbox_size.x,
      seg.dimensions.y.fabs.div bbox_size.y,
      seg.dimensions.z.fabs.div bbox_size.z⟩
  else if seg.scale.x.gt (.fin 0) then seg.scale
  else ⟨.fin 1, .fin 1, .fin 1⟩

/-- Lines 433-441 of `MeshupModel::updateSegments`: the local `translate`. -/
def MeshupModel.updateSegments.translate (seg : Segment) : Vector3fx :=
  let bbox_size := seg.mesh.bbox_max.sub seg.mesh.bbox_min
  let scale := MeshupModel.updateSegments.scale seg
  let translate : Vector3fx :=
    if seg.meshcenter.x.isnan = false then
      let center := seg.mesh.bbox_min.add (bbox_size.smul (.fin (1 / 2)))
      ⟨(center.x.neg.mul scale.x).add seg.meshcenter.x,
        (center.y.neg.mul scale.y).add seg.meshcenter.y,
        (center.z.neg.mul scale.z).add seg.meshcenter.z⟩
    else ⟨.fin 0, .fin 0, .fin 0⟩
  translate.add seg.translate

/-- The body of the loop of `updateSegments` (lines 444-447 assign
`gl_matrix`), for a segment whose pointer `frame` points to `frame`. -/
def MeshupModel.updateSegments.body (gl : GLOps) (seg : Segment) (frame : Frame) : Segment :=
  { seg with
    gl_matrix :=
      UpdateModelSegmentTransformations.gl_matrix gl
        (MeshupModel.updateSegments.scale seg)
        (MeshupModel.updateSegments.translate seg) frame.pose_transform }

/-- The loop `while (seg_iter != segments.end ())` of `updateSegments`, from
the segment `seg_iter` on. -/
def MeshupModel.updateSegments.loop (gl : GLOps) (model : MeshupModel) :
    List Segment → Except Halt (List Segment)
  | [] => .ok []
  | seg :: rest =>
    match seg.frame.bind model.frameAt with
    | none => .error .undefined
    | some frame =>
      MeshupModel.updateSegments.loop gl model rest >>= fun rest =>
      .ok (MeshupModel.updateSegments.body gl seg frame :: rest)

/-- `MeshupModel::updateSegments ()`. -/
def MeshupModel.updateSegments (gl : GLOps) (model : MeshupModel) : Except Halt MeshupModel :=
  MeshupModel.updateSegments.loop gl model model.segments >>= fun segments =>
  .ok { model with segments := segments }

/-- A segment of PELVIS with the dimensions (0, 2, 0), the scale of the
constructor and no mesh-center. -/
def sampleFlatSegment : Segment :=
  { sampleSegment with
    dimensions := ⟨.fin 0, .fin 2, .fin 0⟩
    scale := ⟨.fin (-1), .fin (-1), .fin (-1)⟩ }

/-- The sample model with the segment `sampleFlatSegment`. -/
def sampleFlatModel : MeshupModel :=
  { sampleModel with segments := [sampleFlatSegment] }

/-! ## Lua model files: `lua_get_matrix3f` (MeshupModel.cc 1078-1129) -/

/-- `Matrix33f`: a 3x3 matrix. -/
abbrev Matrix33f := Matrix (Fin 3) (Fin 3) ℚ

/-- What `lua_get_vector3f` and `lua_get_matrix3f` take from outside of the
sources: the functions of the Lua table reader and the storage order of
`Matrix33f`. -/
structure LuaOps where
  /-- `get_length (L, path, index)` -/
  get_length : Str → Int → Nat
  /-- `get_array (L, path, index)` -/
  get_array : Str → Int → List ℚ
  /-- The row and the column of the entry `data ()[i]` of a `Matrix33f`. -/
  data_index : Fin 9 → Fin 3 × Fin 3

/-- `lua_get_vector3f (L, path, index)`. -/
def lua_get_vector3f (lua : LuaOps) (path : Str) (index : Int) : Except Halt Vector3f :=
  match lua.get_array path index with
  | [a0, a1, a2] => .ok ⟨a0, a1, a2⟩
  | _ => .error .abort

/-- The three assignments `result (r, 0) = row[0]; result (r, 1) = row[1];
result (r, 2) = row[2];`. -/
def assignRow (result : Matrix33f) (r : Fin 3) (row : Vector3f) : Matrix33f :=
  fun i j => if i = r then row.get j else result i j

/-- The loop `result.data ()[i] = array[i]` of lines 1124-1126, from the
entries `entries` on. -/
def assignData (lua : LuaOps) (array : List ℚ) : List (Fin 9) → Matrix33f → Matrix33f
  | [], result => result
  | k :: entries, result =>
    assignData lua array entries
      (fun i j => if (i, j) = lua.data_index k then array.getD k.val 0 else result i j)

/-- `lua_get_matrix3f (L, path)`; `junk` is the content of `result` after its
declaration `Matrix33f result;`. -/
def lua_get_matrix3f (lua : LuaOps) (junk : Matrix33f) (path : Str) : Except Halt Matrix33f :=
  if lua.get_length path (-1) = 3 then
    lua_get_vector3f lua path 1 >>= fun row1 =>
    lua_get_vector3f lua path 2 >>= fun row2 =>
    lua_get_vector3f lua path 3 >>= fun row3 =>
    .ok (assignRow (assignRow (assignRow junk 0 row1) 1 row2) 1 row3)
  else
    let array := lua.get_array path (-1)
    if array.length ≠ 9 then .error .abort
    else .ok (assignData lua array (List.finRange 9) junk)

/-- The rows of a matrix. -/
def matrixRows (m : Matrix33f) : List (ℚ × ℚ × ℚ) :=
  [(m 0 0, m 0 1, m 0 2), (m 1 0, m 1 1, m 1 2), (m 2 0, m 2 1, m 2 2)]

/-- A Lua state in which `E` is the table `{{1, 2, 3}, {4, 5, 6}, {7, 8, 9}}`;
the entries of a `Matrix33f` are stored row by row. -/
def sampleLua : LuaOps :=
  { get_length := fun path index =>
      if path = "E".toList ∧ index = -1 then 3 else 0
    get_array := fun path index =>
      if path = "E".toList ∧ index = 1 then [1, 2, 3]
      else if path = "E".toList ∧ index = 2 then [4, 5, 6]
      else if path = "E".toList ∧ index = 3 then [7, 8, 9]
      else []
    data_index := fun k => (⟨k.val / 3, by omega⟩, ⟨k.val % 3, by omega⟩) }

/-! ## The loop of `tokenize` (string_utils.h 37-51) -/

/-- The function `tokenize` as it is written: the loop
`while (line.find_first_of (delimiter) != npos)` with the two calls of `substr`,
followed by the test of lines 47-48. The first argument bounds the number of
evaluations of the loop condition; `none` means that the bound was reached
before the loop was left. -/
def tokenizeLoop (delimiter : Str) : Nat → Str → List Str → Option (Except Halt (List Str))
  | 0, _, _ => none
  | fuel + 1, line, result =>
    match find_first_of line delimiter with
    | some pos =>
      match substr line 0 (some pos) with
      | .error e => some (.error e)
      | .ok token =>
        match substr line (token.length + 1) (some line.length) with
        | .error e => some (.error e)
        | .ok rest => tokenizeLoop delimiter fuel rest (result ++ [token])
    | none => some (.ok (if line.length > 0 then result ++ [line] else result))

/-! ## The frame traversal of the writers (MeshupModel.cc 688-729, 871-909) -/

mutual
/-- The descendants of a frame in pre-order, each with the name of its parent:
the first child, the descendants of the first child, the second child, and so
on. -/
def Frame.descendants : Frame → List (Frame × Str)
  | .mk name _ _ _ _ _ _ _ children => descendantsOf name children
/-- The frames of a list of siblings and their descendants in pre-order, the
siblings with the parent name `parent`. -/
def descendantsOf : Str → List Frame → List (Frame × Str)
  | _, [] => []
  | parent, child :: children =>
    (child, parent) :: (child.descendants ++ descendantsOf parent children)
end

/-- The values that a writer `emit` gives for a list of frames with parent
names, in order; the first call of `emit` that does not return ends the
process. -/
def emitAll {α : Type} (emit : Frame → Str → Except Halt α) :
    List (Frame × Str) → Except Halt (List α)
  | [] => .ok []
  | e :: rest =>
    emit e.1 e.2 >>= fun node =>
    emitAll emit rest >>= fun nodes =>
    .ok (node :: nodes)

/-- The loop `while (frame_stack.size () > 0)` of the two writers (lines
704-728 and 887-908). `frame_stack` and `child_index_stack` hold the stacks,
the top first; `emitted` holds what was written so far; `emit child parent` is
the value written for a child frame. The first argument bounds the number of
evaluations of the loop condition (`none`: the bound was reached before the
loop was left). `child_index_stack.top ()` on an empty stack is
`Halt.undefined`. -/
def frameTraversal.loop {α : Type} (emit : Frame → Str → Except Halt α) :
    Nat → List Frame → List Nat → List α → Option (Except Halt (List α))
  | 0, _, _, _ => none
  | _ + 1, [], _, emitted => some (.ok emitted)
  | _ + 1, _ :: _, [], _ => some (.error .undefined)
  | fuel + 1, cur_frame :: frame_stack, child_idx :: child_index_stack, emitted =>
    match cur_frame.children.get? child_idx with
    | some child_frame =>
      match emit child_frame cur_frame.name with
      | .error e => some (.error e)
      | .ok node =>
        if child_frame.children.length > 0 then
          frameTraversal.loop emit fuel (child_frame :: cur_frame :: frame_stack)
            (0 :: (child_idx + 1) :: child_index_stack) (emitted ++ [node])
        else
          frameTraversal.loop emit fuel (cur_frame :: frame_stack)
            ((child_idx + 1) :: child_index_stack) (emitted ++ [node])
    | none => frameTraversal.loop emit fuel frame_stack child_index_stack emitted

/-- The body of the loop `for (int bi = 0; bi < frames.size (); bi++)` (lines
691-728) for the root frame `root`; `emitRoot` is the value written for a root
that is not named BASE. -/
def frameTraversal.root {α : Type} (emit : Frame → Str → Except Halt α)
    (emitRoot : Frame → Except Halt α) (fuel : Nat) (root : Frame) (emitted : List α) :
    Option (Except Halt (List α)) :=
  let child_index_stack := if root.children.length > 0 then [0] else []
  if root.name ≠ "BASE".toList then
    match emitRoot root with
    | .error e => some (.error e)
    | .ok node => frameTraversal.loop emit fuel [root] child_index_stack (emitted ++ [node])
  else frameTraversal.loop emit fuel [root] child_index_stack emitted

/-- The loop over the root frames (line 690), from the root `frames[bi]` on. -/
def frameTraversal {α : Type} (emit : Frame → Str → Except Halt α)
    (emitRoot : Frame → Except Halt α) (fuel : Nat) :
    List Frame → List α → Option (Except Halt (List α))
  | [], emitted => some (.ok emitted)
  | root :: roots, emitted =>
    match frameTraversal.root emit emitRoot fuel root emitted with
    | some (.ok emitted) => frameTraversal emit emitRoot fuel roots emitted
    | r => r

/-- Lines 711-712: the value written for a child frame, `frame_to_json_value`
with the member `parent`. -/
def saveModelToJsonFile.child (frame_config : FrameConfig) (child_frame : Frame)
    (parent : Str) : Except Halt FrameNode :=
  frame_to_json_value child_frame frame_config >>= fun node =>
  .ok { node with parent := some parent }

/-- Lines 688-729 of `saveModelToJsonFile`: the array `frames` of the root
node. -/
def saveModelToJsonFile.frames (fuel : Nat) (m : MeshupModel) :
    Option (Except Halt (List FrameNode)) :=
  frameTraversal (saveModelToJsonFile.child m.configuration)
    (fun root => frame_to_json_value root m.configuration) fuel m.frames []

/-- The loop goes on with what a list of frames has given, or the process has
ended in a writer. -/
def frameTraversal.resume {α : Type} (emit : Frame → Str → Except Halt α) (fuel : Nat)
    (frame_stack : List Frame) (child_index_stack : List Nat) (emitted : List α)
    (r : Except Halt (List α)) : Option (Except Halt (List α)) :=
  match r with
  | .ok nodes => frameTraversal.loop emit fuel frame_stack child_index_stack (emitted ++ nodes)
  | .error e => some (.error e)

/-- Every entry of a list of pairs (parent name, frame name) names a parent
that is in `seen` or is the frame name of an earlier entry. -/
def parentsPresent : List Str → List (Str × Str) → Prop
  | _, [] => True
  | seen, e :: rest => e.1 ∈ seen ∧ parentsPresent (e.2 :: seen) rest

/-- Lines 1035-1052 of `loadModelFromJsonFile`: `addFrame` for every node of
the array `frames`. `convertAnglesToMatrix` is the function of that name of
`FrameConfig.h`; a member that is not set is read by `json_to_vec3` as
(0, 0, 0) and by `asString ()` as the empty string. -/
def loadModelFromJsonFile.frames (env : ModelEnv) (gl : GLOps)
    (convertAnglesToMatrix : FrameConfig → Vector3f → Matrix44f) :
    MeshupModel → List FrameNode → Except Halt MeshupModel
  | m, [] => .ok m
  | m, frame_node :: rest =>
    let parent_translation :=
      transposeMul m.configuration.axes_rotation (frame_node.parent_translation.getD ⟨0, 0, 0⟩)
    let parent_rotation := frame_node.parent_rotation.getD ⟨0, 0, 0⟩
    let parent_transform :=
      convertAnglesToMatrix m.configuration parent_rotation
        * gl.smTranslate parent_translation.x parent_translation.y parent_translation.z
    m.addFrame env (frame_node.parent.getD []) frame_node.name parent_transform >>= fun m =>
    loadModelFromJsonFile.frames env gl convertAnglesToMatrix m rest

/-- The root frame of the sample model. -/
def sampleRoot : Frame :=
  .mk "BASE".toList ⟨0, 0, 0⟩ ⟨0, 0, 0⟩ ⟨0, 0, 0, 1⟩ ⟨1, 1, 1⟩ 1 1 1 [samplePelvis]

/-! ## Sequences of calls of `addFrame` -/

/-- The names of the frames of the subtree of a frame, the frame first. -/
def Frame.names (f : Frame) : List Str :=
  (f.withParentPose 1).map fun e => e.1.name

/-- The arguments of one call of `addFrame`. -/
structure FrameCall where
  parent_frame_name : Str
  frame_name : Str
  parent_transform : Matrix44f

/-- A sequence of calls of `addFrame`, the first call first. -/
def MeshupModel.addFrameCalls (env : ModelEnv) :
    MeshupModel → List FrameCall → Except Halt MeshupModel
  | m, [] => .ok m
  | m, c :: calls =>
    m.addFrame env c.parent_frame_name c.frame_name c.parent_transform >>= fun m =>
    MeshupModel.addFrameCalls env m calls

/-- Two calls of `addFrame`: `A` below `BASE`, then `B` below `A`. -/
def sampleFrameCalls : List FrameCall :=
  [⟨"BASE".toList, "A".toList, 1⟩, ⟨"A".toList, "B".toList, 1⟩]

/-! ## Rotations over the real numbers (Animation.cc 488, 522-526, MeshupModel.cc 182-231) -/

namespace Reals

/-- Quaternion (`smQuaternion`) with real components, in the order x, y, z, w. -/
structure smQuaternion where
  x : ℝ
  y : ℝ
  z : ℝ
  w : ℝ

namespace smQuaternion

/-- The scalar product of two quaternions. -/
def dot (p q : smQuaternion) : ℝ := p.x * q.x + p.y * q.y + p.z * q.z + p.w * q.w

/-- `squaredNorm ()`. -/
def squaredNorm (q : smQuaternion) : ℝ := dot q q

/-- The sum of two quaternions. -/
def add (p q : smQuaternion) : smQuaternion := ⟨p.x + q.x, p.y + q.y, p.z + q.z, p.w + q.w⟩

/-- The product of a number and a quaternion. -/
def smul (a : ℝ) (q : smQuaternion) : smQuaternion := ⟨a * q.x, a * q.y, a * q.z, a * q.w⟩

/-- Modelled from the spec: the product of two quaternions (`operator*=` of
SimpleMath is not among the sources), the Hamilton product. -/
def mul (p q : smQuaternion) : smQuaternion :=
  ⟨p.w * q.x + p.x * q.w + p.y * q.z - p.z * q.y,
    p.w * q.y - p.x * q.z + p.y * q.w + p.z * q.x,
    p.w * q.z + p.x * q.y - p.y * q.x + p.z * q.w,
    p.w * q.w - p.x * q.x - p.y * q.y - p.z * q.z⟩

/-- Modelled from the spec: the quaternion divided by its norm ("normalize
results", section 4.3). -/
noncomputable def normalized (q : smQuaternion) : smQuaternion :=
  smul (1 / Real.sqrt q.squaredNorm) q

/-- Modelled from the spec: `smQuaternion::fromGLRotate (angle, x, y, z)` is
not among the sources; the axis-angle quaternion of section 4.2 for an angle in
degrees about the axis (x, y, z). -/
noncomputable def fromGLRotate (angle x y z : ℝ) : smQuaternion :=
  ⟨Real.sin (angle * Real.pi / 360) * x, Real.sin (angle * Real.pi / 360) * y,
    Real.sin (angle * Real.pi / 360) * z, Real.cos (angle * Real.pi / 360)⟩

/-- Modelled from the spec: "taking the shortest arc" (section 4.3); the end of
the arc is the second quaternion, negated when the scalar product with the
first one is negative. -/
noncomputable def shortestArc (q0 q1 : smQuaternion) : smQuaternion :=
  if dot q0 q1 < 0 then smul (-1) q1 else q1

/-- Modelled from the spec: `q0.slerp (fraction, q1)` is not among the
sources. Section 4.3: spherical-linear interpolation between the two
quaternions along the shortest arc, the result normalized; where the scalar
product of the two is within `eps` of 1, linear interpolation, normalized. -/
noncomputable def slerp (eps : ℝ) (q0 : smQuaternion) (fraction : ℝ) (q1 : smQuaternion) :
    smQuaternion :=
  if 1 - eps < dot q0 (shortestArc q0 q1) then
    normalized (add (smul (1 - fraction) q0) (smul fraction (shortestArc q0 q1)))
  else
    normalized
      (add
        (smul (Real.sin ((1 - fraction) * Real.arccos (dot q0 (shortestArc q0 q1)))
          / Real.sin (Real.arccos (dot q0 (shortestArc q0 q1)))) q0)
        (smul (Real.sin (fraction * Real.arccos (dot q0 (shortestArc q0 q1)))
          / Real.sin (Real.arccos (dot q0 (shortestArc q0 q1)))) (shortestArc q0 q1)))

end smQuaternion

/-- The members `timestamp` and `rotation_quaternion` of a keyframe
(`FramePose`, and `TransformInfo` with the timestamp of its `KeyFrame`), over
the real numbers. -/
structure FramePose where
  timestamp : ℝ
  rotation_quaternion : smQuaternion

/-- Modelled from the spec: the constructor `FramePose ()` is declared in a
header that is not among the sources; the identity rotation, as in
`MeshUp.FramePose.init`. -/
def FramePose.init : FramePose := ⟨0, ⟨0, 0, 0, 1⟩⟩

/-- Animation.cc line 488 for the rotation columns of a row, in column order:
`transform.rotation_quaternion *= smQuaternion::fromGLRotate (value, axis[0],
axis[1], axis[2])` for every pair of a value and an axis. -/
noncomputable def composeRotations :
    smQuaternion → List (ℝ × Vector3f) → smQuaternion
  | q, [] => q
  | q, (value, axis) :: rest =>
    composeRotations (q.mul (smQuaternion.fromGLRotate value axis.x axis.y axis.z)) rest

/-- The rotation of a keyframe whose columns are rotations about z, y and x,
in this order (the columns of `TestLongEulerInterpolation`). -/
noncomputable def eulerZYX (z y x : ℝ) : smQuaternion :=
  composeRotations ⟨0, 0, 0, 1⟩ [(z, ⟨0, 0, 1⟩), (y, ⟨0, 1, 0⟩), (x, ⟨1, 0, 0⟩)]

/-- `InterpolateModelFramePose (frame, start_pose, end_pose, fraction)`, line
524: the member `pose_rotation_quaternion` of the frame afterwards. -/
noncomputable def InterpolateModelFramePose
    (slerp : smQuaternion → ℝ → smQuaternion → smQuaternion)
    (start_pose end_pose : FramePose) (fraction : ℝ) : smQuaternion :=
  slerp start_pose.rotation_quaternion fraction end_pose.rotation_quaternion

/-- The bracketing loop of `interpolatePose` (lines 197-201), as `bracketLoop`,
over the real numbers. -/
noncomputable def bracketLoop (junk : FramePose) (time : ℝ) :
    List FramePose → FramePose → FramePose → List FramePose × FramePose × FramePose
  | [], start_pose, end_pose => ([], start_pose, end_pose)
  | p :: rest, start_pose, end_pose =>
    if end_pose.timestamp ≤ time then
      bracketLoop junk time rest end_pose (rest.headD junk)
    else
      (p :: rest, start_pose, end_pose)

/-- Lines 211-231 of `interpolatePose` for the two bracketing poses: the
timestamp and the rotation quaternion of the pose returned. -/
noncomputable def blendPoses (slerp : smQuaternion → ℝ → smQuaternion → smQuaternion)
    (start_pose end_pose : FramePose) (time : ℝ) : FramePose :=
  if end_pose.timestamp - start_pose.timestamp = 0 then start_pose
  else
    let fraction := (time - start_pose.timestamp) / (end_pose.timestamp - start_pose.timestamp)
    let fraction := if fraction > 1 then 1 else fraction
    let fraction := if fraction < 0 then 0 else fraction
    { timestamp := start_pose.timestamp + fraction * (end_pose.timestamp - start_pose.timestamp)
      rotation_quaternion :=
        slerp start_pose.rotation_quaternion fraction end_pose.rotation_quaternion }

/-- `FrameAnimationTrack::interpolatePose (float time)` over the real numbers:
the timestamp and the rotation quaternion of the pose returned. -/
noncomputable def interpolatePose (slerp : smQuaternion → ℝ → smQuaternion → smQuaternion)
    (junk : FramePose) (poses : List FramePose) (time : ℝ) : FramePose :=
  match poses with
  | [] => FramePose.init
  | [p] => p
  | p0 :: p1 :: rest =>
    match bracketLoop junk time (p1 :: rest) p0 p1 with
    | ([], start_pose, _) => blendPoses slerp start_pose start_pose time
    | (_ :: _, start_pose, end_pose) => blendPoses slerp start_pose end_pose time

end Reals
/-! # Theorems -/

/-! ## Helper lemmas: the bracketing loop -/

/-- If some keyframe at or after the iterator is later than `time`, the loop
stops at the first such keyframe, with `start_pose` the keyframe right before
it, and never reaches `end()`. -/
theorem bracketLoop_stops (junk : FramePose) (time : ℚ) :
    ∀ (rest : List FramePose) (s e : FramePose),
      (∃ p ∈ e :: rest, time < p.timestamp) →
      ∃ pre start_pose end_pose post,
        s :: e :: rest = pre ++ start_pose :: end_pose :: post ∧
        (∀ p ∈ (pre ++ [start_pose]).tail, p.timestamp ≤ time) ∧
        time < end_pose.timestamp ∧
        bracketLoop junk time (e :: rest) s e = (end_pose :: post, start_pose, end_pose) := by
  intro rest
  induction rest with
  | nil =>
    intro s e h
    obtain ⟨p, hp, hlt⟩ := h
    simp only [List.mem_singleton] at hp
    subst hp
    refine ⟨[], s, p, [], rfl, by simp, hlt, ?_⟩
    simp [bracketLoop, not_le.mpr hlt]
  | cons e2 rest2 ih =>
    intro s e h
    by_cases hle : e.timestamp ≤ time
    · have h2 : ∃ p ∈ e2 :: rest2, time < p.timestamp := by
        obtain ⟨p, hp, hlt⟩ := h
        rcases List.mem_cons.mp hp with rfl | hp
        · exact absurd hle (not_le.mpr hlt)
        · exact ⟨p, hp, hlt⟩
      obtain ⟨pre, st, en, post, hdec, hall, hlt, hrun⟩ := ih e e2 h2
      refine ⟨s :: pre, st, en, post, by rw [hdec]; rfl, ?_, hlt, ?_⟩
      · intro p hp
        simp only [List.cons_append, List.tail_cons] at hp
        cases pre with
        | nil =>
          simp only [List.nil_append, List.cons.injEq] at hdec
          simp only [List.nil_append, List.mem_singleton] at hp
          rw [hp, ← hdec.1]; exact hle
        | cons q pre2 =>
          simp only [List.cons_append, List.cons.injEq] at hdec
          rcases List.mem_cons.mp hp with rfl | hp
          · rw [← hdec.1]; exact hle
          · exact hall p (by simpa using hp)
      · simp only [bracketLoop, hle, if_true, List.headD_cons]
        exact hrun
    · refine ⟨[], s, e, e2 :: rest2, rfl, by simp, not_le.mp hle, ?_⟩
      simp [bracketLoop, hle]

/-- If no keyframe at or after the iterator is later than `time`, the loop
runs to `end()`, and `start_pose` is then the last keyframe. -/
theorem bracketLoop_overshoots (junk : FramePose) (time : ℚ) :
    ∀ (rest : List FramePose) (s e : FramePose),
      (∀ p ∈ e :: rest, p.timestamp ≤ time) →
      ∃ j, bracketLoop junk time (e :: rest) s e
        = ([], (e :: rest).getLast (List.cons_ne_nil e rest), j) := by
  intro rest
  induction rest with
  | nil =>
    intro s e h
    refine ⟨junk, ?_⟩
    simp [bracketLoop, h e (by simp)]
  | cons e2 rest2 ih =>
    intro s e h
    obtain ⟨j, hj⟩ := ih e e2 (fun p hp => h p (List.mem_cons_of_mem _ hp))
    refine ⟨j, ?_⟩
    have hstep : bracketLoop junk time (e :: e2 :: rest2) s e
        = bracketLoop junk time (e2 :: rest2) e e2 := by
      rw [bracketLoop, if_pos (h e (by simp))]; rfl
    rw [hstep, hj]
    simp

/-- The blend of a pose with itself is that pose. -/
theorem blendPoses_self (slerp : smQuaternion → ℚ → smQuaternion → smQuaternion)
    (p : FramePose) (time : ℚ) : blendPoses slerp p p time = p := by
  simp [blendPoses]

/-! ## Claims -/

/-- C1: for a track of at least two keyframes and a query time `t` with
`first.timestamp ≤ t < last.timestamp`, `interpolatePose` brackets `t` by two
adjacent keyframes `start`, `end` (every keyframe before `end`, the first one
apart, has a timestamp `≤ t`; `start.timestamp ≤ t < end.timestamp`), its
fraction `f = (t - start.timestamp) / (end.timestamp - start.timestamp)` lies
in `[0, 1)`, and the translation and the scaling it returns are
`start + f * (end - start)`. (Holds for any order of the timestamps.) -/
theorem C1_interpolatePose_linear
    (slerp : smQuaternion → ℚ → smQuaternion → smQuaternion) (junk : FramePose)
    (poses : List FramePose) (first last : FramePose) (t : ℚ)
    (hlen : 2 ≤ poses.length)
    (hfirst : poses.head? = some first) (hlast : poses.getLast? = some last)
    (h0 : first.timestamp ≤ t) (h1 : t < last.timestamp) :
    ∃ pre start_pose end_pose post,
      poses = pre ++ start_pose :: end_pose :: post ∧
      (∀ p ∈ (pre ++ [start_pose]).tail, p.timestamp ≤ t) ∧
      start_pose.timestamp ≤ t ∧ t < end_pose.timestamp ∧
      0 ≤ (t - start_pose.timestamp) / (end_pose.timestamp - start_pose.timestamp) ∧
      (t - start_pose.timestamp) / (end_pose.timestamp - start_pose.timestamp) < 1 ∧
      (interpolatePose slerp junk poses t).translation =
        Vector3f.add start_pose.translation
          (Vector3f.smul
            ((t - start_pose.timestamp) / (end_pose.timestamp - start_pose.timestamp))
            (Vector3f.sub end_pose.translation start_pose.translation)) ∧
      (interpolatePose slerp junk poses t).scaling =
        Vector3f.add start_pose.scaling
          (Vector3f.smul
            ((t - start_pose.timestamp) / (end_pose.timestamp - start_pose.timestamp))
            (Vector3f.sub end_pose.scaling start_pose.scaling)) := by
  match poses, hlen, hfirst, hlast with
  | p0 :: p1 :: rest, _, hfirst, hlast =>
    simp only [List.head?_cons, Option.some.injEq] at hfirst
    subst hfirst
    have hmem : last ∈ p1 :: rest := by
      have h := List.mem_of_getLast?_eq_some hlast
      have : (p0 :: p1 :: rest).getLast? = (p1 :: rest).getLast? := by simp [List.getLast?_cons_cons]
      rw [this] at hlast
      exact List.mem_of_getLast?_eq_some hlast
    obtain ⟨pre, st, en, post, hdec, hall, hlt, hrun⟩ :=
      bracketLoop_stops junk t rest p0 p1 ⟨last, hmem, h1⟩
    have hst : st.timestamp ≤ t := by
      cases pre with
      | nil =>
        simp only [List.nil_append, List.cons.injEq] at hdec
        rw [← hdec.1]; exact h0
      | cons q pre2 =>
        exact hall st (by simp)
    have hpos : 0 < en.timestamp - st.timestamp := by linarith
    have hf0 : 0 ≤ (t - st.timestamp) / (en.timestamp - st.timestamp) :=
      div_nonneg (by linarith) hpos.le
    have hf1 : (t - st.timestamp) / (en.timestamp - st.timestamp) < 1 := by
      rw [div_lt_one hpos]; linarith
    refine ⟨pre, st, en, post, hdec, hall, hst, hlt, hf0, hf1, ?_, ?_⟩
    · simp only [interpolatePose, hrun, blendPoses, Vector3f.lerp]
      simp [hpos.ne', not_lt.mpr hf1.le, not_lt.mpr hf0]
    · simp only [interpolatePose, hrun, blendPoses, Vector3f.lerp]
      simp [hpos.ne', not_lt.mpr hf1.le, not_lt.mpr hf0]

/-- Witness of C1: the track `[sampleKeyA, sampleKeyB]` queried at `t = 1`. -/
theorem C1_interpolatePose_linear_witness :
    (2 ≤ [sampleKeyA, sampleKeyB].length ∧
      [sampleKeyA, sampleKeyB].head? = some sampleKeyA ∧
      [sampleKeyA, sampleKeyB].getLast? = some sampleKeyB ∧
      sampleKeyA.timestamp ≤ 1 ∧ (1 : ℚ) < sampleKeyB.timestamp) ∧
    ∃ pre start_pose end_pose post,
      [sampleKeyA, sampleKeyB] = pre ++ start_pose :: end_pose :: post ∧
      (∀ p ∈ (pre ++ [start_pose]).tail, p.timestamp ≤ 1) ∧
      start_pose.timestamp ≤ 1 ∧ 1 < end_pose.timestamp ∧
      0 ≤ (1 - start_pose.timestamp) / (end_pose.timestamp - start_pose.timestamp) ∧
      (1 - start_pose.timestamp) / (end_pose.timestamp - start_pose.timestamp) < 1 ∧
      (interpolatePose sampleSlerp FramePose.init [sampleKeyA, sampleKeyB] 1).translation =
        Vector3f.add start_pose.translation
          (Vector3f.smul
            ((1 - start_pose.timestamp) / (end_pose.timestamp - start_pose.timestamp))
            (Vector3f.sub end_pose.translation start_pose.translation)) ∧
      (interpolatePose sampleSlerp FramePose.init [sampleKeyA, sampleKeyB] 1).scaling =
        Vector3f.add start_pose.scaling
          (Vector3f.smul
            ((1 - start_pose.timestamp) / (end_pose.timestamp - start_pose.timestamp))
            (Vector3f.sub end_pose.scaling start_pose.scaling)) :=
  ⟨⟨by decide, rfl, rfl, by decide!, by decide!⟩,
    C1_interpolatePose_linear sampleSlerp FramePose.init [sampleKeyA, sampleKeyB]
      sampleKeyA sampleKeyB 1 (by decide) rfl rfl (by decide!) (by decide!)⟩

/-- C2: for a track with at least one keyframe, none of them later than `D`,
and a query time `t > D`, `interpolatePose t` equals `interpolatePose D`, and
both are the last keyframe of the track, unchanged. -/
theorem C2_interpolatePose_beyond_end
    (slerp : smQuaternion → ℚ → smQuaternion → smQuaternion) (junk : FramePose)
    (poses : List FramePose) (D t : ℚ) (hne : poses ≠ [])
    (hD : ∀ p ∈ poses, p.timestamp ≤ D) (ht : D < t) :
    interpolatePose slerp junk poses t = interpolatePose slerp junk poses D ∧
    interpolatePose slerp junk poses D = poses.getLast hne := by
  have key : ∀ u : ℚ, D ≤ u → interpolatePose slerp junk poses u = poses.getLast hne := by
    intro u hu
    match poses, hne, hD with
    | [p], _, _ => rfl
    | p0 :: p1 :: rest, _, hD =>
      obtain ⟨j, hj⟩ := bracketLoop_overshoots junk u rest p0 p1
        (fun p hp => le_trans (hD p (List.mem_cons_of_mem _ hp)) hu)
      simp only [interpolatePose, hj, if_true, blendPoses_self]
      simp
  rw [key t ht.le, key D le_rfl]
  exact ⟨rfl, rfl⟩

/-- Witness of C2: the track `[sampleKeyA, sampleKeyB]` with `D = 2`, `t = 5`. -/
theorem C2_interpolatePose_beyond_end_witness :
    ((∀ p ∈ [sampleKeyA, sampleKeyB], p.timestamp ≤ 2) ∧ (2 : ℚ) < 5) ∧
    interpolatePose sampleSlerp FramePose.init [sampleKeyA, sampleKeyB] 5 =
      interpolatePose sampleSlerp FramePose.init [sampleKeyA, sampleKeyB] 2 ∧
    interpolatePose sampleSlerp FramePose.init [sampleKeyA, sampleKeyB] 2 =
      [sampleKeyA, sampleKeyB].getLast (List.cons_ne_nil _ _) :=
  ⟨⟨by decide!, by decide!⟩,
    C2_interpolatePose_beyond_end sampleSlerp FramePose.init [sampleKeyA, sampleKeyB] 2 5
      (List.cons_ne_nil _ _) (by decide!) (by decide!)⟩

/-! ## Helper lemmas: the time wrap -/

/-- With a positive duration the wrap loop ends: it subtracts the duration
`k` times, where `k` is bounded by `n` whenever `current_time ≤ (n + 1) * duration`. -/
theorem wrapLoop_result (D : ℚ) (hD : 0 < D) :
    ∀ (n : ℕ) (ct : ℚ), ct ≤ (n + 1) * D →
      ∃ k : ℕ, k ≤ n ∧ ct - k * D ≤ D ∧ (D < ct → 0 < k ∧ 0 < ct - k * D) ∧
        ∀ fuel, k < fuel → wrapLoop D fuel ct = some (ct - k * D) := by
  intro n
  induction n with
  | zero =>
    intro ct h
    have hle : ct ≤ D := by simpa using h
    refine ⟨0, le_rfl, by simpa using hle, fun hlt => absurd hle (not_le.mpr hlt), ?_⟩
    intro fuel hf
    obtain ⟨m, rfl⟩ := Nat.exists_eq_succ_of_ne_zero (Nat.pos_iff_ne_zero.mp hf)
    simp [wrapLoop, not_lt.mpr hle]
  | succ n ih =>
    intro ct h
    by_cases hle : ct ≤ D
    · refine ⟨0, Nat.zero_le _, by simpa using hle, fun hlt => absurd hle (not_le.mpr hlt), ?_⟩
      intro fuel hf
      obtain ⟨m, rfl⟩ := Nat.exists_eq_succ_of_ne_zero (Nat.pos_iff_ne_zero.mp hf)
      simp [wrapLoop, not_lt.mpr hle]
    · have hlt : D < ct := not_le.mp hle
      have hstep : ct - D ≤ (n + 1) * D := by
        push_cast at h
        linarith
      obtain ⟨k, hk, hkle, hkpos, hrun⟩ := ih (ct - D) hstep
      have heq : ct - ((k + 1 : ℕ) : ℚ) * D = ct - D - k * D := by
        push_cast; ring
      refine ⟨k + 1, Nat.succ_le_succ hk, by rw [heq]; exact hkle, ?_, ?_⟩
      · intro _
        refine ⟨Nat.succ_pos k, ?_⟩
        rw [heq]
        by_cases h2 : D < ct - D
        · exact (hkpos h2).2
        · have hk0 : (0 : ℚ) ≤ k := Nat.cast_nonneg k
          rcases Nat.eq_zero_or_pos k with rfl | hkp
          · simp; linarith
          · -- the loop on `ct - D` did not iterate, so `k = 0`
            have := hrun (k + 1) (Nat.lt_succ_self k)
            simp only [wrapLoop, gt_iff_lt, h2, if_false, Option.some.injEq] at this
            have hkD : (k : ℚ) * D = 0 := by linarith
            rcases mul_eq_zero.mp hkD with hk' | hD'
            · exact absurd (Nat.cast_eq_zero.mp hk') (Nat.pos_iff_ne_zero.mp hkp)
            · exact absurd hD' hD.ne'
      · intro fuel hf
        obtain ⟨m, rfl⟩ := Nat.exists_eq_succ_of_ne_zero (Nat.not_eq_zero_of_lt hf)
        rw [wrapLoop, if_pos hlt, hrun m (Nat.lt_of_succ_lt_succ hf), heq]

/-- A field without delimiter, followed by a delimiter, is closed as one token. -/
theorem tokenizeFrom_field (delimiter : Str) (d : Char) (hd : d ∈ delimiter) :
    ∀ (f rest token : Str), (∀ c ∈ f, c ∉ delimiter) →
      tokenizeFrom delimiter (f ++ d :: rest) token
        = (token.reverse ++ f) :: tokenizeFrom delimiter rest [] := by
  intro f
  induction f with
  | nil =>
    intro rest token _
    simp [tokenizeFrom, hd]
  | cons c f ih =>
    intro rest token h
    have hc : c ∉ delimiter := h c (by simp)
    have hf : ∀ c ∈ f, c ∉ delimiter := fun x hx => h x (List.mem_cons_of_mem _ hx)
    rw [List.cons_append, tokenizeFrom, if_neg hc, ih rest (c :: token) hf]
    simp

/-- What follows the last delimiter is one token, unless it is empty. -/
theorem tokenizeFrom_last (delimiter : Str) :
    ∀ (f token : Str), (∀ c ∈ f, c ∉ delimiter) →
      tokenizeFrom delimiter f token
        = if token.reverse ++ f = [] then [] else [token.reverse ++ f] := by
  intro f
  induction f with
  | nil =>
    intro token _
    simp [tokenizeFrom]
  | cons c f ih =>
    intro token h
    have hc : c ∉ delimiter := h c (by simp)
    have hf : ∀ c ∈ f, c ∉ delimiter := fun x hx => h x (List.mem_cons_of_mem _ hx)
    rw [tokenizeFrom, if_neg hc, ih (c :: token) hf]
    simp

/-- When a sequence of two calls returns, both calls have returned. -/
theorem bind_ok_inv {α β : Type} (x : Except Halt α) (f : α → Except Halt β) (b : β)
    (h : (x >>= f) = .ok b) : ∃ a, x = .ok a ∧ f a = .ok b := by
  cases x with
  | error e => cases h
  | ok a => exact ⟨a, rfl, h⟩

/-- `strip_whitespaces` never returns the empty string. -/
theorem stripTrailing_ne_nil (ws : Str) :
    ∀ (rev out : Str), stripTrailing ws rev = .ok out → out ≠ [] := by
  intro rev
  induction rev with
  | nil => intro out h; simp [stripTrailing] at h
  | cons c rev ih =>
    intro out h
    simp only [stripTrailing] at h
    split at h
    · exact ih out h
    · simp only [Except.ok.injEq] at h
      rw [← h]; simp

theorem strip_whitespaces_ne_nil (line out : Str) (h : strip_whitespaces line = .ok out) :
    out ≠ [] := by
  unfold strip_whitespaces strip_whitespaces_with at h
  obtain ⟨r, _, hr⟩ := bind_ok_inv _ _ _ h
  exact stripTrailing_ne_nil _ _ _ hr

theorem strip_whitespaces_arg_ne_nil (line out : Str) (h : strip_whitespaces line = .ok out) :
    line ≠ [] := by
  rintro rfl
  simp [strip_whitespaces, strip_whitespaces_with, stripLeading, find_first_of, bind,
    Except.bind, stripTrailing] at h

/-- The names of the transform types. -/
theorem parseTransformType_of_name (s : Str) (ty : TransformType)
    (h : (s, ty) ∈ [("rotation".toList, TransformType.TransformTypeRotation),
      ("r".toList, .TransformTypeRotation),
      ("translation".toList, .TransformTypeTranslation), ("t".toList, .TransformTypeTranslation),
      ("scale".toList, .TransformTypeScale), ("s".toList, .TransformTypeScale)]) :
    parseTransformType s = some ty := by
  simp only [List.mem_cons, Prod.mk.injEq, List.mem_singleton, List.not_mem_nil, or_false] at h
  rcases h with h | h | h | h | h | h <;> obtain ⟨hs, hty⟩ := h <;> subst hs hty <;> decide

/-- The names of the axes. -/
theorem parseAxisType_of_name (s : Str) (ax : AxisType)
    (h : (s, ax) ∈ [("x".toList, AxisType.AxisTypeX), ("y".toList, .AxisTypeY),
      ("z".toList, .AxisTypeZ), ("-x".toList, .AxisTypeNegativeX),
      ("-y".toList, .AxisTypeNegativeY), ("-z".toList, .AxisTypeNegativeZ)]) :
    parseAxisType s = some ax := by
  simp only [List.mem_cons, Prod.mk.injEq, List.mem_singleton, List.not_mem_nil, or_false] at h
  rcases h with h | h | h | h | h | h <;> obtain ⟨hs, hty⟩ := h <;> subst hs hty <;> decide

/-- The colon-separated fields of a column token (Animation.cc line 320). -/
theorem tokenize_columnToken (r0 r1 r2 : Str) (r3 : Option Str)
    (hc0 : ':' ∉ r0) (hc1 : ':' ∉ r1) (hc2 : ':' ∉ r2) (hn2 : r2 ≠ [])
    (hc3 : ∀ u, r3 = some u → ':' ∉ u ∧ u ≠ []) :
    tokenize (columnToken r0 r1 r2 r3) [':']
      = match r3 with
        | none => [r0, r1, r2]
        | some u => [r0, r1, r2, u] := by
  have hd : ':' ∈ [':'] := by simp
  have e0 : ∀ c ∈ r0, c ∉ [':'] := fun c hc => by simp; rintro rfl; exact hc0 hc
  have e1 : ∀ c ∈ r1, c ∉ [':'] := fun c hc => by simp; rintro rfl; exact hc1 hc
  have e2 : ∀ c ∈ r2, c ∉ [':'] := fun c hc => by simp; rintro rfl; exact hc2 hc
  unfold tokenize columnToken
  rw [tokenizeFrom_field _ _ hd r0 _ _ e0, tokenizeFrom_field _ _ hd r1 _ _ e1]
  cases r3 with
  | none =>
    simp only [List.append_nil]
    rw [tokenizeFrom_last _ r2 _ e2]
    simp [hn2]
  | some u =>
    obtain ⟨hcu, hnu⟩ := hc3 u rfl
    have e3 : ∀ c ∈ u, c ∉ [':'] := fun c hc => by simp; rintro rfl; exact hcu hc
    simp only []
    rw [tokenizeFrom_field _ _ hd r2 _ _ e2, tokenizeFrom_last _ u _ e3]
    simp [hnu]

/-- A column token holds a colon, so it is neither `time` nor `empty`, and it
is not the empty string. -/
theorem columnToken_not_keyword (r0 r1 r2 : Str) (r3 : Option Str) :
    tolower (columnToken r0 r1 r2 r3) ≠ "time".toList ∧
    tolower (columnToken r0 r1 r2 r3) ≠ "empty".toList ∧
    (columnToken r0 r1 r2 r3).length ≠ 0 := by
  have hcolon : ':' ∈ tolower (columnToken r0 r1 r2 r3) := by
    unfold tolower
    have h : Char.toLower ':' = ':' := by decide
    rw [← h]
    exact List.mem_map_of_mem _ (by simp [columnToken])
  refine ⟨?_, ?_, by simp [columnToken]⟩
  · intro h; rw [h] at hcolon; revert hcolon; decide
  · intro h; rw [h] at hcolon; revert hcolon; decide

/-- A string without NUL is its own C string. -/
theorem c_str_of_no_nul (s : Str) (hs : Char.ofNat 0 ∉ s) : c_str s = s := by
  unfold c_str
  rw [List.takeWhile_eq_self_iff]
  intro c hc
  simp only [ne_eq, decide_eq_true_eq]
  rintro rfl
  exact hs hc

/-- C5: a column token `frame:type:axis` or `frame:type:axis:unit` (fields
without colon, each possibly surrounded by whitespace that `strip_whitespaces`
removes; the token itself carries no outer whitespace) whose type field is,
in any letter case, one of rotation|r, translation|t, scale|s and whose axis
field is one of x, y, z, -x, -y, -z makes the column parser of
`Animation::loadFromFileAtFrameRate` append exactly one `ColumnInfo`: its frame
name is the first field (as a C string: up to a NUL character, if there is
one), its type and axis are the named ones, it is neither a time nor an empty
column, and its radian flag is set exactly when there is a fourth field that
is, in any letter case, one of r, rad, radian, radians; without a fourth field
the column is in degrees. -/
theorem C5_column_token_parsed (strict : Bool) (ei : Nat) (acc : List ColumnInfo × Int)
    (r0 r1 r2 : Str) (r3 : Option Str) (f0 f1 f2 : Str)
    (ty : TransformType) (ax : AxisType)
    (hc0 : ':' ∉ r0) (hc1 : ':' ∉ r1) (hc2 : ':' ∉ r2)
    (hc3 : ∀ u, r3 = some u → ':' ∉ u)
    (htoken : strip_whitespaces (columnToken r0 r1 r2 r3) = .ok (columnToken r0 r1 r2 r3))
    (h0 : strip_whitespaces r0 = .ok f0) (h1 : strip_whitespaces r1 = .ok f1)
    (h2 : strip_whitespaces r2 = .ok f2)
    (h3 : ∀ u, r3 = some u → ∃ f3, strip_whitespaces u = .ok f3)
    (hty : (tolower f1, ty) ∈
      [("rotation".toList, TransformType.TransformTypeRotation),
        ("r".toList, .TransformTypeRotation),
        ("translation".toList, .TransformTypeTranslation),
        ("t".toList, .TransformTypeTranslation),
        ("scale".toList, .TransformTypeScale), ("s".toList, .TransformTypeScale)])
    (hax : (tolower f2, ax) ∈
      [("x".toList, AxisType.AxisTypeX), ("y".toList, .AxisTypeY),
        ("z".toList, .AxisTypeZ), ("-x".toList, .AxisTypeNegativeX),
        ("-y".toList, .AxisTypeNegativeY), ("-z".toList, .AxisTypeNegativeZ)]) :
    ∃ c : ColumnInfo,
      parseColumnElement strict ei (columnToken r0 r1 r2 r3) acc
        = .ok (some (acc.1 ++ [c], acc.2 + 1)) ∧
      c.frame_name = c_str f0 ∧ (Char.ofNat 0 ∉ f0 → c.frame_name = f0) ∧
      c.type = ty ∧ c.axis = ax ∧
      c.is_time_column = false ∧ c.is_empty = false ∧
      (c.is_radian = true ↔ ∃ u f3, r3 = some u ∧ strip_whitespaces u = .ok f3 ∧
        tolower f3 ∈ ["r".toList, "rad".toList, "radian".toList, "radians".toList]) ∧
      (r3 = none → c.is_radian = false) := by
  have hn2 : r2 ≠ [] := strip_whitespaces_arg_ne_nil r2 f2 h2
  have hc3' : ∀ u, r3 = some u → ':' ∉ u ∧ u ≠ [] := fun u hu =>
    ⟨hc3 u hu, by obtain ⟨f3, hf3⟩ := h3 u hu; exact strip_whitespaces_arg_ne_nil u f3 hf3⟩
  have htok := tokenize_columnToken r0 r1 r2 r3 hc0 hc1 hc2 hn2 hc3'
  obtain ⟨hnt, hne, hlen⟩ := columnToken_not_keyword r0 r1 r2 r3
  have hfields : ∀ s3 b, parseUnit s3 = .ok b →
      parseColumnFields strict r0 r1 r2 s3 = .ok (some ⟨c_str f0, ty, ax, false, false, b⟩) := by
    intro s3 b hb
    simp only [parseColumnFields, h0, h1, h2, hb, parseTransformType_of_name _ _ hty,
      parseAxisType_of_name _ _ hax, bind, Except.bind, ColumnInfo.init]
  cases r3 with
  | none =>
    refine ⟨⟨c_str f0, ty, ax, false, false, false⟩, ?_, rfl, c_str_of_no_nul f0, rfl, rfl,
      rfl, rfl, by simp, fun _ => rfl⟩
    simp only [] at htok
    simp only [parseColumnElement, hlen, if_false, htoken, hnt, hne, parseColumnSpec, htok,
      hfields none false rfl, bind, Except.bind]
  | some u =>
    obtain ⟨f3, hf3⟩ := h3 u rfl
    have hu : parseUnit (some u) = .ok (decide (tolower f3 = "r".toList
        ∨ tolower f3 = "rad".toList ∨ tolower f3 = "radian".toList
        ∨ tolower f3 = "radians".toList)) := by
      simp only [parseUnit, hf3, bind, Except.bind]
    refine ⟨⟨c_str f0, ty, ax, false, false, decide (tolower f3 = "r".toList
        ∨ tolower f3 = "rad".toList ∨ tolower f3 = "radian".toList
        ∨ tolower f3 = "radians".toList)⟩,
      ?_, rfl, c_str_of_no_nul f0, rfl, rfl, rfl, rfl, ?_, by simp⟩
    · simp only [] at htok
      simp only [parseColumnElement, hlen, if_false, htoken, hnt, hne, parseColumnSpec, htok,
        hfields (some u) _ hu, bind, Except.bind]
    · simp only [decide_eq_true_eq, Option.some.injEq]
      constructor
      · intro h
        exact ⟨u, f3, rfl, hf3, by simpa using h⟩
      · rintro ⟨u', f3', rfl, hf3', hmem⟩
        rw [hf3] at hf3'
        simp only [Except.ok.injEq] at hf3'
        subst hf3'
        simpa using hmem

/-- Witness of C5: the token `PELVIS:r:z:rad`. -/
theorem C5_column_token_parsed_witness :
    (':' ∉ "PELVIS".toList ∧ ':' ∉ "r".toList ∧ ':' ∉ "z".toList ∧
      (∀ u, some "rad".toList = some u → ':' ∉ u) ∧
      strip_whitespaces (columnToken "PELVIS".toList "r".toList "z".toList (some "rad".toList))
        = .ok (columnToken "PELVIS".toList "r".toList "z".toList (some "rad".toList)) ∧
      strip_whitespaces "PELVIS".toList = .ok "PELVIS".toList ∧
      strip_whitespaces "r".toList = .ok "r".toList ∧
      strip_whitespaces "z".toList = .ok "z".toList ∧
      (∀ u, some "rad".toList = some u → ∃ f3, strip_whitespaces u = .ok f3)) ∧
    ∃ c : ColumnInfo,
      parseColumnElement true 1
          (columnToken "PELVIS".toList "r".toList "z".toList (some "rad".toList)) ([], 0)
        = .ok (some (([] : List ColumnInfo) ++ [c], (0 : Int) + 1)) ∧
      c.frame_name = c_str "PELVIS".toList ∧
      (Char.ofNat 0 ∉ "PELVIS".toList → c.frame_name = "PELVIS".toList) ∧
      c.type = .TransformTypeRotation ∧ c.axis = .AxisTypeZ ∧
      c.is_time_column = false ∧ c.is_empty = false ∧
      (c.is_radian = true ↔ ∃ u f3, some "rad".toList = some u ∧
        strip_whitespaces u = .ok f3 ∧
        tolower f3 ∈ ["r".toList, "rad".toList, "radian".toList, "radians".toList]) ∧
      ((some "rad".toList : Option Str) = none → c.is_radian = false) :=
  ⟨⟨by decide, by decide, by decide,
      fun u h => by cases h; decide, by decide, by decide, by decide, by decide,
      fun u h => by cases h; exact ⟨"rad".toList, by decide⟩⟩,
    C5_column_token_parsed true 1 ([], 0) "PELVIS".toList "r".toList "z".toList
      (some "rad".toList) "PELVIS".toList "r".toList "z".toList
      .TransformTypeRotation .AxisTypeZ (by decide) (by decide) (by decide)
      (fun u h => by cases h; decide) (by decide) (by decide) (by decide) (by decide)
      (fun u h => by cases h; exact ⟨"rad".toList, by decide⟩) (by decide) (by decide)⟩

/-! ## Helper lemmas: the data section of Animation.cc -/

/-- The column loop leaves the timestamp of the keyframe alone. -/
theorem dataColumn_timestamp (env : Env) (columns : List Str) (ci : Nat) (col : ColumnInfo)
    (k k' : KeyFrame) (h : dataColumn env columns ci col k = .ok k') :
    k'.timestamp = k.timestamp := by
  unfold dataColumn at h
  simp only [] at h
  repeat' split at h
  all_goals first
    | (simp only [Except.ok.injEq] at h; rw [← h])
    | exact absurd h (by simp)

theorem dataColumns_timestamp (env : Env) (columns : List Str) :
    ∀ (cols : List ColumnInfo) (ci : Nat) (k k' : KeyFrame),
      dataColumns env columns ci cols k = .ok k' → k'.timestamp = k.timestamp := by
  intro cols
  induction cols with
  | nil =>
    intro ci k k' h
    simp only [dataColumns, Except.ok.injEq] at h
    rw [h]
  | cons col cols ih =>
    intro ci k k' h
    unfold dataColumns at h
    obtain ⟨k1, h1, h2⟩ := bind_ok_inv _ _ _ h
    rw [ih (ci + 1) k1 k' h2, dataColumn_timestamp env columns ci col k k1 h1]

/-- A row of the data section, by the rule of lines 430-435: it is skipped
when `skipRow` holds (only the counter of skipped rows changes), and otherwise
its keyframe is appended and its time becomes `force_fps_previous_frame`. -/
theorem dataRow_eq (env : Env) (fps : ℚ) (st : LoadState) (line : Str)
    (first : Str) (more : List Str) (t : ℚ) (kf : KeyFrame)
    (hcsv : st.csv_mode = false)
    (htok : tokenize line whitespaces_std = first :: more)
    (hlen : st.anim.column_infos.length ≤ (first :: more).length)
    (hfirst : env.readFloat first = some t)
    (hkf : dataColumns env (first :: more) 1 (st.anim.column_infos.drop 1)
      { timestamp := t, transformations := [] } = .ok kf) :
    dataRow env fps st line =
      if skipRow fps st.last_line st.force_fps_previous_frame t then
        .ok { st with force_fps_skipped_frame_count := st.force_fps_skipped_frame_count + 1 }
      else
        .ok { st with
          force_fps_previous_frame := t
          force_fps_frame_count := st.force_fps_frame_count + 1
          anim := { st.anim with keyframes := st.anim.keyframes ++ [kf] } } := by
  unfold dataRow dataRowTokens
  simp only [hcsv, Bool.false_eq_true, if_false, htok, bind, Except.bind, not_lt.mpr hlen,
    hfirst, hkf]

/-- A clean data line (no comment, no outer whitespace, not a section marker)
met in the data section is handed to `dataRow`. -/
theorem processLine_row (env : Env) (filename : Str) (fps : ℚ) (strict : Bool)
    (st : LoadState) (got raw : Str) (eof : Bool)
    (hline : (if eof then st.line else got) = raw)
    (hclean1 : strip_whitespaces raw = .ok raw) (hclean2 : strip_comments raw = .ok raw)
    (hC : raw.take 8 ≠ "COLUMNS:".toList) (hD : raw.take 5 ≠ "DATA:".toList)
    (hds : st.data_section = true) (hcs : st.column_section = false) :
    processLine env filename fps strict st got eof =
      dataRow env fps
        { (if eof then { st with last_line := true }
            else { st with line_number := st.line_number + 1 }) with line := raw } raw
        >>= fun st => .ok (.next st) := by
  have hne : raw.length ≠ 0 := by
    have := strip_whitespaces_ne_nil raw raw hclean1
    simpa using this
  unfold processLine
  simp only [hline, hclean1, hclean2, bind, Except.bind, hne, if_false, hC]
  unfold processSections
  have hD' : List.take 5 raw ≠ ['D', 'A', 'T', 'A', ':'] := hD
  cases eof <;> simp [hD', hds, hcs, bind, Except.bind]

/-- A clean data line met in the data section is skipped or kept by the rule
of lines 430-435. -/
theorem processLine_row_eq (env : Env) (filename : Str) (fps : ℚ) (strict : Bool)
    (st : LoadState) (got raw first : Str) (more : List Str) (t : ℚ) (kf : KeyFrame) (eof : Bool)
    (hline : (if eof then st.line else got) = raw)
    (hclean1 : strip_whitespaces raw = .ok raw) (hclean2 : strip_comments raw = .ok raw)
    (hC : raw.take 8 ≠ "COLUMNS:".toList) (hD : raw.take 5 ≠ "DATA:".toList)
    (hds : st.data_section = true) (hcs : st.column_section = false)
    (hcsv : st.csv_mode = false)
    (htok : tokenize raw whitespaces_std = first :: more)
    (hlen : st.anim.column_infos.length ≤ (first :: more).length)
    (hfirst : env.readFloat first = some t)
    (hkf : dataColumns env (first :: more) 1 (st.anim.column_infos.drop 1)
      { timestamp := t, transformations := [] } = .ok kf) :
    processLine env filename fps strict st got eof =
      if skipRow fps (eof || st.last_line) st.force_fps_previous_frame t then
        .ok (.next { st with
          line := raw
          last_line := eof || st.last_line
          line_number := if eof then st.line_number else st.line_number + 1
          force_fps_skipped_frame_count := st.force_fps_skipped_frame_count + 1 })
      else
        .ok (.next { st with
          line := raw
          last_line := eof || st.last_line
          line_number := if eof then st.line_number else st.line_number + 1
          force_fps_previous_frame := t
          force_fps_frame_count := st.force_fps_frame_count + 1
          anim := { st.anim with keyframes := st.anim.keyframes ++ [kf] } }) := by
  rw [processLine_row env filename fps strict st got raw eof hline hclean1 hclean2 hC hD hds hcs]
  cases eof
  · have hrow := dataRow_eq env fps { { st with line_number := st.line_number + 1 } with line := raw }
      raw first more t kf hcsv htok hlen hfirst hkf
    simp only [] at hrow
    by_cases hskip : skipRow fps st.last_line st.force_fps_previous_frame t = true
    · simp [hrow, hskip, bind, Except.bind]
    · simp [hrow, hskip, bind, Except.bind]
  · have hrow := dataRow_eq env fps { { st with last_line := true } with line := raw }
      raw first more t kf hcsv htok hlen hfirst hkf
    simp only [] at hrow
    by_cases hskip : skipRow fps true st.force_fps_previous_frame t = true
    · simp [hrow, hskip, bind, Except.bind]
    · simp [hrow, hskip, bind, Except.bind]

/-- The rule of lines 430-435 for a positive target rate, outside of the
re-read last line. -/
theorem skipRow_iff (fps p t : ℚ) (hfps : 0 < fps) :
    skipRow fps false p t = false ↔ (t = 0 ∨ toDouble (p + toDouble (1 / fps)) < t) := by
  have hne : fps ≠ -1 := by intro h; rw [h] at hfps; exact absurd hfps (by norm_num)
  simp only [skipRow, hne, ne_eq, not_false_eq_true, true_and, ge_iff_le, decide_eq_false_iff_not,
    not_and, not_le]
  constructor
  · intro h
    by_cases h0 : t = 0
    · exact Or.inl h0
    · exact Or.inr (h h0)
  · rintro (h | h) h0
    · exact absurd h h0
    · exact h

/-- A plain data row has a first token, from which its time is read. -/
theorem plain_tokens (env : Env) (column_infos : List ColumnInfo) (r : DataRow)
    (h : r.Plain env column_infos) :
    ∃ first more, tokenize r.raw whitespaces_std = first :: more ∧
      env.readFloat first = some r.time := by
  obtain ⟨_, _, _, _, _, hread, _⟩ := h
  cases htok : tokenize r.raw whitespaces_std with
  | nil => rw [htok] at hread; simp at hread
  | cons first more =>
    rw [htok] at hread
    exact ⟨first, more, rfl, by simpa using hread⟩

/-- A plain data row met in the data section before the end of the file: it
is kept or skipped by the rule of `keptRows`. -/
theorem processLine_plain (env : Env) (filename : Str) (fps : ℚ) (strict : Bool)
    (st : LoadState) (r : DataRow) (hfps : 0 < fps)
    (hds : st.data_section = true) (hcs : st.column_section = false)
    (hcsv : st.csv_mode = false) (hlast : st.last_line = false)
    (hplain : r.Plain env st.anim.column_infos) :
    processLine env filename fps strict st r.raw false =
      .ok (.next
        (if r.time = 0 ∨ toDouble (st.force_fps_previous_frame + toDouble (1 / fps)) < r.time
          then st.kept r false else st.skipped r)) := by
  obtain ⟨first, more, htok, hfirst⟩ := plain_tokens env _ r hplain
  obtain ⟨hc1, hc2, hC, hD, hlen, _, hkf⟩ := hplain
  rw [htok] at hlen hkf
  rw [processLine_row_eq env filename fps strict st r.raw r.raw first more r.time r.keyframe
    false rfl hc1 hc2 hC hD hds hcs hcsv htok hlen hfirst hkf, hlast, Bool.or_false]
  by_cases h : r.time = 0 ∨ toDouble (st.force_fps_previous_frame + toDouble (1 / fps)) < r.time
  · rw [(skipRow_iff fps _ _ hfps).mpr h, if_pos h]
    rfl
  · have hs : skipRow fps false st.force_fps_previous_frame r.time = true := by
      cases hs : skipRow fps false st.force_fps_previous_frame r.time
      · exact absurd ((skipRow_iff fps _ _ hfps).mp hs) h
      · rfl
    rw [hs, if_neg h]
    rfl

/-- The pass of the reading loop at the end of the file, when the line before
was a plain data row: the row is read once more and kept. -/
theorem processLine_plain_eof (env : Env) (filename : Str) (fps : ℚ) (strict : Bool)
    (st : LoadState) (r : DataRow) (got : Str)
    (hline : st.line = r.raw)
    (hds : st.data_section = true) (hcs : st.column_section = false)
    (hcsv : st.csv_mode = false)
    (hplain : r.Plain env st.anim.column_infos) :
    processLine env filename fps strict st got true = .ok (.next (st.kept r true)) := by
  obtain ⟨first, more, htok, hfirst⟩ := plain_tokens env _ r hplain
  obtain ⟨hc1, hc2, hC, hD, hlen, _, hkf⟩ := hplain
  rw [htok] at hlen hkf
  have hns : skipRow fps true st.force_fps_previous_frame r.time = false := by simp [skipRow]
  rw [processLine_row_eq env filename fps strict st got r.raw first more r.time r.keyframe
    true hline hc1 hc2 hC hD hds hcs hcsv htok hlen hfirst hkf, Bool.true_or, hns]
  rfl

/-- The reading loop on the plain data rows `rows` and `last`, each followed
by a newline, and the text `x` after the last newline: the rows are kept by
the rule of `keptRows`, then `last` is read once more with `last_line` set and
kept; `x` is not read as a row. -/
theorem readLines_rows (env : Env) (filename : Str) (fps : ℚ) (strict : Bool) (x : Str)
    (hfps : 0 < fps) (hnd : env.ndebug = true) (last : DataRow) :
    ∀ (rows : List DataRow) (st : LoadState),
      st.found_column_section = true → st.found_data_section = true →
      st.data_section = true → st.column_section = false → st.csv_mode = false →
      st.last_line = false →
      (∀ r ∈ rows ++ [last], r.Plain env st.anim.column_infos) →
      readLines env filename fps strict ((rows ++ [last]).map (·.raw) ++ [x]) st
        = .ok (true, { st.anim with
            keyframes := st.anim.keyframes
              ++ keptRows fps st.force_fps_previous_frame (rows ++ [last]) ++ [last.keyframe]
            animation_filename := filename }) := by
  intro rows
  induction rows with
  | nil =>
    intro st hfc hfd hds hcs hcsv hlast hplain
    have hp : last.Plain env st.anim.column_infos := hplain last (by simp)
    have h1 := processLine_plain env filename fps strict st last hfps hds hcs hcsv hlast hp
    show readLines env filename fps strict [last.raw, x] st = _
    by_cases h : last.time = 0
        ∨ toDouble (st.force_fps_previous_frame + toDouble (1 / fps)) < last.time
    · rw [if_pos h] at h1
      have h2 := processLine_plain_eof env filename fps strict (st.kept last false) last x rfl
        hds hcs hcsv hp
      have hk : keptRows fps st.force_fps_previous_frame ([] ++ [last]) = [last.keyframe] := by
        simp only [List.nil_append, keptRows, if_pos h]
      rw [hk]
      simp only [readLines, List.isEmpty_cons, List.isEmpty_nil, h1, h2, bind, Except.bind,
        finishLoad]
      have e1 : ((st.kept last false).kept last true).found_column_section = true := hfc
      have e2 : ((st.kept last false).kept last true).found_data_section = true := hfd
      simp only [e1, e2, hnd, Bool.true_eq_false, if_false]
      simp [LoadState.kept]
    · rw [if_neg h] at h1
      have h2 := processLine_plain_eof env filename fps strict (st.skipped last) last x rfl
        hds hcs hcsv hp
      have hk : keptRows fps st.force_fps_previous_frame ([] ++ [last]) = [] := by
        simp only [List.nil_append, keptRows, if_neg h]
      rw [hk]
      simp only [readLines, List.isEmpty_cons, List.isEmpty_nil, h1, h2, bind, Except.bind,
        finishLoad]
      have e1 : ((st.skipped last).kept last true).found_column_section = true := hfc
      have e2 : ((st.skipped last).kept last true).found_data_section = true := hfd
      simp only [e1, e2, hnd, Bool.true_eq_false, if_false]
      simp [LoadState.kept, LoadState.skipped]
  | cons r rows ih =>
    intro st hfc hfd hds hcs hcsv hlast hplain
    have hp : r.Plain env st.anim.column_infos := hplain r (by simp)
    have hrest : ∀ r' ∈ rows ++ [last], r'.Plain env st.anim.column_infos :=
      fun r' hr' => hplain r' (by simp only [List.cons_append, List.mem_cons]; exact Or.inr hr')
    have h1 := processLine_plain env filename fps strict st r hfps hds hcs hcsv hlast hp
    have hne : ((rows ++ [last]).map (·.raw) ++ [x]).isEmpty = false := by
      cases rows <;> rfl
    show readLines env filename fps strict
      (r.raw :: ((rows ++ [last]).map (·.raw) ++ [x])) st = _
    by_cases h : r.time = 0
        ∨ toDouble (st.force_fps_previous_frame + toDouble (1 / fps)) < r.time
    · rw [if_pos h] at h1
      have hi := ih (st.kept r false) hfc hfd hds hcs hcsv rfl hrest
      have hk : keptRows fps st.force_fps_previous_frame (r :: rows ++ [last])
          = r.keyframe :: keptRows fps r.time (rows ++ [last]) := by
        show keptRows fps st.force_fps_previous_frame (r :: (rows ++ [last])) = _
        rw [keptRows, if_pos h]
      rw [hk]
      simp only [readLines, hne, h1, bind, Except.bind, hi]
      simp [LoadState.kept]
    · rw [if_neg h] at h1
      have hi := ih (st.skipped r) hfc hfd hds hcs hcsv rfl hrest
      have hk : keptRows fps st.force_fps_previous_frame (r :: rows ++ [last])
          = keptRows fps st.force_fps_previous_frame (rows ++ [last]) := by
        show keptRows fps st.force_fps_previous_frame (r :: (rows ++ [last])) = _
        rw [keptRows, if_neg h]
      rw [hk]
      simp only [readLines, hne, h1, bind, Except.bind, hi]
      simp [LoadState.skipped]

/-- Counterexample to C8: with a target rate of 4 frames per second the row at
`t = 0.25` (neither the first nor the last row, the last kept time being
`p = 0`) satisfies `t ≥ p + 1 / fps`, yet it is not kept: the keyframes are
those of the rows 0, 0.5, 1 and of the last line read once more. -/
theorem C8_counterexample :
    (1 / 4 : ℚ) ≥ 0 + 1 / 4 ∧
    loadedTimestamps (loadFromFileAtFrameRate
        (sampleEnv "COLUMNS: time\nDATA:\n0\n0.25\n0.5\n1\n".toList) emptyAnimation
        "anim.txt".toList ⟨1⟩ 4 true)
      = some [0, 1 / 2, 1, 1] := by
  decide!

/-- C8 (amended): with a target rate `fps > 0`, the plain data rows that are
followed by a newline are kept by this rule: a row with the timestamp `t` is
kept (its keyframe is appended and `t` becomes the last kept time `p`) if and
only if `t = 0` or `t` is greater than the sum of `p` and `1 / fps`, quotient
and sum computed in `double`; otherwise the row is dropped, only the counter of
skipped rows changes, and `p` stays the timestamp of the most recently kept
row. At the end of the file the last of these rows is read once more and kept,
and the text after the last newline is not read as a row. For the rows 0.00,
0.01, ..., 0.99, 1.0 (each followed by a newline) and 10 frames per second 11
keyframes are stored: those of the rows 0, 0.10, 0.20, 0.30, 0.41, 0.52, 0.62,
0.72, 0.83, 0.93 and the one of the last line. -/
theorem C8_decimation_rule (env : Env) (filename : Str) (fps : ℚ) (strict : Bool) (x : Str)
    (rows : List DataRow) (last : DataRow) (st : LoadState)
    (hfps : 0 < fps) (hnd : env.ndebug = true)
    (hfc : st.found_column_section = true) (hfd : st.found_data_section = true)
    (hds : st.data_section = true) (hcs : st.column_section = false)
    (hcsv : st.csv_mode = false) (hlast : st.last_line = false)
    (hplain : ∀ r ∈ rows ++ [last], r.Plain env st.anim.column_infos) :
    readLines env filename fps strict ((rows ++ [last]).map (·.raw) ++ [x]) st
      = .ok (true, { st.anim with
          keyframes := st.anim.keyframes
            ++ keptRows fps st.force_fps_previous_frame (rows ++ [last]) ++ [last.keyframe]
          animation_filename := filename }) ∧
    (∀ r ∈ rows ++ [last],
      (processLine env filename fps strict st r.raw false =
        .ok (.next
          (if r.time = 0 ∨ toDouble (st.force_fps_previous_frame + toDouble (1 / fps)) < r.time
            then st.kept r false else st.skipped r))) ∧
      r.keyframe.timestamp = r.time) ∧
    (∀ (p : ℚ) (r : DataRow) (more : List DataRow),
      keptRows fps p (r :: more) =
        if r.time = 0 ∨ toDouble (p + toDouble (1 / fps)) < r.time then
          r.keyframe :: keptRows fps r.time more
        else keptRows fps p more) ∧
    loadedTimestamps (loadFromFileAtFrameRate (sampleEnv decimationFile) emptyAnimation
        "anim.txt".toList ⟨1⟩ 10 true)
      = some ([0, 10, 20, 30, 41, 52, 62, 72, 83, 93].map (fun i : ℕ => toFloat ((i : ℚ) / 100))
          ++ [1]) := by
  refine ⟨?_, ?_, ?_, by decide!⟩
  · exact readLines_rows env filename fps strict x hfps hnd last rows st hfc hfd hds hcs hcsv
      hlast hplain
  · intro r hr
    refine ⟨processLine_plain env filename fps strict st r hfps hds hcs hcsv hlast
      (hplain r hr), ?_⟩
    obtain ⟨_, _, _, _, _, _, hkf⟩ := hplain r hr
    exact dataColumns_timestamp env _ _ _ _ _ hkf
  · intro p r more
    rfl

/-- Witness of C8: the rows 0, 0.25, 0.5 and 1 in the data section of a file
with a time column only, at 4 frames per second: the rows 0, 0.5 and 1 are
kept, the row 0.25 is dropped, then the last line is read once more. -/
theorem C8_decimation_rule_witness :
    ((0 : ℚ) < 4 ∧ (sampleEnv []).ndebug = true ∧
      sampleDataState.found_column_section = true ∧ sampleDataState.found_data_section = true ∧
      sampleDataState.data_section = true ∧ sampleDataState.column_section = false ∧
      sampleDataState.csv_mode = false ∧ sampleDataState.last_line = false ∧
      (∀ r ∈ [timeRow "0".toList 0, timeRow "0.25".toList (1 / 4),
            timeRow "0.5".toList (1 / 2)] ++ [timeRow "1".toList 1],
        r.Plain (sampleEnv []) sampleDataState.anim.column_infos)) ∧
    keptRows 4 0 ([timeRow "0".toList 0, timeRow "0.25".toList (1 / 4),
        timeRow "0.5".toList (1 / 2)] ++ [timeRow "1".toList 1])
      = [⟨0, []⟩, ⟨1 / 2, []⟩, ⟨1, []⟩] ∧
    (readLines (sampleEnv []) "anim.txt".toList 4 true
        (([timeRow "0".toList 0, timeRow "0.25".toList (1 / 4), timeRow "0.5".toList (1 / 2)]
            ++ [timeRow "1".toList 1]).map (·.raw) ++ [[]]) sampleDataState
      = .ok (true, { sampleDataState.anim with
          keyframes := sampleDataState.anim.keyframes
            ++ keptRows 4 sampleDataState.force_fps_previous_frame
              ([timeRow "0".toList 0, timeRow "0.25".toList (1 / 4),
                timeRow "0.5".toList (1 / 2)] ++ [timeRow "1".toList 1])
            ++ [(timeRow "1".toList 1).keyframe]
          animation_filename := "anim.txt".toList }) ∧
    (∀ r ∈ [timeRow "0".toList 0, timeRow "0.25".toList (1 / 4),
          timeRow "0.5".toList (1 / 2)] ++ [timeRow "1".toList 1],
      (processLine (sampleEnv []) "anim.txt".toList 4 true sampleDataState r.raw false =
        .ok (.next
          (if r.time = 0
              ∨ toDouble (sampleDataState.force_fps_previous_frame + toDouble (1 / 4)) < r.time
            then sampleDataState.kept r false else sampleDataState.skipped r))) ∧
      r.keyframe.timestamp = r.time) ∧
    (∀ (p : ℚ) (r : DataRow) (more : List DataRow),
      keptRows 4 p (r :: more) =
        if r.time = 0 ∨ toDouble (p + toDouble (1 / 4)) < r.time then
          r.keyframe :: keptRows 4 r.time more
        else keptRows 4 p more) ∧
    loadedTimestamps (loadFromFileAtFrameRate (sampleEnv decimationFile) emptyAnimation
        "anim.txt".toList ⟨1⟩ 10 true)
      = some ([0, 10, 20, 30, 41, 52, 62, 72, 83, 93].map (fun i : ℕ => toFloat ((i : ℚ) / 100))
          ++ [1])) :=
  ⟨⟨by norm_num, rfl, rfl, rfl, rfl, rfl, rfl, rfl, by decide!⟩, by decide!,
    C8_decimation_rule (sampleEnv []) "anim.txt".toList 4 true []
      [timeRow "0".toList 0, timeRow "0.25".toList (1 / 4), timeRow "0.5".toList (1 / 2)]
      (timeRow "1".toList 1) sampleDataState (by norm_num) rfl rfl rfl rfl rfl rfl rfl
      (by decide!)⟩

/-- C10 (the code at the failing inputs): without a target frame rate, a file
with the two data rows 0 and 1 that ends with a newline yields three keyframes
(the last row is read twice), and the same file without the final newline
yields the timestamps 0, 0 (the last row is replaced by the row before it). -/
theorem C10_last_row_misread :
    loadedTimestamps (loadFromFile (sampleEnv "COLUMNS: time\nDATA:\n0\n1\n".toList)
        emptyAnimation "anim.txt".toList ⟨1⟩ true)
      = some [0, 1, 1] ∧
    loadedTimestamps (loadFromFile (sampleEnv "COLUMNS: time\nDATA:\n0\n1".toList)
        emptyAnimation "anim.txt".toList ⟨1⟩ true)
      = some [0, 0] := by
  decide!

/-! ## Helper lemmas: the frame tree -/

mutual
/-- After `updatePoseTransform`, every frame of the subtree is composed with
the new pose transform of its parent. -/
theorem updatePoseTransform_composed (gl : GLOps) :
    ∀ (frame : Frame) (P : Matrix44f) (x : Frame × Matrix44f),
      x ∈ (frame.updatePoseTransform gl P).withParentPose P →
      x.1.pose_transform =
        gl.smScale x.1.pose_scaling.x x.1.pose_scaling.y x.1.pose_scaling.z
          * gl.toGLMatrix x.1.pose_rotation_quaternion
          * gl.smTranslate x.1.pose_translation.x x.1.pose_translation.y x.1.pose_translation.z
          * x.1.frame_transform * x.2
  | .mk name pt pr pq ps ft par old children, P, x, hx => by
    simp only [Frame.updatePoseTransform, Frame.withParentPose, List.mem_cons] at hx
    rcases hx with rfl | hx
    · simp only [Frame.pose_transform, Frame.pose_scaling, Frame.pose_rotation_quaternion,
        Frame.pose_translation, Frame.frame_transform, Matrix.mul_assoc]
    · exact updatePoseTransformChildren_composed gl children _ x hx
/-- The same for a list of siblings. -/
theorem updatePoseTransformChildren_composed (gl : GLOps) :
    ∀ (children : List Frame) (P : Matrix44f) (x : Frame × Matrix44f),
      x ∈ withParentPoseChildren (updatePoseTransformChildren gl children P) P →
      x.1.pose_transform =
        gl.smScale x.1.pose_scaling.x x.1.pose_scaling.y x.1.pose_scaling.z
          * gl.toGLMatrix x.1.pose_rotation_quaternion
          * gl.smTranslate x.1.pose_translation.x x.1.pose_translation.y x.1.pose_translation.z
          * x.1.frame_transform * x.2
  | [], _, x, hx => by
    simp [updatePoseTransformChildren, withParentPoseChildren] at hx
  | child :: children, P, x, hx => by
    simp only [updatePoseTransformChildren, withParentPoseChildren, List.mem_append] at hx
    rcases hx with hx | hx
    · exact updatePoseTransform_composed gl child P x hx
    · exact updatePoseTransformChildren_composed gl children P x hx
end

/-- The identity pose gives identity matrices in the sample matrix functions. -/
theorem sampleGL_identity :
    sampleGL.smScale 1 1 1 = 1 ∧ sampleGL.toGLMatrix ⟨0, 0, 0, 1⟩ = 1 ∧
    sampleGL.smTranslate 0 0 0 = 1 := by
  refine ⟨?_, ?_, ?_⟩ <;>
    · ext i j
      fin_cases i <;> fin_cases j <;>
        first
          | rfl
          | (simp [sampleGL, Matrix.one_apply]; done)
          | (simp [sampleGL]; rfl)

/-- The world transform of TORSO in the sample model, as a matrix. -/
theorem sampleGL_torso_matrix :
    sampleGL.smTranslate 0 1 0 * (sampleGL.toGLMatrix sampleRotation * sampleGL.smTranslate 0 1 0)
      = !![7 / 25, 24 / 25, 0, 0; -24 / 25, 7 / 25, 0, 0; 0, 0, 1, 0; -24 / 25, 32 / 25, 0, 1] := by
  simp [sampleGL, sampleRotation, Matrix.mul_apply, Fin.sum_univ_four, Matrix.of_apply]
  norm_num

/-- C7: after `MeshupModel::updateFrames`, the `pose_transform` of every frame
is `scale (pose_scaling) * rotation (pose_rotation_quaternion) * translate
(pose_translation) * frame_transform * P`, where `P` is the identity for a
root frame and, for every other frame, the `pose_transform` that its parent has
after this same update. In BASE -> PELVIS -> TORSO with rest translations
(0, 1, 0) and (0, 1, 0), a rotation posed on PELVIS turns the rest offset of
TORSO in the world transform of TORSO: its translation row is the rotated
offset (-24/25, 7/25, 0) plus the offset (0, 1, 0) of PELVIS. -/
theorem C7_updateFrames_composition (gl : GLOps) (m : MeshupModel) :
    (∀ root ∈ (m.updateFrames gl).frames, ∀ x ∈ root.withParentPose 1,
      x.1.pose_transform =
        gl.smScale x.1.pose_scaling.x x.1.pose_scaling.y x.1.pose_scaling.z
          * gl.toGLMatrix x.1.pose_rotation_quaternion
          * gl.smTranslate x.1.pose_translation.x x.1.pose_translation.y x.1.pose_translation.z
          * x.1.frame_transform * x.2) ∧
    ((sampleModel.updateFrames sampleGL).frameAt [0, 0, 0]).map Frame.pose_transform
      = some (sampleGL.smTranslate 0 1 0
          * (sampleGL.toGLMatrix sampleRotation * sampleGL.smTranslate 0 1 0)) ∧
    sampleGL.smTranslate 0 1 0 * (sampleGL.toGLMatrix sampleRotation * sampleGL.smTranslate 0 1 0)
      = !![7 / 25, 24 / 25, 0, 0; -24 / 25, 7 / 25, 0, 0; 0, 0, 1, 0; -24 / 25, 32 / 25, 0, 1] := by
  refine ⟨?_, ?_, sampleGL_torso_matrix⟩
  · intro root hroot x hx
    simp only [MeshupModel.updateFrames, List.mem_map] at hroot
    obtain ⟨frame, _, rfl⟩ := hroot
    exact updatePoseTransform_composed gl frame 1 x hx
  · obtain ⟨h1, h2, h3⟩ := sampleGL_identity
    simp [MeshupModel.updateFrames, MeshupModel.initDefaultFrameTransform, sampleModel,
      MeshupModel.init, MeshupModel.frameAt, Frame.descend, Frame.children,
      Frame.initDefaultFrameTransform, initDefaultFrameTransformChildren,
      Frame.updatePoseTransform, updatePoseTransformChildren, samplePelvis, sampleTorso,
      Frame.pose_transform, h1, h2, h3]

/-! ## Helper lemmas: the key poses of MeshupModel.cc -/

/-- A key among the keys has an entry. -/
theorem lookup_of_mem_keys {β : Type} (f : Option FramePtr) :
    ∀ l : List (Option FramePtr × β), f ∈ l.map Prod.fst → ∃ p, l.lookup f = some p := by
  intro l
  induction l with
  | nil => intro h; simp at h
  | cons e rest ih =>
    obtain ⟨key, p⟩ := e
    intro h
    by_cases hf : f = key
    · subst hf
      exact ⟨p, by simp [List.lookup]⟩
    · have h' : (f == key) = false := by simpa using hf
      simp only [List.map_cons, List.mem_cons] at h
      rcases h with h | h
      · exact absurd h hf
      · obtain ⟨q, hq⟩ := ih h
        exact ⟨q, by simp only [List.lookup, h', hq]⟩

/-- The column list is not written by one column. -/
theorem written_columns (k : Model.AnimationKeyPoses) (col : Model.ColumnInfo) (value : ℚ) :
    (MeshupModel.written k col value).columns = k.columns := by
  unfold MeshupModel.written
  split
  · rfl
  · split <;> rfl

/-- The column list is not written. -/
theorem writtenAll_columns (env : ModelEnv) :
    ∀ (ps : List (Model.ColumnInfo × Str)) (k : Model.AnimationKeyPoses),
      (MeshupModel.writtenAll env ps k).columns = k.columns := by
  intro ps
  induction ps with
  | nil => intro k; rfl
  | cons e rest ih =>
    intro k
    simp only [MeshupModel.writtenAll, ih, written_columns]

/-- A type name outside of the six names has no transform type. -/
theorem parseTransformType_unknown (s : Str)
    (h : s ∉ ["rotation".toList, "r".toList, "translation".toList, "t".toList,
      "scale".toList, "s".toList]) :
    parseTransformType s = none := by
  simp only [List.mem_cons, List.mem_singleton, List.not_mem_nil, or_false, not_or] at h
  obtain ⟨h1, h2, h3, h4, h5, h6⟩ := h
  rw [parseTransformType, if_neg (not_or.mpr ⟨h1, h2⟩), if_neg (not_or.mpr ⟨h3, h4⟩),
    if_neg (not_or.mpr ⟨h5, h6⟩)]

/-- An axis name outside of the six names has no axis. -/
theorem parseAxisType_unknown (s : Str)
    (h : s ∉ ["x".toList, "y".toList, "z".toList, "-x".toList, "-y".toList, "-z".toList]) :
    parseAxisType s = none := by
  simp only [List.mem_cons, List.mem_singleton, List.not_mem_nil, or_false, not_or] at h
  obtain ⟨h1, h2, h3, h4, h5, h6⟩ := h
  rw [parseAxisType, if_neg h1, if_neg h2, if_neg h3, if_neg h4, if_neg h5, if_neg h6]

/-- Without `strict`, three or four fields with an unknown type or an unknown
axis make the column parser of `Animation.cc` return false. -/
theorem parseColumnFields_malformed (s0 s1 s2 : Str) (s3 : Option Str) (f0 f1 : Str)
    (h0 : strip_whitespaces s0 = .ok f0) (h1 : strip_whitespaces s1 = .ok f1)
    (hbad : tolower f1 ∉ ["rotation".toList, "r".toList, "translation".toList, "t".toList,
        "scale".toList, "s".toList] ∨
      ∃ f2, strip_whitespaces s2 = .ok f2 ∧
        tolower f2 ∉ ["x".toList, "y".toList, "z".toList, "-x".toList, "-y".toList,
          "-z".toList]) :
    parseColumnFields false s0 s1 s2 s3 = .ok none := by
  unfold parseColumnFields
  simp only [h0, h1, bind, Except.bind]
  cases hty : parseTransformType (tolower f1) with
  | none => simp
  | some ty =>
    rcases hbad with hbad | ⟨f2, h2, hbad⟩
    · rw [parseTransformType_unknown _ hbad] at hty
      cases hty
    · simp [h2, parseAxisType_unknown _ hbad]

/-- Without `strict`, a malformed column definition makes `parseColumnSpec`
return false. -/
theorem parseColumnSpec_malformed (column_def : Str)
    (hbad : (tokenize column_def [':']).length < 3 ∨ 4 < (tokenize column_def [':']).length ∨
      ∃ s0 s1 s2 rest f0 f1, tokenize column_def [':'] = s0 :: s1 :: s2 :: rest ∧
        rest.length ≤ 1 ∧
        strip_whitespaces s0 = .ok f0 ∧ strip_whitespaces s1 = .ok f1 ∧
        (tolower f1 ∉ ["rotation".toList, "r".toList, "translation".toList, "t".toList,
            "scale".toList, "s".toList] ∨
          ∃ f2, strip_whitespaces s2 = .ok f2 ∧
            tolower f2 ∉ ["x".toList, "y".toList, "z".toList, "-x".toList, "-y".toList,
              "-z".toList])) :
    parseColumnSpec false column_def = .ok none := by
  unfold parseColumnSpec
  rcases hbad with h | h | ⟨s0, s1, s2, rest, f0, f1, hspec, hrest, h0, h1, hbad⟩
  · split
    · next heq => rw [heq] at h; simp at h
    · next heq => rw [heq] at h; simp at h
    · simp
  · split
    · next heq => rw [heq] at h; simp at h
    · next heq => rw [heq] at h; simp at h
    · simp
  · rw [hspec]
    match rest, hrest with
    | [], _ => exact parseColumnFields_malformed s0 s1 s2 none f0 f1 h0 h1 hbad
    | [s3], _ => exact parseColumnFields_malformed s0 s1 s2 (some s3) f0 f1 h0 h1 hbad

/-- The column loop on a list of elements that starts with `pre`. -/
theorem parseColumnElements_append (strict : Bool) :
    ∀ (pre rest : List Str) (ei : Nat) (acc : List ColumnInfo × Int),
      parseColumnElements strict ei (pre ++ rest) acc =
        parseColumnElements strict ei pre acc >>= fun r =>
          if r.1 then parseColumnElements strict (ei + pre.length) rest r.2 else .ok r := by
  intro pre
  induction pre with
  | nil => intro rest ei acc; simp [parseColumnElements, bind, Except.bind]
  | cons e pre ih =>
    intro rest ei acc
    simp only [List.cons_append, parseColumnElements, bind, Except.bind]
    cases parseColumnElement strict ei e acc with
    | error h => rfl
    | ok parsed =>
      cases parsed with
      | none => simp
      | some acc' =>
        have hstep := ih rest (ei + 1) acc'
        simp only [bind, Except.bind] at hstep
        have hnum : ei + 1 + pre.length = ei + (pre.length + 1) := by omega
        simp only [List.length_cons]
        rw [← hnum]
        exact hstep

/-- Without `strict`, the column loop is left by `return false` at a malformed
element, when the elements before it were accepted. -/
theorem parseColumnElements_malformed (pre post : List Str) (tok column_def : Str)
    (acc acc1 : List ColumnInfo × Int)
    (hpre : parseColumnElements false 0 pre acc = .ok (true, acc1))
    (hlen : tok.length ≠ 0) (hdef : strip_whitespaces tok = .ok column_def)
    (htime : tolower column_def ≠ "time".toList) (hempty : tolower column_def ≠ "empty".toList)
    (hspec : parseColumnSpec false column_def = .ok none) :
    parseColumnElements false 0 (pre ++ tok :: post) acc = .ok (false, (acc1.1, acc1.2 + 1)) := by
  rw [parseColumnElements_append, hpre]
  simp only [bind, Except.bind, if_true, parseColumnElements, parseColumnElement, hlen, if_false,
    hdef, htime, hempty, hspec]

/-- A type name outside of the six names has no transform type (`MeshupModel.cc`). -/
theorem model_parseTransformType_unknown (s : Str)
    (h : s ∉ ["rotation".toList, "r".toList, "translation".toList, "t".toList,
      "scale".toList, "s".toList]) :
    Model.parseTransformType s = none := by
  simp only [List.mem_cons, List.mem_singleton, List.not_mem_nil, or_false, not_or] at h
  obtain ⟨h1, h2, h3, h4, h5, h6⟩ := h
  rw [Model.parseTransformType, if_neg (not_or.mpr ⟨h1, h2⟩), if_neg (not_or.mpr ⟨h3, h4⟩),
    if_neg (not_or.mpr ⟨h5, h6⟩)]

/-- An axis name outside of the six names has no axis (`MeshupModel.cc`). -/
theorem model_parseAxisName_unknown (s : Str)
    (h : s ∉ ["x".toList, "y".toList, "z".toList, "-x".toList, "-y".toList, "-z".toList]) :
    Model.parseAxisName s = none := by
  simp only [List.mem_cons, List.mem_singleton, List.not_mem_nil, or_false, not_or] at h
  obtain ⟨h1, h2, h3, h4, h5, h6⟩ := h
  rw [Model.parseAxisName, if_neg h1, if_neg h2, if_neg h3, if_neg h4, if_neg h5, if_neg h6]

/-- Without `strict`, three or four fields with an unknown type or an unknown
axis make the column parser of `MeshupModel.cc` return false. -/
theorem model_parseColumnFields_malformed (m : MeshupModel) (s0 s1 s2 : Str) (s3 : Option Str)
    (f0 f1 : Str)
    (h0 : strip_whitespaces s0 = .ok f0) (h1 : strip_whitespaces s1 = .ok f1)
    (hbad : tolower f1 ∉ ["rotation".toList, "r".toList, "translation".toList, "t".toList,
        "scale".toList, "s".toList] ∨
      ∃ f2, strip_whitespaces s2 = .ok f2 ∧
        tolower f2 ∉ ["x".toList, "y".toList, "z".toList, "-x".toList, "-y".toList,
          "-z".toList]) :
    Model.parseColumnFields m false s0 s1 s2 s3 = .ok none := by
  unfold Model.parseColumnFields
  simp only [h0, bind, Except.bind]
  cases m.findFrame (c_str f0) with
  | none => simp
  | some frame =>
    simp only [h1]
    cases hty : Model.parseTransformType (tolower f1) with
    | none => simp
    | some ty =>
      rcases hbad with hbad | ⟨f2, h2, hbad⟩
      · rw [model_parseTransformType_unknown _ hbad] at hty
        cases hty
      · simp [h2, model_parseAxisName_unknown _ hbad]

/-- Without `strict`, a malformed column definition makes the `parseColumnSpec`
of `MeshupModel.cc` return false. -/
theorem model_parseColumnSpec_malformed (m : MeshupModel) (column_def : Str)
    (hbad : (tokenize column_def [':']).length < 3 ∨ 4 < (tokenize column_def [':']).length ∨
      ∃ s0 s1 s2 rest f0 f1, tokenize column_def [':'] = s0 :: s1 :: s2 :: rest ∧
        rest.length ≤ 1 ∧
        strip_whitespaces s0 = .ok f0 ∧ strip_whitespaces s1 = .ok f1 ∧
        (tolower f1 ∉ ["rotation".toList, "r".toList, "translation".toList, "t".toList,
            "scale".toList, "s".toList] ∨
          ∃ f2, strip_whitespaces s2 = .ok f2 ∧
            tolower f2 ∉ ["x".toList, "y".toList, "z".toList, "-x".toList, "-y".toList,
              "-z".toList])) :
    Model.parseColumnSpec m false column_def = .ok none := by
  unfold Model.parseColumnSpec
  rcases hbad with h | h | ⟨s0, s1, s2, rest, f0, f1, hspec, hrest, h0, h1, hbad⟩
  · split
    · next heq => rw [heq] at h; simp at h
    · next heq => rw [heq] at h; simp at h
    · simp
  · split
    · next heq => rw [heq] at h; simp at h
    · next heq => rw [heq] at h; simp at h
    · simp
  · rw [hspec]
    match rest, hrest with
    | [], _ => exact model_parseColumnFields_malformed m s0 s1 s2 none f0 f1 h0 h1 hbad
    | [s3], _ => exact model_parseColumnFields_malformed m s0 s1 s2 (some s3) f0 f1 h0 h1 hbad

/-- The column loop of `MeshupModel.cc` on a list of elements that starts with `pre`. -/
theorem model_parseColumnElements_append (m : MeshupModel) (strict : Bool) :
    ∀ (pre rest : List Str) (acc : List Model.ColumnInfo × Int),
      Model.parseColumnElements m strict (pre ++ rest) acc =
        Model.parseColumnElements m strict pre acc >>= fun r =>
          if r.1 then Model.parseColumnElements m strict rest r.2 else .ok r := by
  intro pre
  induction pre with
  | nil => intro rest acc; simp [Model.parseColumnElements, bind, Except.bind]
  | cons e pre ih =>
    intro rest acc
    simp only [List.cons_append, Model.parseColumnElements, bind, Except.bind]
    cases Model.parseColumnElement m strict e acc with
    | error h => rfl
    | ok parsed =>
      cases parsed with
      | none => simp
      | some acc' =>
        have hstep := ih rest acc'
        simp only [bind, Except.bind] at hstep
        exact hstep

/-- A clean line met in the column section of `Animation.cc` is handed to the
column loop. -/
theorem processLine_columns (env : Env) (filename : Str) (fps : ℚ) (strict : Bool)
    (st : LoadState) (got line : Str) (eof : Bool) (elements : List Str)
    (hline : (if eof then st.line else got) = line)
    (hclean1 : strip_whitespaces line = .ok line) (hclean2 : strip_comments line = .ok line)
    (hC : line.take 8 ≠ "COLUMNS:".toList) (hD : line.take 5 ≠ "DATA:".toList)
    (hF : line.take 10 ≠ "DATA_FROM:".toList)
    (hcs : st.column_section = true) (hcsv : st.csv_mode = false)
    (helems : env.tokenize_strip_whitespaces line [',', '\t', '\n', '\r'] = .ok elements) :
    processLine env filename fps strict st got eof =
      parseColumnElements strict 0 elements (st.anim.column_infos, st.column_index)
        >>= fun parsed =>
      if parsed.1 then
        .ok (.next { st with
          last_line := eof || st.last_line
          line_number := if eof then st.line_number else st.line_number + 1
          anim := { st.anim with column_infos := parsed.2.1 }
          column_index := parsed.2.2, line := line })
      else
        .ok (.ret { st with
          last_line := eof || st.last_line
          line_number := if eof then st.line_number else st.line_number + 1
          anim := { st.anim with column_infos := parsed.2.1 }
          column_index := parsed.2.2, line := line }) := by
  have hne : line.length ≠ 0 := by
    have := strip_whitespaces_ne_nil line line hclean1
    simpa using this
  have hD' : List.take 5 line ≠ ['D', 'A', 'T', 'A', ':'] := hD
  have hF' : List.take 10 line ≠ ['D', 'A', 'T', 'A', '_', 'F', 'R', 'O', 'M', ':'] := hF
  unfold processLine
  simp only [hline, hclean1, hclean2, bind, Except.bind, hne, if_false, hC]
  unfold processSections
  cases eof <;> simp [hD', hF', hcs, hcsv, helems, bind, Except.bind]

/-- The branches of lines 320-376 of `Animation.cc` and 1525-1589 of
`MeshupModel.cc`: when the column section of an animation file holds a token
(not `time`, not `empty`) with fewer than 3 or more than 4 colon-separated
fields, or with three or four fields of which the type or the axis is unknown,
both readers, called with `strict = false`, return false to the caller: the
loop of `Animation::loadFromFileAtFrameRate` at the line of the token (the
elements before the token having been accepted), with the columns accepted so
far in the column list, and the loop of `MeshupModel::loadAnimationFromFile`,
with the model as it was. So do both readers on files with the token
`FOO:bogus:z` (`PELVIS:bogus:z` for the model that has the frame PELVIS). The
fields are those that `strip_whitespaces` accepts (not empty, not blank). -/
theorem malformed_column_returns_false
    (tok column_def : Str)
    (env : Env) (filename : Str) (fps : ℚ) (st : LoadState) (got line : Str) (lines : List Str)
    (pre post : List Str) (acc1 : List ColumnInfo × Int)
    (menv : ModelEnv) (ndebug : Bool) (mst : MeshupModel.AnimLoadState) (mline : Str)
    (mlines : List Str) (mpre mpost : List Str) (macc1 : List Model.ColumnInfo × Int)
    (hlen : tok.length ≠ 0) (hdef : strip_whitespaces tok = .ok column_def)
    (htime : tolower column_def ≠ "time".toList) (hempty : tolower column_def ≠ "empty".toList)
    (hbad : (tokenize column_def [':']).length < 3 ∨ 4 < (tokenize column_def [':']).length ∨
      ∃ s0 s1 s2 rest f0 f1, tokenize column_def [':'] = s0 :: s1 :: s2 :: rest ∧
        rest.length ≤ 1 ∧
        strip_whitespaces s0 = .ok f0 ∧ strip_whitespaces s1 = .ok f1 ∧
        (tolower f1 ∉ ["rotation".toList, "r".toList, "translation".toList, "t".toList,
            "scale".toList, "s".toList] ∨
          ∃ f2, strip_whitespaces s2 = .ok f2 ∧
            tolower f2 ∉ ["x".toList, "y".toList, "z".toList, "-x".toList, "-y".toList,
              "-z".toList]))
    (hline : (if lines.isEmpty then st.line else got) = line)
    (hclean1 : strip_whitespaces line = .ok line) (hclean2 : strip_comments line = .ok line)
    (hC : line.take 8 ≠ "COLUMNS:".toList) (hD : line.take 5 ≠ "DATA:".toList)
    (hF : line.take 10 ≠ "DATA_FROM:".toList)
    (hcs : st.column_section = true) (hcsv : st.csv_mode = false)
    (helems : env.tokenize_strip_whitespaces line [',', '\t', '\n', '\r']
      = .ok (pre ++ tok :: post))
    (hpre : parseColumnElements false 0 pre (st.anim.column_infos, st.column_index)
      = .ok (true, acc1))
    (mclean1 : strip_whitespaces mline = .ok mline) (mclean2 : strip_comments mline = .ok mline)
    (mC : mline.take 8 ≠ "COLUMNS:".toList) (mD : mline.take 5 ≠ "DATA:".toList)
    (mhcs : mst.column_section = true)
    (mhelems : tokenize mline [',', ' ', '\t', '\n', '\r'] = mpre ++ tok :: mpost)
    (mhpre : Model.parseColumnElements mst.model false mpre
      (mst.animation_keyposes.columns, mst.column_index) = .ok (true, macc1)) :
    readLines env filename fps false (got :: lines) st
      = .ok (false, { st.anim with column_infos := acc1.1 }) ∧
    (∃ s', MeshupModel.loadAnimationLines menv ndebug false (mline :: mlines) mst
        = .ok (false, s') ∧ s'.model = mst.model) ∧
    (loadFromFileAtFrameRate (sampleEnv "COLUMNS: time, FOO:bogus:z\nDATA:\n0\n".toList)
        emptyAnimation "anim.txt".toList ⟨1⟩ (-1) false).map Prod.fst = .ok false ∧
    (sampleModel.loadAnimationFromFile
        (sampleModelEnv "COLUMNS:\ntime, PELVIS:bogus:z\nDATA:\n1.0 2".toList) true
        "anim.txt".toList false).map Prod.fst = .ok false := by
  refine ⟨?_, ?_, by decide!, by decide!⟩
  · have hloop := parseColumnElements_malformed pre post tok column_def
      (st.anim.column_infos, st.column_index) acc1 hpre hlen hdef htime hempty
      (parseColumnSpec_malformed column_def hbad)
    have hproc := processLine_columns env filename fps false st got line lines.isEmpty
      (pre ++ tok :: post) hline hclean1 hclean2 hC hD hF hcs hcsv helems
    rw [hloop] at hproc
    simp only [bind, Except.bind, Bool.false_eq_true, if_false] at hproc
    simp only [readLines, hproc, bind, Except.bind]
  · have hne : mline.length ≠ 0 := by
      have := strip_whitespaces_ne_nil mline mline mclean1
      simpa using this
    have mD' : List.take 5 mline ≠ ['D', 'A', 'T', 'A', ':'] := mD
    have hloop : Model.parseColumnElements mst.model false (mpre ++ tok :: mpost)
        (mst.animation_keyposes.columns, mst.column_index)
          = .ok (false, (macc1.1, macc1.2 + 1)) := by
      rw [model_parseColumnElements_append, mhpre]
      simp only [bind, Except.bind, if_true, Model.parseColumnElements,
        Model.parseColumnElement, hlen, if_false, hdef, htime, hempty,
        model_parseColumnSpec_malformed mst.model column_def hbad]
    refine ⟨{ mst with
      line_number := mst.line_number + 1
      animation_keyposes := { mst.animation_keyposes with columns := macc1.1 }
      column_index := macc1.2 + 1 }, ?_, ?_⟩
    · simp only [MeshupModel.loadAnimationLines, MeshupModel.loadAnimationLine, mclean1,
        mclean2, bind, Except.bind, hne, if_false, mC, mD, mhcs, if_true, mhelems, hloop,
        Bool.false_eq_true]
    · rfl

/-- The line `time, PELVIS:bogus:z` in the column section returns false. -/
theorem malformed_column_sample :
    (sampleBadToken.length ≠ 0 ∧ strip_whitespaces sampleBadToken = .ok sampleBadToken ∧
      tolower sampleBadToken ≠ "time".toList ∧ tolower sampleBadToken ≠ "empty".toList ∧
      ((tokenize sampleBadToken [':']).length < 3 ∨ 4 < (tokenize sampleBadToken [':']).length ∨
        ∃ s0 s1 s2 rest f0 f1, tokenize sampleBadToken [':'] = s0 :: s1 :: s2 :: rest ∧
          rest.length ≤ 1 ∧
          strip_whitespaces s0 = .ok f0 ∧ strip_whitespaces s1 = .ok f1 ∧
          (tolower f1 ∉ ["rotation".toList, "r".toList, "translation".toList, "t".toList,
              "scale".toList, "s".toList] ∨
            ∃ f2, strip_whitespaces s2 = .ok f2 ∧
              tolower f2 ∉ ["x".toList, "y".toList, "z".toList, "-x".toList, "-y".toList,
                "-z".toList])) ∧
      (if [([] : Str)].isEmpty then sampleColumnState.line else sampleBadLine) = sampleBadLine ∧
      strip_whitespaces sampleBadLine = .ok sampleBadLine ∧
      strip_comments sampleBadLine = .ok sampleBadLine ∧
      sampleBadLine.take 8 ≠ "COLUMNS:".toList ∧ sampleBadLine.take 5 ≠ "DATA:".toList ∧
      sampleBadLine.take 10 ≠ "DATA_FROM:".toList ∧
      sampleColumnState.column_section = true ∧ sampleColumnState.csv_mode = false ∧
      (sampleEnv []).tokenize_strip_whitespaces sampleBadLine [',', '\t', '\n', '\r']
        = .ok (["time".toList] ++ sampleBadToken :: []) ∧
      parseColumnElements false 0 ["time".toList]
          (sampleColumnState.anim.column_infos, sampleColumnState.column_index)
        = .ok (true, ([{ ColumnInfo.init with is_time_column := true }], 0)) ∧
      sampleAnimLoadState.column_section = true ∧
      tokenize sampleBadLine [',', ' ', '\t', '\n', '\r']
        = ["time".toList, []] ++ sampleBadToken :: [] ∧
      Model.parseColumnElements sampleAnimLoadState.model false ["time".toList, []]
          (sampleAnimLoadState.animation_keyposes.columns, sampleAnimLoadState.column_index)
        = .ok (true, ([{ Model.ColumnInfo.init with is_time_column := true }], 0))) ∧
    (readLines (sampleEnv []) "anim.txt".toList (-1) false [sampleBadLine, []] sampleColumnState
      = .ok (false, { sampleColumnState.anim with
          column_infos := [{ ColumnInfo.init with is_time_column := true }] }) ∧
    (∃ s', MeshupModel.loadAnimationLines (sampleModelEnv []) true false [sampleBadLine]
          sampleAnimLoadState
        = .ok (false, s') ∧ s'.model = sampleAnimLoadState.model) ∧
    (loadFromFileAtFrameRate (sampleEnv "COLUMNS: time, FOO:bogus:z\nDATA:\n0\n".toList)
        emptyAnimation "anim.txt".toList ⟨1⟩ (-1) false).map Prod.fst = .ok false ∧
    (sampleModel.loadAnimationFromFile
        (sampleModelEnv "COLUMNS:\ntime, PELVIS:bogus:z\nDATA:\n1.0 2".toList) true
        "anim.txt".toList false).map Prod.fst = .ok false) :=
  have hbad : (tokenize sampleBadToken [':']).length < 3 ∨
      4 < (tokenize sampleBadToken [':']).length ∨
      ∃ s0 s1 s2 rest f0 f1, tokenize sampleBadToken [':'] = s0 :: s1 :: s2 :: rest ∧
        rest.length ≤ 1 ∧
        strip_whitespaces s0 = .ok f0 ∧ strip_whitespaces s1 = .ok f1 ∧
        (tolower f1 ∉ ["rotation".toList, "r".toList, "translation".toList, "t".toList,
            "scale".toList, "s".toList] ∨
          ∃ f2, strip_whitespaces s2 = .ok f2 ∧
            tolower f2 ∉ ["x".toList, "y".toList, "z".toList, "-x".toList, "-y".toList,
              "-z".toList]) :=
    Or.inr (Or.inr ⟨"PELVIS".toList, "bogus".toList, "z".toList, [], "PELVIS".toList,
      "bogus".toList, by decide, by decide, by decide, by decide, Or.inl (by decide)⟩)
  ⟨⟨by decide, by decide, by decide, by decide, hbad, by decide, by decide, by decide,
      by decide, by decide, by decide, rfl, rfl, by decide, by decide, rfl, by decide,
      by decide⟩,
    malformed_column_returns_false sampleBadToken sampleBadToken
      (sampleEnv []) "anim.txt".toList (-1) sampleColumnState sampleBadLine sampleBadLine [[]]
      ["time".toList] [] ([{ ColumnInfo.init with is_time_column := true }], 0)
      (sampleModelEnv []) true sampleAnimLoadState sampleBadLine [] ["time".toList, []] []
      ([{ Model.ColumnInfo.init with is_time_column := true }], 0)
      (by decide) (by decide) (by decide) (by decide) hbad (by decide) (by decide) (by decide)
      (by decide) (by decide) (by decide) rfl rfl (by decide) (by decide)
      (by decide) (by decide) (by decide) (by decide) rfl (by decide) (by decide)⟩

/-! ## C11: malformed column tokens in non-strict mode -/

/-- C11 (the code at the failing inputs): loaded with `strict = false`, a
column section with the token `FOO: :z`, whose transform type is blank, ends
the process: the fields are `FOO`, a blank and `z`, and `strip_whitespaces` of
the blank (line 334) throws `std::out_of_range` (`string_utils.h`, line 16)
before the test of the type is reached; and a column section with a malformed
token in which `time` is not the first token of its line ends the process by
`abort ()` (line 305). The token `FOO:bogus:z` returns false. -/
theorem C11_blank_type_throws :
    tokenize "FOO: :z".toList [':'] = ["FOO".toList, " ".toList, "z".toList] ∧
    strip_whitespaces " ".toList = .error .out_of_range ∧
    (loadFromFileAtFrameRate (sampleEnv "COLUMNS: time, FOO: :z\nDATA:\n0\n".toList)
        emptyAnimation "anim.txt".toList ⟨1⟩ (-1) false).map Prod.fst
      = .error .out_of_range ∧
    (loadFromFileAtFrameRate
        (sampleEnv "COLUMNS: A:r:x, time, FOO:bogus:z\nDATA:\n0\n".toList)
        emptyAnimation "anim.txt".toList ⟨1⟩ (-1) false).map Prod.fst
      = .error .abort ∧
    (loadFromFileAtFrameRate (sampleEnv "COLUMNS: time, FOO:bogus:z\nDATA:\n0\n".toList)
        emptyAnimation "anim.txt".toList ⟨1⟩ (-1) false).map Prod.fst
      = .ok false := by
  refine ⟨by decide, by decide, by decide!, by decide!, by decide!⟩

/-! ## Helper lemmas: what a load leaves of the object -/

theorem Kept_refl (a : Animation) : Animation.Kept a a :=
  ⟨rfl, rfl, rfl, List.prefix_refl _⟩

theorem Kept_trans {a b c : Animation} (h1 : Animation.Kept a b) (h2 : Animation.Kept b c) :
    Animation.Kept a c :=
  ⟨h2.1.trans h1.1, h2.2.1.trans h1.2.1, h2.2.2.1.trans h1.2.2.1,
    List.IsPrefix.trans h1.2.2.2 h2.2.2.2⟩

/-- A data row keeps the object, but for a keyframe it may append. -/
theorem dataRowTokens_kept (env : Env) (fps : ℚ) (st st' : LoadState) (columns : List Str)
    (h : dataRowTokens env fps st columns = .ok st') : Animation.Kept st.anim st'.anim := by
  unfold dataRowTokens at h
  split at h
  · cases h
  · split at h
    · cases h
    · split at h
      · cases h
      · split at h
        · simp only [Except.ok.injEq] at h
          rw [← h]
          exact Kept_refl _
        · obtain ⟨kf, _, hk⟩ := bind_ok_inv _ _ _ h
          simp only [Except.ok.injEq] at hk
          rw [← hk]
          exact ⟨rfl, rfl, rfl, List.prefix_append _ _⟩

theorem dataRow_kept (env : Env) (fps : ℚ) (st st' : LoadState) (line : Str)
    (h : dataRow env fps st line = .ok st') : Animation.Kept st.anim st'.anim := by
  unfold dataRow at h
  obtain ⟨columns, _, hc⟩ := bind_ok_inv _ _ _ h
  exact dataRowTokens_kept env fps st st' columns hc

/-- One pass through the sections keeps the object. -/
theorem processSections_kept (env : Env) (filename : Str) (fps : ℚ) (strict : Bool)
    (st : LoadState) (line : Str) (flow : Flow)
    (h : processSections env filename fps strict st line = .ok flow) :
    Animation.Kept st.anim flow.state.anim := by
  unfold processSections at h
  split at h
  · simp only [Except.ok.injEq] at h
    rw [← h]; exact Kept_refl _
  · split at h
    · obtain ⟨rest, _, h⟩ := bind_ok_inv _ _ _ h
      obtain ⟨path, _, h⟩ := bind_ok_inv _ _ _ h
      simp only [Except.ok.injEq] at h
      rw [← h]; exact Kept_refl _
    · split at h
      · obtain ⟨elements, _, h⟩ := bind_ok_inv _ _ _ h
        obtain ⟨parsed, _, h⟩ := bind_ok_inv _ _ _ h
        simp only [] at h
        split at h <;>
          · simp only [Except.ok.injEq] at h
            rw [← h]
            exact ⟨rfl, rfl, rfl, List.prefix_refl _⟩
      · split at h
        · obtain ⟨st', hrow, h⟩ := bind_ok_inv _ _ _ h
          simp only [Except.ok.injEq] at h
          rw [← h]
          have hk := dataRow_kept _ _ _ _ _ hrow
          simpa using hk
        · simp only [Except.ok.injEq] at h
          rw [← h]; exact Kept_refl _

/-- One pass through the body of the reading loop keeps the object. -/
theorem processLine_kept (env : Env) (filename : Str) (fps : ℚ) (strict : Bool)
    (st : LoadState) (got : Str) (eof : Bool) (flow : Flow)
    (h : processLine env filename fps strict st got eof = .ok flow) :
    Animation.Kept st.anim flow.state.anim := by
  unfold processLine at h
  simp only [] at h
  obtain ⟨stripped, _, h⟩ := bind_ok_inv _ _ _ h
  obtain ⟨line, _, h⟩ := bind_ok_inv _ _ _ h
  have hst : (if eof = true then { st with last_line := true }
      else { st with line_number := st.line_number + 1 }).anim = st.anim := by
    cases eof <;> rfl
  split at h
  · simp only [Except.ok.injEq] at h
    rw [← h]
    exact ⟨by simp [Flow.state, hst], by simp [Flow.state, hst], by simp [Flow.state, hst],
      by simp [Flow.state, hst]⟩
  · split at h
    · obtain ⟨rest, _, h⟩ := bind_ok_inv _ _ _ h
      obtain ⟨stripped', _, h⟩ := bind_ok_inv _ _ _ h
      obtain ⟨line', _, h⟩ := bind_ok_inv _ _ _ h
      split at h
      · simp only [Except.ok.injEq] at h
        rw [← h]
        exact ⟨by simp [Flow.state, hst], by simp [Flow.state, hst], by simp [Flow.state, hst],
          by simp [Flow.state, hst]⟩
      · have := processSections_kept env filename fps strict _ line' flow h
        simpa [hst] using this
    · have := processSections_kept env filename fps strict _ line flow h
      simpa [hst] using this

/-- A read of the lines of a data file that returns false keeps the object. -/
theorem readDataLines_kept (env : Env) (filename : Str) (fps : ℚ) (strict : Bool)
    (lines : List Str) : ∀ (st : LoadState) (a : Animation),
    readDataLines env filename fps strict lines st = .ok (false, a) →
    Animation.Kept st.anim a := by
  induction lines with
  | nil =>
    intro st a h
    unfold readDataLines finishLoad at h
    split at h
    · cases h
    · split at h
      · cases h
      · split at h
        · cases h
        · simp at h
  | cons got lines ih =>
    intro st a h
    unfold readDataLines at h
    obtain ⟨flow, hflow, h⟩ := bind_ok_inv _ _ _ h
    have hk := processLine_kept env filename fps strict st got _ flow hflow
    cases flow with
    | next st' => exact Kept_trans hk (ih st' a h)
    | ret st' =>
      simp only [Except.ok.injEq, Prod.mk.injEq, true_and] at h
      rw [← h]; exact hk
    | reopen path st' => exact Kept_trans hk (ih st' a h)

/-- The read of the file of a `DATA_FROM:` directive that returns false keeps
the object. -/
theorem reopenAndRead_kept (env : Env) (filename : Str) (fps : ℚ) (strict : Bool)
    (path : Str) (st : LoadState) (a : Animation)
    (h : reopenAndRead env filename fps strict path st = .ok (false, a)) :
    Animation.Kept st.anim a := by
  unfold reopenAndRead at h
  split at h
  · split at h
    · cases h
    · simp only [Except.ok.injEq, Prod.mk.injEq, true_and] at h
      rw [← h]; exact Kept_refl _
  · have hk := readDataLines_kept _ _ _ _ _ _ _ h
    exact hk

/-- A read of the lines of the animation file that returns false keeps the
object. -/
theorem readLines_kept (env : Env) (filename : Str) (fps : ℚ) (strict : Bool)
    (lines : List Str) : ∀ (st : LoadState) (a : Animation),
    readLines env filename fps strict lines st = .ok (false, a) →
    Animation.Kept st.anim a := by
  induction lines with
  | nil =>
    intro st a h
    unfold readLines finishLoad at h
    split at h
    · cases h
    · split at h
      · cases h
      · split at h
        · cases h
        · simp at h
  | cons got lines ih =>
    intro st a h
    unfold readLines at h
    obtain ⟨flow, hflow, h⟩ := bind_ok_inv _ _ _ h
    have hk := processLine_kept env filename fps strict st got _ flow hflow
    cases flow with
    | next st' => exact Kept_trans hk (ih st' a h)
    | ret st' =>
      simp only [Except.ok.injEq, Prod.mk.injEq, true_and] at h
      rw [← h]; exact hk
    | reopen path st' =>
      exact Kept_trans hk (reopenAndRead_kept env filename fps strict path st' a h)

/-! ## C12: what a failed non-strict load leaves of the object -/

/-- C12 (counterexample): a non-strict load of the file
`COLUMNS: time, FOO:bogus:z` into an object that holds an earlier animation
returns false, and afterwards the column list of the object is no longer the
earlier one (it holds the time column of the failed file) and its frame
configuration is the one passed to the failed call. -/
theorem C12_counterexample :
    (loadFromFileAtFrameRate (sampleEnv "COLUMNS: time, FOO:bogus:z\nDATA:\n0\n".toList)
        priorAnimation "anim.txt".toList otherConfig (-1) false).map
      (fun r => (r.1, r.2.column_infos, r.2.configuration.axes_rotation 0 0))
      = .ok (false, [{ ColumnInfo.init with is_time_column := true }], 2) ∧
    priorAnimation.column_infos = [priorColumn] ∧
    priorColumn ≠ { ColumnInfo.init with is_time_column := true } ∧
    priorAnimation.configuration.axes_rotation 0 0 = 1 := by
  refine ⟨by decide!, rfl, by decide!, by decide!⟩

/-- C12 (amended): when a non-strict call of `loadFromFileAtFrameRate` whose
file could be opened returns false, the duration and the file name of the
object have the values they had before the call and the keyframes it had are
still its first keyframes, while its frame configuration is the one passed to
the call. -/
theorem C12_failed_load_keeps (env : Env) (this a : Animation) (filename content : Str)
    (frame_config : FrameConfig) (fps : ℚ)
    (hopen : env.open_file filename = some content)
    (hfail : loadFromFileAtFrameRate env this filename frame_config fps false = .ok (false, a)) :
    a.duration = this.duration ∧ a.animation_filename = this.animation_filename ∧
      a.configuration = frame_config ∧ this.keyframes <+: a.keyframes := by
  unfold loadFromFileAtFrameRate at hfail
  rw [hopen] at hfail
  have hk := readLines_kept _ _ _ _ _ _ _ hfail
  exact hk

/-- Witness of C12: the failed load of the file `COLUMNS: time, FOO:bogus:z`
into the object of an earlier load. -/
theorem C12_failed_load_keeps_witness :
    (sampleEnv "COLUMNS: time, FOO:bogus:z\nDATA:\n0\n".toList).open_file "anim.txt".toList
        = some "COLUMNS: time, FOO:bogus:z\nDATA:\n0\n".toList ∧
    loadFromFileAtFrameRate (sampleEnv "COLUMNS: time, FOO:bogus:z\nDATA:\n0\n".toList)
        priorAnimation "anim.txt".toList otherConfig (-1) false
      = .ok (false, { priorAnimation with
          configuration := otherConfig
          column_infos := [{ ColumnInfo.init with is_time_column := true }] }) ∧
    ({ priorAnimation with
          configuration := otherConfig
          column_infos := [{ ColumnInfo.init with is_time_column := true }] } : Animation).duration
        = priorAnimation.duration ∧
    ({ priorAnimation with
          configuration := otherConfig
          column_infos := [{ ColumnInfo.init with is_time_column := true }] } :
        Animation).animation_filename = priorAnimation.animation_filename ∧
    ({ priorAnimation with
          configuration := otherConfig
          column_infos := [{ ColumnInfo.init with is_time_column := true }] } :
        Animation).configuration = otherConfig ∧
    priorAnimation.keyframes <+:
      ({ priorAnimation with
          configuration := otherConfig
          column_infos := [{ ColumnInfo.init with is_time_column := true }] } :
        Animation).keyframes :=
  have hopen : (sampleEnv "COLUMNS: time, FOO:bogus:z\nDATA:\n0\n".toList).open_file
      "anim.txt".toList = some "COLUMNS: time, FOO:bogus:z\nDATA:\n0\n".toList := by decide
  have hfail : loadFromFileAtFrameRate (sampleEnv "COLUMNS: time, FOO:bogus:z\nDATA:\n0\n".toList)
        priorAnimation "anim.txt".toList otherConfig (-1) false
      = .ok (false, { priorAnimation with
          configuration := otherConfig
          column_infos := [{ ColumnInfo.init with is_time_column := true }] }) := by
    rfl
  ⟨hopen, hfail, C12_failed_load_keeps _ _ _ _ _ _ _ hopen hfail⟩

/-! ## C13: the time column -/

/-- C13 (the code at the failing inputs): in strict mode a `COLUMNS` section
whose second line starts with another `time` token is accepted with two time
columns (positions 0 and 2), and a `COLUMNS` section without a `time` token is
accepted with no time column; both loads return true. -/
theorem C13_time_column_not_enforced :
    loadedTimeFlags (loadFromFile
        (sampleEnv "COLUMNS: time, A:r:x\ntime, B:r:x\nDATA:\n".toList)
        emptyAnimation "anim.txt".toList ⟨1⟩ true)
      = some (true, [true, false, true, false]) ∧
    loadedTimeFlags (loadFromFile (sampleEnv "COLUMNS: A:r:x\nDATA:\n1\n".toList)
        emptyAnimation "anim.txt".toList ⟨1⟩ true)
      = some (true, [false]) := by
  decide!

/-! ## C14: short rows and extra tokens -/

/-- The loop over the columns reads no token at or after position `n` when the
columns it visits end before `n`. -/
theorem dataColumns_take (env : Env) (columns : List Str) (n : Nat) (cols : List ColumnInfo) :
    ∀ (ci : Nat) (keyframe : KeyFrame), ci + cols.length ≤ n →
      dataColumns env (columns.take n) ci cols keyframe
        = dataColumns env columns ci cols keyframe := by
  induction cols with
  | nil => intro ci keyframe _; rfl
  | cons col cols ih =>
    intro ci keyframe h
    simp only [List.length_cons] at h
    have hci : ci < n := by omega
    have hcol : dataColumn env (columns.take n) ci col keyframe
        = dataColumn env columns ci col keyframe := by
      unfold dataColumn
      rw [List.get?_eq_getElem?, List.get?_eq_getElem?, List.getElem?_take_of_lt hci]
    unfold dataColumns
    rw [hcol]
    cases dataColumn env columns ci col keyframe with
    | error e => rfl
    | ok kf =>
      simp only [bind, Except.bind]
      exact ih (ci + 1) kf (by omega)

/-- C14 (counterexample): with an empty column list every token of a row is
beyond the column count, yet two rows that differ in their first token give
keyframes with different timestamps; the empty column list is what the line
`COLUMNS: ,` leaves, and the row `5 7` of such a file is stored with the
timestamp 5 (twice, the last line being read again at the end of the file). -/
theorem C14_counterexample :
    sampleNoColumnState.anim.column_infos = [] ∧
    (dataRowTokens (sampleEnv []) (-1) sampleNoColumnState ["5".toList, "7".toList]).map
        (fun st => st.anim.keyframes) = .ok [⟨5, []⟩] ∧
    (dataRowTokens (sampleEnv []) (-1) sampleNoColumnState ["6".toList, "7".toList]).map
        (fun st => st.anim.keyframes) = .ok [⟨6, []⟩] ∧
    (loadFromFile (sampleEnv "COLUMNS: ,\nDATA:\n5 7\n".toList)
        emptyAnimation "anim.txt".toList ⟨1⟩ true).map
        (fun r => (r.2.column_infos, r.2.keyframes.map (·.timestamp))) = .ok ([], [5, 5]) := by
  refine ⟨by decide!, by decide!, by decide!, by decide!⟩

/-- C14 (amended): for a column list that is not empty, a data row with fewer
tokens than the column list has entries ends the process (`abort`), and for a
row with at least as many tokens the outcome (the keyframe stored, a skipped
row or an error) is the outcome for the row cut to the column count. -/
theorem C14_short_and_long_rows (env : Env) (fps : ℚ) (st : LoadState) (columns : List Str)
    (hn : 0 < st.anim.column_infos.length) :
    (columns.length < st.anim.column_infos.length →
      dataRowTokens env fps st columns = .error .abort) ∧
    (st.anim.column_infos.length ≤ columns.length →
      dataRowTokens env fps st columns
        = dataRowTokens env fps st (columns.take st.anim.column_infos.length)) := by
  constructor
  · intro h
    unfold dataRowTokens
    rw [if_pos h]
  · intro h
    cases columns with
    | nil => simp only [List.length_nil] at h; omega
    | cons first rest =>
      obtain ⟨m, hm⟩ : ∃ m, st.anim.column_infos.length = m + 1 := ⟨_, (Nat.succ_pred_eq_of_pos hn).symm⟩
      have hlen : ((first :: rest).take (m + 1)).length = m + 1 := by
        rw [List.length_take]; rw [hm] at h; omega
      have hdrop : (st.anim.column_infos.drop 1).length = m := by
        rw [List.length_drop, hm]; rfl
      have hcols := fun kf => dataColumns_take env (first :: rest) (m + 1)
        (st.anim.column_infos.drop 1) 1 kf (by rw [hdrop]; omega)
      unfold dataRowTokens
      rw [hm] at h ⊢
      rw [if_neg (by omega), hlen, if_neg (by omega)]
      simp only [List.take_succ_cons] at hcols ⊢
      cases env.readFloat first with
      | none => rfl
      | some column_time =>
        simp only []
        rw [hcols]

/-- Witness of C14: one time column, the empty row and the row `0.5 7`. -/
theorem C14_short_and_long_rows_witness :
    0 < sampleDataState.anim.column_infos.length ∧
    ([] : List Str).length < sampleDataState.anim.column_infos.length ∧
    dataRowTokens (sampleEnv []) (-1) sampleDataState [] = .error .abort ∧
    sampleDataState.anim.column_infos.length ≤ ["0.5".toList, "7".toList].length ∧
    dataRowTokens (sampleEnv []) (-1) sampleDataState ["0.5".toList, "7".toList]
      = dataRowTokens (sampleEnv []) (-1) sampleDataState
          (["0.5".toList, "7".toList].take sampleDataState.anim.column_infos.length) :=
  ⟨by decide, by decide,
    (C14_short_and_long_rows (sampleEnv []) (-1) sampleDataState [] (by decide)).1 (by decide),
    by decide,
    (C14_short_and_long_rows (sampleEnv []) (-1) sampleDataState
      ["0.5".toList, "7".toList] (by decide)).2 (by decide)⟩

/-! ## C15: two columns for one component -/

/-- C15 (the code at the failing input): for the columns `time, A:t:x, A:t:x`
and the row `0 1 2` the keyframe of `Animation::loadFromFile` holds for `A` the
pose of the default constructor (translation 0, not 1 + 2 = 3), and with
assertions enabled the row ends the process; for the columns `time,
PELVIS:t:x, PELVIS:t:x` and the row `1.0 1 2` the pose recorded by
`MeshupModel::loadAnimationFromFile` has the translation x = 2, the value of
the second column. -/
theorem C15_same_axis_not_summed :
    (loadFromFile (sampleEnv "COLUMNS: time, A:t:x, A:t:x\nDATA:\n0 1 2\n".toList)
        emptyAnimation "anim.txt".toList ⟨1⟩ true).map
        (fun r => r.2.keyframes.map (·.transformations))
      = .ok [[("A".toList, TransformInfo.init)], [("A".toList, TransformInfo.init)]] ∧
    TransformInfo.init.translation = ⟨0, 0, 0⟩ ∧
    loadFromFile
        { sampleEnv "COLUMNS: time, A:t:x, A:t:x\nDATA:\n0 1 2\n".toList with ndebug := false }
        emptyAnimation "anim.txt".toList ⟨1⟩ true = .error .assertion ∧
    loadedTracks (sampleModel.loadAnimationFromFile
        (sampleModelEnv "COLUMNS:\ntime, PELVIS:t:x, PELVIS:t:x\nDATA:\n1.0 1 2".toList)
        true "anim.txt".toList true)
      = some [(sampleModel.findFrame "PELVIS".toList,
          [{ FramePose.init with
            timestamp := 1
            translation := ⟨2, 0, 0⟩
            rotation_quaternion :=
              (sampleModelEnv []).convertAnglesToQuaternion ⟨1⟩ ⟨0, 0, 0⟩ }])] := by
  refine ⟨by decide!, rfl, by decide!, by decide!⟩

/-! ## C16, C17: the scale and the translation of a segment -/

/-- When the pointer `frame` of every segment leads to a frame, the loop over
the segments returns, with the body applied to every segment. -/
theorem UpdateModelSegmentTransformations_loop_get (gl : GLOps) (model : MeshupModel)
    (segs : List Segment)
    (hframes : ∀ seg ∈ segs, ∃ frame, seg.frame.bind model.frameAt = some frame) :
    ∃ segs', UpdateModelSegmentTransformations.loop gl model segs = .ok segs' ∧
      ∀ (i : Nat) (seg : Segment) (frame : Frame), segs.get? i = some seg →
        seg.frame.bind model.frameAt = some frame →
        segs'.get? i = some (UpdateModelSegmentTransformations.body gl seg frame) := by
  induction segs with
  | nil => exact ⟨[], rfl, fun i seg frame h => by simp at h⟩
  | cons s rest ih =>
    obtain ⟨f, hf⟩ := hframes s (List.mem_cons_self _ _)
    obtain ⟨rest', hrest, hget⟩ := ih (fun seg hs => hframes seg (List.mem_cons_of_mem _ hs))
    refine ⟨UpdateModelSegmentTransformations.body gl s f :: rest', ?_, ?_⟩
    · simp only [UpdateModelSegmentTransformations.loop, hf, hrest, bind, Except.bind]
    · intro i seg frame hi hframe
      cases i with
      | zero =>
        simp only [List.get?_cons_zero, Option.some.injEq] at hi
        subst hi
        rw [hf] at hframe
        simp only [Option.some.injEq] at hframe
        subst hframe
        rfl
      | succ j =>
        simp only [List.get?_cons_succ] at hi ⊢
        exact hget j seg frame hi hframe

/-- The sum of zero and a `float`. -/
theorem XFloat_zero_add (a : XFloat) : (XFloat.fin 0).add a = a := by
  cases a <;> simp [XFloat.add]

/-- The segments after `UpdateModelSegmentTransformations`, when the pointer
`frame` of every segment leads to a frame. -/
theorem UpdateModelSegmentTransformations_get (gl : GLOps) (model : MeshupModel) (i : Nat)
    (seg : Segment) (frame : Frame)
    (hframes : ∀ s ∈ model.segments, ∃ f, s.frame.bind model.frameAt = some f)
    (hseg : model.segments.get? i = some seg)
    (hframe : seg.frame.bind model.frameAt = some frame) :
    (UpdateModelSegmentTransformations gl model).map (fun m => m.segments.get? i)
      = .ok (some (UpdateModelSegmentTransformations.body gl seg frame)) := by
  obtain ⟨segs', hloop, hget⟩ :=
    UpdateModelSegmentTransformations_loop_get gl model model.segments hframes
  simp only [UpdateModelSegmentTransformations, hloop, bind, Except.bind, Except.map,
    hget i seg frame hseg hframe]

/-- C16 (counterexample): for a segment with the dimensions (0, 0, 0) and the
authored scale (2, -1, 3), whose second component is not positive, the scale
of `UpdateModelSegmentTransformations` is (2, -1, 3), not (1, 1, 1). -/
theorem C16_counterexample :
    sampleSegment.dimensions.squaredNorm = .fin 0 ∧
    sampleSegment.scale = ⟨.fin 2, .fin (-1), .fin 3⟩ ∧
    sampleSegment.scale.y.gt (.fin 0) = false ∧
    UpdateModelSegmentTransformations.scale sampleSegment = ⟨.fin 2, .fin (-1), .fin 3⟩ ∧
    UpdateModelSegmentTransformations.scale sampleSegment ≠ ⟨.fin 1, .fin 1, .fin 1⟩ := by
  decide!

/-- C16 (amended): for a segment with finite dimensions (dx, dy, dz), the
scale of `UpdateModelSegmentTransformations` is (|dx|/ex, |dy|/ey, |dz|/ez)
when dx^2 + dy^2 + dz^2 > 1e-4, for finite non-zero extents (ex, ey, ez) of
the bounding box; otherwise the authored scale when its first component is
greater than 0; otherwise (1, 1, 1). -/
theorem C16_derived_scale (seg : Segment) (dx dy dz : ℚ)
    (hd : seg.dimensions = ⟨.fin dx, .fin dy, .fin dz⟩) :
    (∀ ex ey ez : ℚ, 1 / 10000 < dx * dx + dy * dy + dz * dz →
      seg.mesh.bbox_max.sub seg.mesh.bbox_min = ⟨.fin ex, .fin ey, .fin ez⟩ →
      ex ≠ 0 → ey ≠ 0 → ez ≠ 0 →
      UpdateModelSegmentTransformations.scale seg
        = ⟨.fin (|dx| / ex), .fin (|dy| / ey), .fin (|dz| / ez)⟩) ∧
    (dx * dx + dy * dy + dz * dz ≤ 1 / 10000 → seg.scale.x.gt (.fin 0) = true →
      UpdateModelSegmentTransformations.scale seg = seg.scale) ∧
    (dx * dx + dy * dy + dz * dz ≤ 1 / 10000 → seg.scale.x.gt (.fin 0) = false →
      UpdateModelSegmentTransformations.scale seg = ⟨.fin 1, .fin 1, .fin 1⟩) := by
  have hsq : seg.dimensions.squaredNorm = .fin (dx * dx + dy * dy + dz * dz) := by
    rw [hd]; rfl
  have hgt : ∀ a b : ℚ, (XFloat.fin a).gt (.fin b) = decide (b < a) := fun _ _ => rfl
  unfold UpdateModelSegmentTransformations.scale
  rw [hsq, hgt]
  refine ⟨?_, ?_, ?_⟩
  · intro ex ey ez h hb hx hy hz
    rw [hb, hd]
    simp only [h, decide_True, if_true, XFloat.fabs, XFloat.div, hx, hy, hz, if_false]
  · intro h hs
    rw [hs]
    simp only [not_lt.mpr h, decide_False, if_true, Bool.false_eq_true, if_false]
  · intro h hs
    rw [hs]
    simp only [not_lt.mpr h, decide_False, Bool.false_eq_true, if_false]

/-- Witness of C16: a segment with the dimensions (1, -2, 4) in a bounding box
with the extents (2, 4, 2), a segment without dimensions with the scale
(2, -1, 3), and one with the scale (-1, 2, 3). -/
theorem C16_derived_scale_witness :
    (sampleSizedSegment.dimensions = ⟨.fin 1, .fin (-2), .fin 4⟩ ∧
      (1 : ℚ) / 10000 < 1 * 1 + (-2) * (-2) + 4 * 4 ∧
      sampleSizedSegment.mesh.bbox_max.sub sampleSizedSegment.mesh.bbox_min
        = ⟨.fin 2, .fin 4, .fin 2⟩ ∧
      (2 : ℚ) ≠ 0 ∧ (4 : ℚ) ≠ 0 ∧
      UpdateModelSegmentTransformations.scale sampleSizedSegment
        = ⟨.fin (|1| / 2), .fin (|(-2)| / 4), .fin (|4| / 2)⟩) ∧
    (sampleSegment.dimensions = ⟨.fin 0, .fin 0, .fin 0⟩ ∧
      (0 : ℚ) * 0 + 0 * 0 + 0 * 0 ≤ 1 / 10000 ∧
      sampleSegment.scale.x.gt (.fin 0) = true ∧
      UpdateModelSegmentTransformations.scale sampleSegment = sampleSegment.scale) ∧
    (sampleUnscaledSegment.dimensions = ⟨.fin 0, .fin 0, .fin 0⟩ ∧
      (0 : ℚ) * 0 + 0 * 0 + 0 * 0 ≤ 1 / 10000 ∧
      sampleUnscaledSegment.scale.x.gt (.fin 0) = false ∧
      UpdateModelSegmentTransformations.scale sampleUnscaledSegment
        = ⟨.fin 1, .fin 1, .fin 1⟩) :=
  ⟨⟨rfl, by norm_num, by decide!, by norm_num, by norm_num,
      (C16_derived_scale sampleSizedSegment 1 (-2) 4 rfl).1 2 4 2 (by norm_num) (by decide!)
        (by norm_num) (by norm_num) (by norm_num)⟩,
    ⟨rfl, by norm_num, by decide!,
      (C16_derived_scale sampleSegment 0 0 0 rfl).2.1 (by norm_num) (by decide!)⟩,
    ⟨rfl, by norm_num, by decide!,
      (C16_derived_scale sampleUnscaledSegment 0 0 0 rfl).2.2 (by norm_num) (by decide!)⟩⟩

/-- The pointer `frame` of the sample segments leads to PELVIS. -/
theorem sampleSegmentModel_frames :
    ∀ s ∈ sampleSegmentModel.segments, ∃ f, s.frame.bind sampleSegmentModel.frameAt = some f := by
  intro s hs
  simp only [sampleSegmentModel, List.mem_cons, List.mem_singleton, List.not_mem_nil,
    or_false] at hs
  rcases hs with h | h <;> subst h <;> exact ⟨samplePelvis, rfl⟩

/-- C17 (counterexample): for a segment whose mesh-center is NaN and whose
authored translate is (1, 2, 3), the translation of
`UpdateModelSegmentTransformations` is (1, 2, 3), not zero, and it is the
translation of the matrix that the segment receives. -/
theorem C17_counterexample :
    sampleSegment.meshcenter.x.isnan = true ∧
    UpdateModelSegmentTransformations.translate sampleSegment = ⟨.fin 1, .fin 2, .fin 3⟩ ∧
    (UpdateModelSegmentTransformations sampleGL sampleSegmentModel).map
        (fun m => m.segments.get? 0)
      = .ok (some { sampleSegment with
          gl_matrix :=
            some (sampleGL.smScale 2 (-1) 3 * sampleGL.smTranslate 1 2 3
              * samplePelvis.pose_transform) }) := by
  have hs : UpdateModelSegmentTransformations.scale sampleSegment
      = ⟨.fin 2, .fin (-1), .fin 3⟩ := by decide!
  have ht : UpdateModelSegmentTransformations.translate sampleSegment
      = ⟨.fin 1, .fin 2, .fin 3⟩ := by decide!
  refine ⟨rfl, ht, ?_⟩
  rw [UpdateModelSegmentTransformations_get sampleGL sampleSegmentModel 0 sampleSegment
    samplePelvis sampleSegmentModel_frames rfl rfl]
  simp only [UpdateModelSegmentTransformations.body, hs, ht,
    UpdateModelSegmentTransformations.gl_matrix, XFloat.toRat]

/-- C17 (amended): let the scale of a segment be (sx, sy, sz) and its authored
translate (tx, ty, tz), all finite, and let its frame have the pose matrix P.
When the first component of the mesh-center is NaN, the matrix that
`UpdateModelSegmentTransformations` gives the segment is `smScale (sx, sy, sz)
* smTranslate (tx, ty, tz) * P`: the translation is the authored translate.
When the mesh-center (mx, my, mz) and the corners a, b of the bounding box are
finite, the translation is, per component, `-(a + (b - a) / 2) * s + m + t`. -/
theorem C17_derived_translation (gl : GLOps) (model : MeshupModel) (i : Nat) (seg : Segment)
    (frame : Frame) (sx sy sz tx ty tz : ℚ)
    (hframes : ∀ s ∈ model.segments, ∃ f, s.frame.bind model.frameAt = some f)
    (hseg : model.segments.get? i = some seg)
    (hframe : seg.frame.bind model.frameAt = some frame)
    (hscale : UpdateModelSegmentTransformations.scale seg = ⟨.fin sx, .fin sy, .fin sz⟩)
    (htr : seg.translate = ⟨.fin tx, .fin ty, .fin tz⟩) :
    (seg.meshcenter.x.isnan = true →
      (UpdateModelSegmentTransformations gl model).map (fun m => m.segments.get? i)
        = .ok (some { seg with
            gl_matrix :=
              some (gl.smScale sx sy sz * gl.smTranslate tx ty tz * frame.pose_transform) })) ∧
    (∀ ax ay az bx bY bz mx my mz : ℚ,
      seg.mesh.bbox_min = ⟨.fin ax, .fin ay, .fin az⟩ →
      seg.mesh.bbox_max = ⟨.fin bx, .fin bY, .fin bz⟩ →
      seg.meshcenter = ⟨.fin mx, .fin my, .fin mz⟩ →
      (UpdateModelSegmentTransformations gl model).map (fun m => m.segments.get? i)
        = .ok (some { seg with
            gl_matrix :=
              some (gl.smScale sx sy sz
                * gl.smTranslate (-(ax + (bx - ax) * (1 / 2)) * sx + mx + tx)
                    (-(ay + (bY - ay) * (1 / 2)) * sy + my + ty)
                    (-(az + (bz - az) * (1 / 2)) * sz + mz + tz)
                * frame.pose_transform) })) := by
  rw [UpdateModelSegmentTransformations_get gl model i seg frame hframes hseg hframe]
  refine ⟨?_, ?_⟩
  · intro hnan
    have ht : UpdateModelSegmentTransformations.translate seg = ⟨.fin tx, .fin ty, .fin tz⟩ := by
      unfold UpdateModelSegmentTransformations.translate
      simp only [hnan, Bool.true_eq_false, if_false, Vector3fx.add, XFloat_zero_add]
      exact htr
    simp only [UpdateModelSegmentTransformations.body, hscale, ht,
      UpdateModelSegmentTransformations.gl_matrix, XFloat.toRat]
  · intro ax ay az bx bY bz mx my mz hmin hmax hmc
    have ht : UpdateModelSegmentTransformations.translate seg
        = ⟨.fin (-(ax + (bx - ax) * (1 / 2)) * sx + mx + tx),
          .fin (-(ay + (bY - ay) * (1 / 2)) * sy + my + ty),
          .fin (-(az + (bz - az) * (1 / 2)) * sz + mz + tz)⟩ := by
      unfold UpdateModelSegmentTransformations.translate
      simp only [hscale, hmin, hmax, hmc, htr, XFloat.isnan, if_true, Vector3fx.add,
        Vector3fx.sub, Vector3fx.smul, XFloat.add, XFloat.sub, XFloat.neg, XFloat.mul,
        sub_eq_add_neg]
    simp only [UpdateModelSegmentTransformations.body, hscale, ht,
      UpdateModelSegmentTransformations.gl_matrix, XFloat.toRat]

/-- Witness of C17: the two segments of the sample model, one without and one
with a mesh-center. -/
theorem C17_derived_translation_witness :
    ((∀ s ∈ sampleSegmentModel.segments,
        ∃ f, s.frame.bind sampleSegmentModel.frameAt = some f) ∧
      sampleSegmentModel.segments.get? 0 = some sampleSegment ∧
      sampleSegment.frame.bind sampleSegmentModel.frameAt = some samplePelvis ∧
      UpdateModelSegmentTransformations.scale sampleSegment = ⟨.fin 2, .fin (-1), .fin 3⟩ ∧
      sampleSegment.translate = ⟨.fin 1, .fin 2, .fin 3⟩ ∧
      sampleSegment.meshcenter.x.isnan = true ∧
      (UpdateModelSegmentTransformations sampleGL sampleSegmentModel).map
          (fun m => m.segments.get? 0)
        = .ok (some { sampleSegment with
            gl_matrix :=
              some (sampleGL.smScale 2 (-1) 3 * sampleGL.smTranslate 1 2 3
                * samplePelvis.pose_transform) })) ∧
    (sampleSegmentModel.segments.get? 1 = some sampleSizedSegment ∧
      sampleSizedSegment.frame.bind sampleSegmentModel.frameAt = some samplePelvis ∧
      UpdateModelSegmentTransformations.scale sampleSizedSegment
        = ⟨.fin (1 / 2), .fin (1 / 2), .fin 2⟩ ∧
      sampleSizedSegment.translate = ⟨.fin 1, .fin 2, .fin 3⟩ ∧
      sampleSizedSegment.mesh.bbox_min = ⟨.fin (-1), .fin (-1), .fin (-1)⟩ ∧
      sampleSizedSegment.mesh.bbox_max = ⟨.fin 1, .fin 3, .fin 1⟩ ∧
      sampleSizedSegment.meshcenter = ⟨.fin 5, .fin 6, .fin 7⟩ ∧
      (UpdateModelSegmentTransformations sampleGL sampleSegmentModel).map
          (fun m => m.segments.get? 1)
        = .ok (some { sampleSizedSegment with
            gl_matrix :=
              some (sampleGL.smScale (1 / 2) (1 / 2) 2
                * sampleGL.smTranslate (-(-1 + (1 - -1) * (1 / 2)) * (1 / 2) + 5 + 1)
                    (-(-1 + (3 - -1) * (1 / 2)) * (1 / 2) + 6 + 2)
                    (-(-1 + (1 - -1) * (1 / 2)) * 2 + 7 + 3)
                * samplePelvis.pose_transform) })) :=
  ⟨⟨sampleSegmentModel_frames, rfl, rfl, by decide!, rfl, rfl,
      (C17_derived_translation sampleGL sampleSegmentModel 0 sampleSegment samplePelvis
        2 (-1) 3 1 2 3 sampleSegmentModel_frames rfl rfl (by decide!) rfl).1 rfl⟩,
    ⟨rfl, rfl, by decide!, rfl, rfl, rfl, rfl,
      (C17_derived_translation sampleGL sampleSegmentModel 1 sampleSizedSegment samplePelvis
        (1 / 2) (1 / 2) 2 1 2 3 sampleSegmentModel_frames rfl rfl (by decide!) rfl).2
        (-1) (-1) (-1) 1 3 1 5 6 7 rfl rfl rfl⟩⟩

/-! ## C18: the path of a `DATA_FROM:` file -/

/-- C18 (the code at the failing input): the path that is opened for
`DATA_FROM: p` is `p` for every animation file and every `p`, the test of line
252 being false for every path. For the animation file `dir/anim.txt` with
`DATA_FROM: data.txt` the file `data.txt` is opened, not `dir/data.txt`: a
strict load ends the process when only `dir/data.txt` exists, and reads the
rows of `data.txt` when that file exists as well. -/
theorem C18_data_path_not_resolved :
    (∀ filename data_path : Str, resolveDataPath filename data_path = data_path) ∧
    parent_path "dir/anim.txt".toList ++ '/' :: "data.txt".toList = "dir/data.txt".toList ∧
    loadFromFile
        (sampleEnvFiles [("dir/anim.txt".toList, "COLUMNS: time\nDATA_FROM: data.txt\n".toList),
          ("dir/data.txt".toList, "7\n".toList)])
        emptyAnimation "dir/anim.txt".toList ⟨1⟩ true = .error .exit1 ∧
    loadedTimestamps (loadFromFile
        (sampleEnvFiles [("dir/anim.txt".toList, "COLUMNS: time\nDATA_FROM: data.txt\n".toList),
          ("dir/data.txt".toList, "7\n".toList), ("data.txt".toList, "5\n".toList)])
        emptyAnimation "dir/anim.txt".toList ⟨1⟩ true) = some [5, 5] := by
  refine ⟨?_, by decide, by decide!, by decide!⟩
  intro filename data_path
  unfold resolveDataPath
  simp only []
  split <;> simp

/-! ## C19: the JSON round trip of a segment -/

/-- C19 (the code at the failing input): a segment with the mesh-center
(5, 6, 7) and the translate (1, 2, 3) is written without the member
`translate`; read back with `addSegment`, it has the translate (0, 0, 0), every
other member being as before. A frame whose rest transform holds a rotation
ends the process in `frame_to_json_value`. -/
theorem C19_translate_not_saved :
    (saveModelToJsonFile.segments sampleSavedModel sampleSavedModel.segments).map
        (fun nodes => nodes.map fun n => (n.mesh_center, n.translate))
      = .ok [(some ⟨.fin 5, .fin 6, .fin 7⟩, none)] ∧
    sampleSavedModel.segments.map (segmentSummary sampleSavedModel)
      = [⟨"pelvis".toList, some "PELVIS".toList, ⟨.fin 1, .fin (-2), .fin 4⟩,
          ⟨.fin 2, .fin (-1), .fin 3⟩, ⟨.fin 1, .fin 1, .fin 1⟩, ⟨.fin 1, .fin 2, .fin 3⟩,
          ⟨.fin 5, .fin 6, .fin 7⟩, "pelvis.obj".toList⟩] ∧
    (saveModelToJsonFile.segments sampleSavedModel sampleSavedModel.segments >>= fun nodes =>
        loadModelFromJsonFile.segments (sampleModelEnv []) true
          { sampleSavedModel with segments := [], meshmap := [] } nodes).map
        (fun m => m.segments.map (segmentSummary m))
      = .ok [⟨"pelvis".toList, some "PELVIS".toList, ⟨.fin 1, .fin (-2), .fin 4⟩,
          ⟨.fin 2, .fin (-1), .fin 3⟩, ⟨.fin 1, .fin 1, .fin 1⟩, ⟨.fin 0, .fin 0, .fin 0⟩,
          ⟨.fin 5, .fin 6, .fin 7⟩, "pelvis.obj".toList⟩] ∧
    frame_to_json_value sampleTurnedFrame ⟨1⟩ = .error .abort := by
  refine ⟨by decide!, by decide!, by decide!, ?_⟩
  decide!

/-! ## C20: reserved characters in frame names -/

/-- `find_first_of` finds a position exactly when the string holds a character
of the set. -/
theorem find_first_of_isSome (s set : Str) :
    (find_first_of s set).isSome = true ↔ ∃ c ∈ s, c ∈ set := by
  induction s with
  | nil => simp [find_first_of]
  | cons a s ih =>
    unfold find_first_of
    by_cases h : a ∈ set
    · simp [h]
    · simp only [h, if_false, Option.isSome_map', ih, List.mem_cons, exists_eq_or_imp, false_or]

/-- A name with one of the eleven characters of `invalid_id_characters` ends
the process in `sanitize_frame_name`. -/
theorem sanitize_frame_name_rejects (env : ModelEnv) (name : Str) (c : Char)
    (hc : c ∈ name) (hinv : c ∈ invalid_id_characters) :
    sanitize_frame_name env name = .error .exit1 := by
  unfold sanitize_frame_name
  simp only []
  rw [if_pos ((find_first_of_isSome name invalid_id_characters).mpr ⟨c, hc, hinv⟩)]

/-- `addFrame` ends the process when the frame name or the parent name holds
one of the eleven characters of `invalid_id_characters`. -/
theorem addFrame_rejects (env : ModelEnv) (m : MeshupModel) (parent name : Str)
    (parent_transform : Matrix44f) (c : Char) (hinv : c ∈ invalid_id_characters)
    (hc : c ∈ name ∨ c ∈ parent) :
    m.addFrame env parent name parent_transform = .error .exit1 := by
  unfold MeshupModel.addFrame
  simp only []
  by_cases hn : ∃ d ∈ name, d ∈ invalid_id_characters
  · obtain ⟨d, hd, hdi⟩ := hn
    rw [sanitize_frame_name_rejects env name d hd hdi]
    rfl
  · have hp : c ∈ parent := by
      rcases hc with h | h
      · exact absurd ⟨c, h, hinv⟩ hn
      · exact h
    have hok : sanitize_frame_name env name
        = .ok (if env.is_numeric name then '_' :: name else name) := by
      unfold sanitize_frame_name
      simp only []
      rw [if_neg (fun h => hn ((find_first_of_isSome name invalid_id_characters).mp h))]
    rw [hok, sanitize_frame_name_rejects env parent c hp hinv]
    rfl

/-- C20 (the code at the failing input): `#` is not among the characters of
`invalid_id_characters` in `MeshupModel.cc`, `sanitize_frame_name` returns the
name `a#b` unchanged, and `addFrame ("BASE", "a#b", ...)` returns with a frame
of that name stored in the model and in `framemap`. -/
theorem C20_hash_accepted :
    '#' ∉ invalid_id_characters ∧
    sanitize_frame_name (sampleModelEnv []) "a#b".toList = .ok "a#b".toList ∧
    ((MeshupModel.init ⟨1⟩).addFrame (sampleModelEnv []) "BASE".toList "a#b".toList 1).map
        (fun m => (m.findFrame "a#b".toList, (m.frameAt [0, 0]).map Frame.name))
      = .ok (some [0, 0], some "a#b".toList) := by
  refine ⟨by decide, by decide, by decide⟩

/-! ## C21: duplicate frame names -/

/-- Counterexample to C21: on a new model the calls
`addFrame ("BASE", "A", ...)` and again `addFrame ("BASE", "A", ...)` both
return and leave the tree with two frames named `A`; the call
`addFrame ("BASE", "BASE", ...)` returns and leaves a second frame named
`BASE`. -/
theorem C21_duplicate_names_accepted :
    ((MeshupModel.init ⟨1⟩).addFrame (sampleModelEnv []) "BASE".toList "A".toList 1
        >>= fun m => m.addFrame (sampleModelEnv []) "BASE".toList "A".toList 1).map
        MeshupModel.frameNames
      = .ok ["BASE".toList, "A".toList, "A".toList] ∧
    ((MeshupModel.init ⟨1⟩).addFrame (sampleModelEnv []) "BASE".toList "BASE".toList 1).map
        MeshupModel.frameNames
      = .ok ["BASE".toList, "BASE".toList] := by
  refine ⟨by decide, by decide⟩

/-! ## C22: the duration after `addFramePose` -/

/-- One call of `addFramePose` that returns leaves the larger of the duration
and the time of the call as duration. -/
theorem addFramePose_duration (env : ModelEnv) (m m' : MeshupModel) (c : FramePoseCall)
    (h : m.addFramePose env c.frame_name c.time c.frame_translation c.frame_rotation
      c.frame_scaling = .ok m') :
    m'.animation.duration = max m.animation.duration c.time := by
  unfold MeshupModel.addFramePose at h
  obtain ⟨sanitized, _, h⟩ := bind_ok_inv _ _ _ h
  simp only [Except.ok.injEq] at h
  rw [← h]
  by_cases ht : c.time > m.animation.duration
  · simp only [ht, if_true]
    exact (max_eq_right (le_of_lt ht)).symm
  · simp only [ht, if_false]
    exact (max_eq_left (not_lt.mp ht)).symm

/-- A call of `addFramePose` returns when the frame name holds none of the
characters of `invalid_id_characters`. -/
theorem addFramePose_returns (env : ModelEnv) (m : MeshupModel) (c : FramePoseCall)
    (hname : find_first_of c.frame_name invalid_id_characters = none) :
    ∃ m', m.addFramePose env c.frame_name c.time c.frame_translation c.frame_rotation
      c.frame_scaling = .ok m' := by
  unfold MeshupModel.addFramePose sanitize_frame_name
  simp only [hname, Option.isSome_none, Bool.false_eq_true, if_false, bind, Except.bind]
  exact ⟨_, rfl⟩

/-- The duration after a sequence of calls of `addFramePose`. -/
theorem addFramePoseCalls_duration (env : ModelEnv) (calls : List FramePoseCall) :
    ∀ m : MeshupModel,
      (∀ c ∈ calls, find_first_of c.frame_name invalid_id_characters = none) →
      ∃ m', MeshupModel.addFramePoseCalls env m calls = .ok m' ∧
        m'.animation.duration = (calls.map (·.time)).foldl max m.animation.duration := by
  induction calls with
  | nil => intro m _; exact ⟨m, rfl, rfl⟩
  | cons c calls ih =>
    intro m hnames
    obtain ⟨m1, h1⟩ := addFramePose_returns env m c (hnames c (List.mem_cons_self _ _))
    obtain ⟨m', hrest, hd⟩ := ih m1 (fun d hd => hnames d (List.mem_cons_of_mem _ hd))
    refine ⟨m', ?_, ?_⟩
    · simp only [MeshupModel.addFramePoseCalls, h1, bind, Except.bind]
      exact hrest
    · rw [hd, addFramePose_duration env m m1 c h1]
      rfl

/-- C22: on a model whose animation duration is 0, every sequence of calls of
`addFramePose` with frame names that `sanitize_frame_name` accepts returns, and
afterwards `animation.duration` is the largest of 0 and the times passed to
the calls; no call that returns decreases the duration. -/
theorem C22_duration_is_max (env : ModelEnv) (m : MeshupModel) (calls : List FramePoseCall)
    (h0 : m.animation.duration = 0)
    (hnames : ∀ c ∈ calls, find_first_of c.frame_name invalid_id_characters = none) :
    (∃ m', MeshupModel.addFramePoseCalls env m calls = .ok m' ∧
      m'.animation.duration = (calls.map (·.time)).foldl max 0) ∧
    ∀ (m1 m2 : MeshupModel) (c : FramePoseCall),
      m1.addFramePose env c.frame_name c.time c.frame_translation c.frame_rotation
        c.frame_scaling = .ok m2 →
      m1.animation.duration ≤ m2.animation.duration := by
  constructor
  · obtain ⟨m', hm, hd⟩ := addFramePoseCalls_duration env calls m hnames
    exact ⟨m', hm, by rw [hd, h0]⟩
  · intro m1 m2 c h
    rw [addFramePose_duration env m1 m2 c h]
    exact le_max_left _ _

/-- Witness of C22: the sample model and calls at the times 1, 3 and 2: the
duration is 3. -/
theorem C22_duration_is_max_witness :
    sampleModel.animation.duration = 0 ∧
    (∀ c ∈ sampleCalls, find_first_of c.frame_name invalid_id_characters = none) ∧
    (sampleCalls.map (·.time)).foldl max 0 = 3 ∧
    ((∃ m', MeshupModel.addFramePoseCalls (sampleModelEnv []) sampleModel sampleCalls = .ok m' ∧
      m'.animation.duration = (sampleCalls.map (·.time)).foldl max 0) ∧
    ∀ (m1 m2 : MeshupModel) (c : FramePoseCall),
      m1.addFramePose (sampleModelEnv []) c.frame_name c.time c.frame_translation
        c.frame_rotation c.frame_scaling = .ok m2 →
      m1.animation.duration ≤ m2.animation.duration) :=
  ⟨rfl, by decide, by decide!,
    C22_duration_is_max (sampleModelEnv []) sampleModel sampleCalls rfl (by decide)⟩

/-! ## C23: blank lines -/

/-- A line that is not empty and holds whitespace only makes
`strip_whitespaces` throw. -/
theorem strip_whitespaces_blank (line : Str) (hne : line ≠ [])
    (hws : ∀ c ∈ line, c ∈ whitespaces_std) :
    strip_whitespaces line = .error .out_of_range := by
  have hfirst : (find_first_of line whitespaces_std).isSome = true := by
    cases line with
    | nil => exact absurd rfl hne
    | cons c cs =>
      unfold find_first_of
      rw [if_pos (hws c (List.mem_cons_self _ _))]
      rfl
  have hnot : find_first_not_of line whitespaces_std = none := by
    clear hfirst hne
    induction line with
    | nil => rfl
    | cons c cs ih =>
      unfold find_first_not_of
      rw [if_pos (hws c (List.mem_cons_self _ _)),
        ih (fun d hd => hws d (List.mem_cons_of_mem _ hd))]
      rfl
  unfold strip_whitespaces strip_whitespaces_with stripLeading
  rw [if_pos hfirst, hnot]
  simp [substr, bind, Except.bind]

/-- C23 (the code at the failing inputs): `strip_whitespaces` throws
`out_of_range` on a line of two blanks and reads `result[size_t (-1)]` on the
empty line, while a comment line is reduced to the empty string; a strict load
of an animation file with a line of blanks ends in both readers with the
exception. -/
theorem C23_blank_line_throws :
    strip_whitespaces "  ".toList = .error .out_of_range ∧
    strip_whitespaces [] = .error .undefined ∧
    (strip_whitespaces "  # note".toList >>= strip_comments) = .ok [] ∧
    loadFromFile (sampleEnv "COLUMNS: time\n  \nDATA:\n0\n".toList)
        emptyAnimation "anim.txt".toList ⟨1⟩ true = .error .out_of_range ∧
    (sampleModel.loadAnimationFromFile
        (sampleModelEnv "COLUMNS:\ntime\n  \nDATA:\n1.0".toList) true "anim.txt".toList true).map
        Prod.fst = .error .out_of_range := by
  refine ⟨by decide, by decide, by decide, by decide!, by decide!⟩

/-! ## C24: the reads of the bracketing loop -/

/-- The bracketing loop reads `*poses.end ()` exactly when no keyframe from the
iterator on has a timestamp after the query time. -/
theorem bracketLoopChecked_undefined (time : ℚ) (rest : List FramePose) :
    ∀ (p start_pose : FramePose),
      bracketLoopChecked time (p :: rest) start_pose p = .error .undefined ↔
        ∀ x ∈ p :: rest, x.timestamp ≤ time := by
  induction rest with
  | nil =>
    intro p start_pose
    unfold bracketLoopChecked
    by_cases h : p.timestamp ≤ time
    · simp [h]
    · simp [h]
  | cons q rest ih =>
    intro p start_pose
    unfold bracketLoopChecked
    by_cases h : p.timestamp ≤ time
    · simp only [h, if_true, List.mem_cons, forall_eq_or_imp, true_and]
      rw [ih q p]
      simp only [List.mem_cons, forall_eq_or_imp]
    · simp [h]

/-- C24 (the code at the failing input): for every track with at least two
keyframes, `interpolatePose` reads `*poses.end ()` exactly when the query time
is not before the timestamp of any keyframe after the first; for the track with
keyframes at 0 and 2 it does so at the times 2 and 5, not at the time 1. -/
theorem C24_reads_end :
    (∀ (slerp : smQuaternion → ℚ → smQuaternion → smQuaternion) (p0 p1 : FramePose)
        (rest : List FramePose) (time : ℚ),
      interpolatePoseChecked slerp (p0 :: p1 :: rest) time = .error .undefined ↔
        ∀ x ∈ p1 :: rest, x.timestamp ≤ time) ∧
    interpolatePoseChecked sampleSlerp [sampleKeyA, sampleKeyB] 2 = .error .undefined ∧
    interpolatePoseChecked sampleSlerp [sampleKeyA, sampleKeyB] 5 = .error .undefined ∧
    (interpolatePoseChecked sampleSlerp [sampleKeyA, sampleKeyB] 1).map (·.timestamp)
      = .ok 1 := by
  refine ⟨?_, by decide!, by decide!, by decide!⟩
  intro slerp p0 p1 rest time
  rw [← bracketLoopChecked_undefined time rest p1 p0]
  unfold interpolatePoseChecked
  simp only [bind, Except.bind]
  generalize bracketLoopChecked time (p1 :: rest) p0 p1 = r
  cases r with
  | error e => simp
  | ok r => simp

/-! ## C25: termination of the time wrap -/

/-- With a duration that is not positive the wrap loop is never left once it
is entered. -/
theorem wrapLoop_diverges (D : ℚ) (hD : D ≤ 0) :
    ∀ (fuel : Nat) (t : ℚ), D < t → wrapLoop D fuel t = none := by
  intro fuel
  induction fuel with
  | zero => intro t _; rfl
  | succ n ih =>
    intro t ht
    unfold wrapLoop
    rw [if_pos ht]
    exact ih (t - D) (by linarith)

/-- C25: the loop `while (current_time > duration) current_time -= duration`
is left after finitely many evaluations of its condition exactly when the
duration is positive or the time is not above the duration; with `loop` set, a
duration that is not positive and a time above it, neither
`InterpolateModelFramesFromAnimation` nor `updatePose` (on a model with a
track) returns, whatever the bound on the evaluations. -/
theorem C25_wrap_termination (animation : Playback) (time : ℚ) (ntracks : Nat) :
    ((∃ fuel, (wrapLoop animation.duration fuel time).isSome = true) ↔
      (0 < animation.duration ∨ time ≤ animation.duration)) ∧
    (animation.loop = true → animation.duration ≤ 0 → animation.duration < time →
      ∀ fuel, InterpolateModelFramesFromAnimation fuel animation time = none) ∧
    (animation.loop = true → animation.duration ≤ 0 →
      animation.duration < animation.current_time → ntracks ≠ 0 →
      ∀ fuel, updatePoseTime fuel ntracks animation = none) := by
  refine ⟨⟨?_, ?_⟩, ?_, ?_⟩
  · intro hex
    obtain ⟨fuel, hf⟩ := hex
    by_contra hcon
    rw [not_or] at hcon
    have hnone := wrapLoop_diverges animation.duration (not_lt.mp hcon.1) fuel time
      (not_le.mp hcon.2)
    rw [hnone] at hf
    exact absurd hf (by simp)
  · intro h
    rcases h with hD | hle
    · obtain ⟨n, hn⟩ := exists_nat_ge (time / animation.duration)
      have hbound : time ≤ (n + 1) * animation.duration := by
        have h1 : time ≤ n * animation.duration := (div_le_iff₀ hD).mp hn
        nlinarith
      obtain ⟨k, _, _, _, hrun⟩ := wrapLoop_result animation.duration hD n time hbound
      exact ⟨k + 1, by rw [hrun (k + 1) (Nat.lt_succ_self k)]; rfl⟩
    · exact ⟨1, by simp [wrapLoop, not_lt.mpr hle]⟩
  · intro hloop hD ht fuel
    simp only [InterpolateModelFramesFromAnimation, clampTime, gt_iff_lt, ht, hloop, if_true,
      wrapLoop_diverges animation.duration hD fuel time ht, Option.map_none']
  · intro hloop hD ht hn fuel
    simp only [updatePoseTime, hn, ne_eq, not_false_eq_true, if_true, clampTime, gt_iff_lt, ht,
      hloop, wrapLoop_diverges animation.duration hD fuel animation.current_time ht,
      Option.map_none']

/-- Witness of C25: a looping clock with duration 0 at the time 1. -/
theorem C25_wrap_termination_witness :
    sampleStuckPlayback.loop = true ∧ sampleStuckPlayback.duration ≤ 0 ∧
    sampleStuckPlayback.duration < 1 ∧
    sampleStuckPlayback.duration < sampleStuckPlayback.current_time ∧ (1 : Nat) ≠ 0 ∧
    ((∃ fuel, (wrapLoop sampleStuckPlayback.duration fuel 1).isSome = true) ↔
      (0 < sampleStuckPlayback.duration ∨ 1 ≤ sampleStuckPlayback.duration)) ∧
    (∀ fuel, InterpolateModelFramesFromAnimation fuel sampleStuckPlayback 1 = none) ∧
    (∀ fuel, updatePoseTime fuel 1 sampleStuckPlayback = none) :=
  ⟨rfl, by decide!, by decide!, by decide!, by decide,
    (C25_wrap_termination sampleStuckPlayback 1 1).1,
    (C25_wrap_termination sampleStuckPlayback 1 1).2.1 rfl (by decide!) (by decide!),
    (C25_wrap_termination sampleStuckPlayback 1 1).2.2 rfl (by decide!) (by decide!)
      (by decide)⟩

/-! ## C26: the two column parsers -/

/-- C26 (the code at the failing input): both column parsers accept the token
`PELVIS:r:z:radian` as a rotation about z; the parser of `Animation.cc` sets
the radian flag, the parser of `MeshupModel.cc` does not. -/
theorem C26_radian_unit_differs :
    parseColumnSpec true "PELVIS:r:z:radian".toList
      = .ok (some { ColumnInfo.init with
          frame_name := "PELVIS".toList
          type := .TransformTypeRotation
          axis := .AxisTypeZ
          is_radian := true }) ∧
    Model.parseColumnSpec sampleModel true "PELVIS:r:z:radian".toList
      = .ok (some { Model.ColumnInfo.init with
          frame := some [0, 0]
          type := .TypeRotation
          axis := .AxisZ
          is_radian := false }) := by
  refine ⟨by decide, by decide⟩

/-! ## C27: the two segment resolvers -/

/-- When the pointer `frame` of every segment leads to a frame, the loop of
`updateSegments` returns, with the body applied to every segment. -/
theorem updateSegments_loop_get (gl : GLOps) (model : MeshupModel) (segs : List Segment)
    (hframes : ∀ seg ∈ segs, ∃ frame, seg.frame.bind model.frameAt = some frame) :
    ∃ segs', MeshupModel.updateSegments.loop gl model segs = .ok segs' ∧
      ∀ (i : Nat) (seg : Segment) (frame : Frame), segs.get? i = some seg →
        seg.frame.bind model.frameAt = some frame →
        segs'.get? i = some (MeshupModel.updateSegments.body gl seg frame) := by
  induction segs with
  | nil => exact ⟨[], rfl, fun i seg frame h => by simp at h⟩
  | cons s rest ih =>
    obtain ⟨f, hf⟩ := hframes s (List.mem_cons_self _ _)
    obtain ⟨rest', hrest, hget⟩ := ih (fun seg hs => hframes seg (List.mem_cons_of_mem _ hs))
    refine ⟨MeshupModel.updateSegments.body gl s f :: rest', ?_, ?_⟩
    · simp only [MeshupModel.updateSegments.loop, hf, hrest, bind, Except.bind]
    · intro i seg frame hi hframe
      cases i with
      | zero =>
        simp only [List.get?_cons_zero, Option.some.injEq] at hi
        subst hi
        rw [hf] at hframe
        simp only [Option.some.injEq] at hframe
        subst hframe
        rfl
      | succ j =>
        simp only [List.get?_cons_succ] at hi ⊢
        exact hget j seg frame hi hframe

/-- The segments after `updateSegments`, when the pointer `frame` of every
segment leads to a frame. -/
theorem updateSegments_get (gl : GLOps) (model : MeshupModel) (i : Nat)
    (seg : Segment) (frame : Frame)
    (hframes : ∀ s ∈ model.segments, ∃ f, s.frame.bind model.frameAt = some f)
    (hseg : model.segments.get? i = some seg)
    (hframe : seg.frame.bind model.frameAt = some frame) :
    (MeshupModel.updateSegments gl model).map (fun m => m.segments.get? i)
      = .ok (some (MeshupModel.updateSegments.body gl seg frame)) := by
  obtain ⟨segs', hloop, hget⟩ := updateSegments_loop_get gl model model.segments hframes
  simp only [MeshupModel.updateSegments, hloop, bind, Except.bind, Except.map,
    hget i seg frame hseg hframe]

/-- The two resolvers give a segment the same matrix when their tests of the
dimensions agree. -/
theorem resolvers_agree (gl : GLOps) (seg : Segment) (frame : Frame)
    (h : seg.dimensions.squaredNorm.gt (.fin (1 / 10000)) = true ↔ seg.dimensions.x ≠ .fin 0) :
    MeshupModel.updateSegments.body gl seg frame
      = UpdateModelSegmentTransformations.body gl seg frame := by
  have hs : MeshupModel.updateSegments.scale seg
      = UpdateModelSegmentTransformations.scale seg := by
    unfold MeshupModel.updateSegments.scale UpdateModelSegmentTransformations.scale
    by_cases hx : seg.dimensions.x ≠ .fin 0
    · rw [if_pos hx, if_pos (h.mpr hx)]
    · rw [if_neg hx, if_neg (fun hg => hx (h.mp hg))]
  have ht : MeshupModel.updateSegments.translate seg
      = UpdateModelSegmentTransformations.translate seg := by
    unfold MeshupModel.updateSegments.translate UpdateModelSegmentTransformations.translate
    rw [hs]
  unfold MeshupModel.updateSegments.body UpdateModelSegmentTransformations.body
  rw [hs, ht]

/-- The frame of the segment of `sampleFlatModel` is PELVIS. -/
theorem sampleFlatModel_frames :
    ∀ s ∈ sampleFlatModel.segments, ∃ f, s.frame.bind sampleFlatModel.frameAt = some f := by
  intro s hs
  simp only [sampleFlatModel, List.mem_singleton] at hs
  subst hs
  exact ⟨samplePelvis, rfl⟩

/-- C27 (the code at the failing input): for a segment with the dimensions
(0, 2, 0), the scale (-1, -1, -1) and a bounding box with the extents
(2, 4, 2), `UpdateModelSegmentTransformations` uses the scale (0, 1/2, 0) and
`MeshupModel::updateSegments` the scale (1, 1, 1), and the matrices they give
the segment differ (entry (0, 0) is 0 and 1). -/
theorem C27_resolvers_differ :
    UpdateModelSegmentTransformations.scale sampleFlatSegment
      = ⟨.fin 0, .fin (1 / 2), .fin 0⟩ ∧
    MeshupModel.updateSegments.scale sampleFlatSegment = ⟨.fin 1, .fin 1, .fin 1⟩ ∧
    (UpdateModelSegmentTransformations sampleGL sampleFlatModel).map
        (fun m => m.segments.get? 0)
      = .ok (some { sampleFlatSegment with
          gl_matrix :=
            some (sampleGL.smScale 0 (1 / 2) 0 * sampleGL.smTranslate 1 2 3
              * samplePelvis.pose_transform) }) ∧
    (MeshupModel.updateSegments sampleGL sampleFlatModel).map (fun m => m.segments.get? 0)
      = .ok (some { sampleFlatSegment with
          gl_matrix :=
            some (sampleGL.smScale 1 1 1 * sampleGL.smTranslate 1 2 3
              * samplePelvis.pose_transform) }) ∧
    (sampleGL.smScale 0 (1 / 2) 0 * sampleGL.smTranslate 1 2 3
        * samplePelvis.pose_transform) 0 0 = 0 ∧
    (sampleGL.smScale 1 1 1 * sampleGL.smTranslate 1 2 3
        * samplePelvis.pose_transform) 0 0 = 1 := by
  have hs : UpdateModelSegmentTransformations.scale sampleFlatSegment
      = ⟨.fin 0, .fin (1 / 2), .fin 0⟩ := by decide!
  have ht : UpdateModelSegmentTransformations.translate sampleFlatSegment
      = ⟨.fin 1, .fin 2, .fin 3⟩ := by decide!
  have hs' : MeshupModel.updateSegments.scale sampleFlatSegment
      = ⟨.fin 1, .fin 1, .fin 1⟩ := by decide!
  have ht' : MeshupModel.updateSegments.translate sampleFlatSegment
      = ⟨.fin 1, .fin 2, .fin 3⟩ := by decide!
  refine ⟨hs, hs', ?_, ?_, ?_, ?_⟩
  · rw [UpdateModelSegmentTransformations_get sampleGL sampleFlatModel 0 sampleFlatSegment
      samplePelvis sampleFlatModel_frames rfl rfl]
    simp only [UpdateModelSegmentTransformations.body, hs, ht,
      UpdateModelSegmentTransformations.gl_matrix, XFloat.toRat]
  · rw [updateSegments_get sampleGL sampleFlatModel 0 sampleFlatSegment
      samplePelvis sampleFlatModel_frames rfl rfl]
    simp only [MeshupModel.updateSegments.body, hs', ht',
      UpdateModelSegmentTransformations.gl_matrix, XFloat.toRat]
  · simp [sampleGL, samplePelvis, Frame.pose_transform, Matrix.mul_apply, Fin.sum_univ_four]
  · simp [sampleGL, samplePelvis, Frame.pose_transform, Matrix.mul_apply, Fin.sum_univ_four]

/-! ## C29: `lua_get_matrix3f` on a table of three rows -/

/-- C29 (the code at the failing input): for the Lua table
`{{1, 2, 3}, {4, 5, 6}, {7, 8, 9}}`, `lua_get_matrix3f` returns a matrix whose
row 0 is (1, 2, 3), whose row 1 is (7, 8, 9), the third row of the table, and
whose row 2 is what the declaration of `result` left there. -/
theorem C29_third_row_misplaced :
    ∀ junk : Matrix33f,
      (lua_get_matrix3f sampleLua junk "E".toList).map matrixRows
        = .ok [(1, 2, 3), (7, 8, 9), (junk 2 0, junk 2 1, junk 2 2)] := by
  intro junk
  have h1 : lua_get_vector3f sampleLua "E".toList 1 = .ok ⟨1, 2, 3⟩ := by decide!
  have h2 : lua_get_vector3f sampleLua "E".toList 2 = .ok ⟨4, 5, 6⟩ := by decide!
  have h3 : lua_get_vector3f sampleLua "E".toList 3 = .ok ⟨7, 8, 9⟩ := by decide!
  have hl : sampleLua.get_length "E".toList (-1) = 3 := by decide
  unfold lua_get_matrix3f
  rw [if_pos hl, h1, h2, h3]
  simp [bind, Except.bind, Except.map, matrixRows, assignRow, Vector3f.get]

/-! ## C30: `tokenize` -/

/-- A position found by `find_first_of` splits the string into a part without
a character of the set, the character found and the rest. -/
theorem find_first_of_split (set : Str) :
    ∀ (s : Str) (pos : Nat), find_first_of s set = some pos →
      ∃ pre c post, s = pre ++ c :: post ∧ pre.length = pos ∧ c ∈ set ∧
        ∀ x ∈ pre, x ∉ set := by
  intro s
  induction s with
  | nil => intro pos h; simp [find_first_of] at h
  | cons a s ih =>
    intro pos h
    unfold find_first_of at h
    by_cases ha : a ∈ set
    · rw [if_pos ha] at h
      simp only [Option.some.injEq] at h
      exact ⟨[], a, s, rfl, by simpa using h, ha, fun x hx => by simp at hx⟩
    · rw [if_neg ha] at h
      cases hs : find_first_of s set with
      | none => rw [hs] at h; simp at h
      | some p =>
        rw [hs] at h
        simp only [Option.map_some', Option.some.injEq] at h
        obtain ⟨pre, c, post, hsplit, hlen, hc, hpre⟩ := ih p hs
        refine ⟨a :: pre, c, post, by rw [hsplit]; rfl, by simp [hlen, h], hc, ?_⟩
        intro x hx
        rcases List.mem_cons.mp hx with hxa | hxp
        · rw [hxa]; exact ha
        · exact hpre x hxp

/-- When `find_first_of` finds no position, the string holds no character of
the set. -/
theorem find_first_of_none (set : Str) :
    ∀ s : Str, find_first_of s set = none → ∀ x ∈ s, x ∉ set := by
  intro s
  induction s with
  | nil => intro _ x hx; simp at hx
  | cons a s ih =>
    intro h x hx
    unfold find_first_of at h
    by_cases ha : a ∈ set
    · rw [if_pos ha] at h; simp at h
    · rw [if_neg ha] at h
      have hs : find_first_of s set = none := by
        cases hf : find_first_of s set with
        | none => rfl
        | some p => rw [hf] at h; simp at h
      rcases List.mem_cons.mp hx with hxa | hxs
      · rw [hxa]; exact ha
      · exact ih hs x hxs

/-- The loop of `tokenize` is left after at most one evaluation of its
condition per character and one more, and appends to `result` the tokens of
the line. -/
theorem tokenizeLoop_eq (delimiter : Str) :
    ∀ (fuel : Nat) (line : Str) (result : List Str), line.length < fuel →
      tokenizeLoop delimiter fuel line result
        = some (.ok (result ++ tokenize line delimiter)) := by
  intro fuel
  induction fuel with
  | zero => intro line result h; omega
  | succ n ih =>
    intro line result hlen
    unfold tokenizeLoop
    cases hf : find_first_of line delimiter with
    | none =>
      have hfree := find_first_of_none delimiter line hf
      have ht : tokenize line delimiter = if line = [] then [] else [line] := by
        have := tokenizeFrom_last delimiter line [] hfree
        simpa [tokenize] using this
      simp only [ht]
      cases line with
      | nil => simp
      | cons a l => simp
    | some pos =>
      obtain ⟨pre, c, post, hsplit, hpos, hc, hpre⟩ := find_first_of_split delimiter line pos hf
      have htoken : substr line 0 (some pos) = .ok pre := by
        unfold substr
        rw [if_neg (by omega)]
        simp [hsplit, ← hpos]
      have hrest : substr line (pre.length + 1) (some line.length) = .ok post := by
        unfold substr
        have hl : line.length = pre.length + (post.length + 1) := by
          rw [hsplit]; simp
        rw [if_neg (by omega)]
        have hdrop : List.drop (pre.length + 1) line = post := by
          rw [hsplit, List.drop_append_eq_append_drop]
          simp
        simp only [hdrop]
        rw [List.take_of_length_le (by omega)]
      have htok : tokenize line delimiter = pre :: tokenize post delimiter := by
        have := tokenizeFrom_field delimiter c hc pre post [] hpre
        simpa [tokenize, hsplit] using this
      have hpost : post.length < n := by
        have hl : line.length = pre.length + (post.length + 1) := by
          rw [hsplit]; simp
        omega
      simp only [htoken, hrest, ih post (result ++ [pre]) hpost, htok, List.append_assoc,
        List.singleton_append]

/-- Every line is a sequence of fields, each a text without delimiter followed
by one delimiter, and a text without delimiter after the last delimiter. -/
theorem line_fields (delimiter : Str) :
    ∀ line : Str, ∃ (fields : List (Str × Char)) (tail : Str),
      line = fields.flatMap (fun f => f.1 ++ [f.2]) ++ tail ∧
      (∀ f ∈ fields, (∀ c ∈ f.1, c ∉ delimiter) ∧ f.2 ∈ delimiter) ∧
      ∀ c ∈ tail, c ∉ delimiter := by
  intro line
  induction line with
  | nil => exact ⟨[], [], rfl, fun f hf => by simp at hf, fun c hc => by simp at hc⟩
  | cons a line ih =>
    obtain ⟨fields, tail, hline, hfields, htail⟩ := ih
    by_cases ha : a ∈ delimiter
    · refine ⟨([], a) :: fields, tail, by rw [hline]; simp, ?_, htail⟩
      intro f hf
      rcases List.mem_cons.mp hf with h | h
      · rw [h]; exact ⟨fun c hc => by simp at hc, ha⟩
      · exact hfields f h
    · cases fields with
      | nil =>
        refine ⟨[], a :: tail, by rw [hline]; simp, fun f hf => by simp at hf, ?_⟩
        intro c hc
        rcases List.mem_cons.mp hc with h | h
        · rw [h]; exact ha
        · exact htail c h
      | cons f rest =>
        refine ⟨(a :: f.1, f.2) :: rest, tail, by rw [hline]; simp, ?_, htail⟩
        intro g hg
        rcases List.mem_cons.mp hg with h | h
        · rw [h]
          refine ⟨?_, (hfields f (List.mem_cons_self _ _)).2⟩
          intro c hc
          rcases List.mem_cons.mp hc with h' | h'
          · rw [h']; exact ha
          · exact (hfields f (List.mem_cons_self _ _)).1 c h'
        · exact hfields g (List.mem_cons_of_mem _ h)

/-- The tokens of a line made of fields and a tail are the texts of the
fields, followed by the tail when it is not empty. -/
theorem tokenize_fields (delimiter : Str) (tail : Str) (htail : ∀ c ∈ tail, c ∉ delimiter) :
    ∀ fields : List (Str × Char),
      (∀ f ∈ fields, (∀ c ∈ f.1, c ∉ delimiter) ∧ f.2 ∈ delimiter) →
      tokenize (fields.flatMap (fun f => f.1 ++ [f.2]) ++ tail) delimiter
        = fields.map (·.1) ++ (if tail = [] then [] else [tail]) := by
  intro fields
  induction fields with
  | nil =>
    intro _
    have := tokenizeFrom_last delimiter tail [] htail
    simpa [tokenize] using this
  | cons f rest ih =>
    intro h
    have hf := h f (List.mem_cons_self _ _)
    have hrest := ih (fun g hg => h g (List.mem_cons_of_mem _ hg))
    have := tokenizeFrom_field delimiter f.2 hf.2 f.1
      (rest.flatMap (fun f => f.1 ++ [f.2]) ++ tail) [] hf.1
    simp only [tokenize] at hrest ⊢
    simp only [List.flatMap_cons, List.append_assoc, List.singleton_append, List.map_cons,
      List.cons_append, List.nil_append]
    rw [this, hrest]
    simp

/-- The number of delimiter characters of a line made of fields and a tail is
the number of fields. -/
theorem count_fields (delimiter : Str) (tail : Str) (htail : ∀ c ∈ tail, c ∉ delimiter) :
    ∀ fields : List (Str × Char),
      (∀ f ∈ fields, (∀ c ∈ f.1, c ∉ delimiter) ∧ f.2 ∈ delimiter) →
      (fields.flatMap (fun f => f.1 ++ [f.2]) ++ tail).countP (· ∈ delimiter)
        = fields.length := by
  have hfree : ∀ s : Str, (∀ c ∈ s, c ∉ delimiter) → s.countP (· ∈ delimiter) = 0 := by
    intro s hs
    rw [List.countP_eq_zero]
    intro c hc
    simpa using hs c hc
  intro fields
  induction fields with
  | nil => intro _; simpa using hfree tail htail
  | cons f rest ih =>
    intro h
    have hf := h f (List.mem_cons_self _ _)
    have hrest := ih (fun g hg => h g (List.mem_cons_of_mem _ hg))
    rw [List.flatMap_cons, List.append_assoc, List.countP_append, hrest, List.countP_append,
      hfree f.1 hf.1]
    simp [List.countP_cons, hf.2]
    omega

/-- C30: every line is a sequence of fields (a text without delimiter followed
by one delimiter character each) and a tail without delimiter; `tokenize`
leaves its loop after at most one evaluation of the condition per character
and one more, and returns the texts of the fields in order, followed by the
tail when the tail is not empty. So no token holds a delimiter, two adjacent
delimiters and a leading delimiter give an empty token, an empty tail is
omitted, and the number of tokens is the number of delimiter characters of the
line, plus one when the tail is not empty. For the line `,a,,b,` and the
delimiter `,` the tokens are the empty string, `a`, the empty string and `b`,
after five evaluations of the loop condition. -/
theorem C30_tokenize (line delimiter : Str) :
    (∃ (fields : List (Str × Char)) (tail : Str),
      line = fields.flatMap (fun f => f.1 ++ [f.2]) ++ tail ∧
      (∀ f ∈ fields, (∀ c ∈ f.1, c ∉ delimiter) ∧ f.2 ∈ delimiter) ∧
      (∀ c ∈ tail, c ∉ delimiter) ∧
      (∀ fuel, line.length < fuel →
        tokenizeLoop delimiter fuel line []
          = some (.ok (fields.map (·.1) ++ (if tail = [] then [] else [tail])))) ∧
      tokenize line delimiter = fields.map (·.1) ++ (if tail = [] then [] else [tail]) ∧
      (tokenize line delimiter).length
        = line.countP (· ∈ delimiter) + (if tail = [] then 0 else 1)) ∧
    (∀ t ∈ tokenize line delimiter, ∀ c ∈ t, c ∉ delimiter) ∧
    tokenizeLoop [','] 5 ",a,,b,".toList [] = some (.ok [[], ['a'], [], ['b']]) ∧
    tokenizeLoop [','] 4 ",a,,b,".toList [] = none := by
  obtain ⟨fields, tail, hline, hfields, htail⟩ := line_fields delimiter line
  have htok : tokenize line delimiter
      = fields.map (·.1) ++ (if tail = [] then [] else [tail]) := by
    have := tokenize_fields delimiter tail htail fields hfields
    rw [← hline] at this
    exact this
  have hcount := count_fields delimiter tail htail fields hfields
  rw [← hline] at hcount
  refine ⟨⟨fields, tail, hline, hfields, htail, ?_, htok, ?_⟩, ?_, by decide, by decide⟩
  · intro fuel hfuel
    rw [tokenizeLoop_eq delimiter fuel line [] hfuel, htok]
    rfl
  · rw [htok, hcount, List.length_append, List.length_map]
    by_cases ht : tail = []
    · simp [ht]
    · simp [ht]
  · intro t ht c hc
    rw [htok] at ht
    rcases List.mem_append.mp ht with h | h
    · obtain ⟨f, hf, hft⟩ := List.mem_map.mp h
      rw [← hft] at hc
      exact (hfields f hf).1 c hc
    · by_cases hnil : tail = []
      · simp [hnil] at h
      · simp only [hnil, if_false, List.mem_singleton] at h
        rw [h] at hc
        exact htail c hc

/-! ## C28: the frame traversal of the writers -/

/-- The values of a list of frames that is made of two parts. -/
theorem emitAll_append {α : Type} (emit : Frame → Str → Except Halt α) :
    ∀ (a b : List (Frame × Str)),
      emitAll emit (a ++ b)
        = emitAll emit a >>= fun x => emitAll emit b >>= fun y => .ok (x ++ y) := by
  intro a
  induction a with
  | nil =>
    intro b
    simp only [List.nil_append, emitAll, bind, Except.bind]
    cases emitAll emit b <;> rfl
  | cons e a ih =>
    intro b
    rw [List.cons_append, emitAll, emitAll, ih b]
    cases emit e.1 e.2 with
    | error err => rfl
    | ok node =>
      cases emitAll emit a with
      | error err => rfl
      | ok x =>
        cases emitAll emit b with
        | error err => rfl
        | ok y => rfl

mutual
/-- From a state with `frame` on top of the frame stack and the child index 0,
the loop writes the descendants of `frame` in pre-order and then goes on with
the stacks below. -/
theorem traversal_frame {α : Type} (emit : Frame → Str → Except Halt α) :
    ∀ (frame : Frame) (frame_stack : List Frame) (child_index_stack : List Nat)
      (emitted : List α),
      ∃ n, ∀ fuel,
        frameTraversal.loop emit (fuel + n) (frame :: frame_stack) (0 :: child_index_stack)
            emitted
          = frameTraversal.resume emit fuel frame_stack child_index_stack emitted
              (emitAll emit frame.descendants)
  | .mk name pt pr pq ps ft par pose children, frame_stack, child_index_stack, emitted =>
    traversal_children emit children (.mk name pt pr pq ps ft par pose children) 0
      frame_stack child_index_stack emitted rfl
/-- From a state with `cur` on top of the frame stack and the child index
`idx`, the loop writes the children of `cur` from `idx` on and their
descendants in pre-order and then goes on with the stacks below. -/
theorem traversal_children {α : Type} (emit : Frame → Str → Except Halt α) :
    ∀ (rest : List Frame) (cur : Frame) (idx : Nat) (frame_stack : List Frame)
      (child_index_stack : List Nat) (emitted : List α),
      cur.children.drop idx = rest →
      ∃ n, ∀ fuel,
        frameTraversal.loop emit (fuel + n) (cur :: frame_stack) (idx :: child_index_stack)
            emitted
          = frameTraversal.resume emit fuel frame_stack child_index_stack emitted
              (emitAll emit (descendantsOf cur.name rest))
  | [], cur, idx, frame_stack, child_index_stack, emitted, hdrop => by
    have hnone : cur.children.get? idx = none := by
      rw [List.get?_eq_none]
      exact List.drop_eq_nil_iff.mp hdrop
    refine ⟨1, fun fuel => ?_⟩
    simp only [frameTraversal.loop, hnone, descendantsOf, emitAll, frameTraversal.resume,
      List.append_nil]
  | c :: rest, cur, idx, frame_stack, child_index_stack, emitted, hdrop => by
    have hget : cur.children.get? idx = some c := by
      have h := List.head?_drop cur.children idx
      rw [hdrop] at h
      simpa using h.symm
    have hdrop1 : cur.children.drop (idx + 1) = rest := by
      have h := List.tail_drop cur.children idx
      rw [hdrop] at h
      simpa using h.symm
    have hdesc : emitAll emit (descendantsOf cur.name (c :: rest))
        = emit c cur.name >>= fun node =>
          emitAll emit c.descendants >>= fun below =>
          emitAll emit (descendantsOf cur.name rest) >>= fun after =>
          .ok (node :: (below ++ after)) := by
      rw [descendantsOf, emitAll, emitAll_append]
      cases emit c cur.name with
      | error e => rfl
      | ok node =>
        cases emitAll emit c.descendants with
        | error e => rfl
        | ok below =>
          cases emitAll emit (descendantsOf cur.name rest) with
          | error e => rfl
          | ok after => rfl
    rw [hdesc]
    cases hemit : emit c cur.name with
    | error e =>
      refine ⟨1, fun fuel => ?_⟩
      simp only [frameTraversal.loop, hget, hemit, frameTraversal.resume, bind, Except.bind]
    | ok node =>
      by_cases hkids : c.children.length > 0
      · obtain ⟨n1, h1⟩ := traversal_frame emit c (cur :: frame_stack)
          ((idx + 1) :: child_index_stack) (emitted ++ [node])
        cases hbelow : emitAll emit c.descendants with
        | error e =>
          refine ⟨n1 + 1, fun fuel => ?_⟩
          rw [← Nat.add_assoc]
          simp only [frameTraversal.loop, hget, hemit, hkids, if_true, h1, hbelow,
            frameTraversal.resume, bind, Except.bind]
        | ok below =>
          obtain ⟨n2, h2⟩ := traversal_children emit rest cur (idx + 1) frame_stack
            child_index_stack (emitted ++ [node] ++ below) hdrop1
          refine ⟨n2 + n1 + 1, fun fuel => ?_⟩
          rw [← Nat.add_assoc, ← Nat.add_assoc]
          simp only [frameTraversal.loop, hget, hemit, hkids, if_true, h1, hbelow,
            frameTraversal.resume, h2, bind, Except.bind]
          cases emitAll emit (descendantsOf cur.name rest) with
          | error e => rfl
          | ok after => simp [frameTraversal.resume]
      · have hnil : c.descendants = [] := by
          cases c with
          | mk name pt pr pq ps ft par pose children =>
            have : children = [] := by
              cases children with
              | nil => rfl
              | cons a l => simp [Frame.children] at hkids
            rw [this]
            rfl
        obtain ⟨n2, h2⟩ := traversal_children emit rest cur (idx + 1) frame_stack
          child_index_stack (emitted ++ [node]) hdrop1
        refine ⟨n2 + 1, fun fuel => ?_⟩
        rw [← Nat.add_assoc]
        simp only [frameTraversal.loop, hget, hemit, hkids, if_false, frameTraversal.resume, h2,
          hnil, emitAll, bind, Except.bind]
        cases emitAll emit (descendantsOf cur.name rest) with
        | error e => rfl
        | ok after => simp [frameTraversal.resume]
end

/-- The traversal of a root frame that has a child ends and gives the values of
the descendants of the root in pre-order. -/
theorem traversal_root {α : Type} (emit : Frame → Str → Except Halt α) (root : Frame)
    (hkids : root.children ≠ []) :
    ∃ n, ∀ fuel, n ≤ fuel →
      frameTraversal.loop emit fuel [root] (if root.children.length > 0 then [0] else []) []
        = some (emitAll emit root.descendants) := by
  obtain ⟨n, hn⟩ := traversal_frame emit root [] [] []
  have hlen : root.children.length > 0 := List.length_pos.mpr hkids
  refine ⟨n + 1, fun fuel hfuel => ?_⟩
  obtain ⟨k, rfl⟩ : ∃ k, fuel = k + 1 + n := ⟨fuel - (n + 1), by omega⟩
  rw [if_pos hlen, hn (k + 1)]
  cases emitAll emit root.descendants with
  | error e => rfl
  | ok nodes => simp [frameTraversal.resume, frameTraversal.loop]

mutual
/-- The frames of the descendants of a frame are the frames of its subtree
after the frame itself, in the order of `withParentPose`. -/
theorem descendants_frames :
    ∀ (frame : Frame) (P : Matrix44f),
      frame.descendants.map (·.1) = ((frame.withParentPose P).map (·.1)).tail
  | .mk name pt pr pq ps ft par pose children, P => by
    simp only [Frame.descendants, Frame.withParentPose, List.map_cons, List.tail_cons]
    exact descendantsOf_frames children name pose
/-- The same for a list of siblings. -/
theorem descendantsOf_frames :
    ∀ (children : List Frame) (parent : Str) (P : Matrix44f),
      (descendantsOf parent children).map (·.1) = (withParentPoseChildren children P).map (·.1)
  | [], _, _ => rfl
  | c :: rest, parent, P => by
    have hc := descendants_frames c P
    have hr := descendantsOf_frames rest parent P
    cases c with
    | mk name pt pr pq ps ft par pose children =>
      simp only [Frame.withParentPose, List.map_cons, List.tail_cons] at hc
      simp only [descendantsOf, withParentPoseChildren, Frame.withParentPose, List.map_cons,
        List.map_append, List.cons_append, hc, hr]
end

mutual
/-- Every descendant of a frame is written with the name of the frame whose
child it is. -/
theorem descendants_parent :
    ∀ (frame : Frame) (e : Frame × Str), e ∈ frame.descendants →
      ∃ g, (g = frame ∨ ∃ p, (g, p) ∈ frame.descendants) ∧ e.1 ∈ g.children ∧ e.2 = g.name
  | .mk name pt pr pq ps ft par pose children, e, he => by
    simp only [Frame.descendants] at he ⊢
    rcases descendantsOf_parent children name e he with h | h
    · exact ⟨.mk name pt pr pq ps ft par pose children, Or.inl rfl, h.1, h.2⟩
    · obtain ⟨g, hg, hc, hn⟩ := h
      exact ⟨g, Or.inr hg, hc, hn⟩
/-- The same for a list of siblings with the parent name `parent`. -/
theorem descendantsOf_parent :
    ∀ (children : List Frame) (parent : Str) (e : Frame × Str),
      e ∈ descendantsOf parent children →
      (e.1 ∈ children ∧ e.2 = parent) ∨
        ∃ g, (∃ p, (g, p) ∈ descendantsOf parent children) ∧ e.1 ∈ g.children ∧ e.2 = g.name
  | [], _, e, he => by simp [descendantsOf] at he
  | c :: rest, parent, e, he => by
    simp only [descendantsOf, List.mem_cons, List.mem_append] at he
    rcases he with h | h | h
    · left
      rw [h]
      exact ⟨List.mem_cons_self _ _, rfl⟩
    · right
      obtain ⟨g, hg, hc, hn⟩ := descendants_parent c e h
      refine ⟨g, ?_, hc, hn⟩
      rcases hg with hg | ⟨p, hp⟩
      · exact ⟨parent, by rw [hg]; simp [descendantsOf]⟩
      · exact ⟨p, by simp [descendantsOf, hp]⟩
    · rcases descendantsOf_parent rest parent e h with h' | h'
      · left
        exact ⟨List.mem_cons_of_mem _ h'.1, h'.2⟩
      · right
        obtain ⟨g, ⟨p, hp⟩, hc, hn⟩ := h'
        exact ⟨g, ⟨p, by simp [descendantsOf, hp]⟩, hc, hn⟩
end

/-- The parents stay present when more names have been seen. -/
theorem parentsPresent_mono :
    ∀ (entries : List (Str × Str)) (seen seen' : List Str), (∀ s ∈ seen, s ∈ seen') →
      parentsPresent seen entries → parentsPresent seen' entries := by
  intro entries
  induction entries with
  | nil => intro _ _ _ _; trivial
  | cons e rest ih =>
    intro seen seen' hsub h
    refine ⟨hsub _ h.1, ih (e.2 :: seen) (e.2 :: seen') ?_ h.2⟩
    intro s hs
    rcases List.mem_cons.mp hs with h' | h'
    · rw [h']; exact List.mem_cons_self _ _
    · exact List.mem_cons_of_mem _ (hsub s h')

/-- The parents are present in a list made of two parts when they are present
in the first part and, with the names seen so far, in the second. -/
theorem parentsPresent_append :
    ∀ (a b : List (Str × Str)) (seen : List Str),
      parentsPresent seen a → (∀ seen', (∀ s ∈ seen, s ∈ seen') → parentsPresent seen' b) →
      parentsPresent seen (a ++ b) := by
  intro a
  induction a with
  | nil => intro b seen _ hb; exact hb seen (fun s hs => hs)
  | cons e rest ih =>
    intro b seen ha hb
    refine ⟨ha.1, ih b (e.2 :: seen) ha.2 ?_⟩
    intro seen' hsub
    exact hb seen' (fun s hs => hsub s (List.mem_cons_of_mem _ hs))

mutual
/-- In the pre-order list of the descendants of a frame, every parent name is
the name of the frame or of an earlier entry. -/
theorem descendants_parentsPresent :
    ∀ (frame : Frame) (seen : List Str), frame.name ∈ seen →
      parentsPresent seen (frame.descendants.map fun e => (e.2, e.1.name))
  | .mk name pt pr pq ps ft par pose children, seen, h => by
    simp only [Frame.descendants]
    exact descendantsOf_parentsPresent children name seen h
/-- The same for a list of siblings. -/
theorem descendantsOf_parentsPresent :
    ∀ (children : List Frame) (parent : Str) (seen : List Str), parent ∈ seen →
      parentsPresent seen ((descendantsOf parent children).map fun e => (e.2, e.1.name))
  | [], _, _, _ => trivial
  | c :: rest, parent, seen, h => by
    simp only [descendantsOf, List.map_cons, List.map_append]
    refine ⟨h, parentsPresent_append _ _ _ ?_ ?_⟩
    · exact descendants_parentsPresent c (c.name :: seen) (List.mem_cons_self _ _)
    · intro seen' hsub
      exact descendantsOf_parentsPresent rest parent seen'
        (hsub parent (List.mem_cons_of_mem _ h))
end

/-! ### Reading the frames back with `addFrame` -/

/-- A frame can be pushed where a path leads to a frame. -/
theorem pushChildAt_returns (frame : Frame) :
    ∀ (path : List Nat) (root parent : Frame), Frame.descend path root = some parent →
      ∃ root', Frame.pushChildAt path root frame = some root' := by
  intro path
  induction path with
  | nil =>
    intro root parent _
    cases root with
    | mk name pt pr pq ps ft par pose children => exact ⟨_, rfl⟩
  | cons i path ih =>
    intro root parent h
    cases root with
    | mk name pt pr pq ps ft par pose children =>
      simp only [Frame.descend, Frame.children] at h
      cases hc : children.get? i with
      | none => rw [hc] at h; simp at h
      | some child =>
        simp only [hc] at h
        obtain ⟨child', hchild⟩ := ih child parent h
        exact ⟨.mk name pt pr pq ps ft par pose (children.set i child'),
          by simp only [Frame.pushChildAt, hc, hchild]⟩

/-- After a frame was pushed, every path that led to a frame still does. -/
theorem descend_after_push (frame : Frame) :
    ∀ (path : List Nat) (root root' : Frame), Frame.pushChildAt path root frame = some root' →
      ∀ (q : List Nat) (g : Frame), Frame.descend q root = some g →
        ∃ g', Frame.descend q root' = some g' := by
  intro path
  induction path with
  | nil =>
    intro root root' h q g hq
    cases root with
    | mk name pt pr pq ps ft par pose children =>
      simp only [Frame.pushChildAt, Option.some.injEq] at h
      subst h
      cases q with
      | nil => exact ⟨_, rfl⟩
      | cons j q =>
        simp only [Frame.descend, Frame.children] at hq ⊢
        cases hc : children.get? j with
        | none => rw [hc] at hq; simp at hq
        | some child =>
          simp only [hc] at hq
          have hlt : j < children.length := by
            by_contra hge
            rw [List.get?_eq_none.mpr (not_lt.mp hge)] at hc
            simp at hc
          have hc' : (children ++ [frame]).get? j = some child := by
            rw [List.get?_eq_getElem?, List.getElem?_append_left hlt, ← List.get?_eq_getElem?, hc]
          rw [hc']
          exact ⟨g, hq⟩
  | cons i path ih =>
    intro root root' h q g hq
    cases root with
    | mk name pt pr pq ps ft par pose children =>
      simp only [Frame.pushChildAt] at h
      cases hc : children.get? i with
      | none => rw [hc] at h; simp at h
      | some child =>
        simp only [hc] at h
        cases hp : Frame.pushChildAt path child frame with
        | none => simp only [hp] at h; simp at h
        | some child' =>
          simp only [hp, Option.some.injEq] at h
          subst h
          cases q with
          | nil => exact ⟨_, rfl⟩
          | cons j q =>
            simp only [Frame.descend, Frame.children] at hq ⊢
            by_cases hij : i = j
            · subst hij
              simp only [hc] at hq
              have hlt : i < children.length := by
                by_contra hge
                rw [List.get?_eq_none.mpr (not_lt.mp hge)] at hc
                simp at hc
              have hs : (children.set i child').get? i = some child' := by
                rw [List.get?_eq_getElem?, List.getElem?_set_self hlt]
              rw [hs]
              exact ih child child' hp q g hq
            · have hs : (children.set i child').get? j = children.get? j := by
                rw [List.get?_eq_getElem?, List.get?_eq_getElem?, List.getElem?_set_ne hij]
              rw [hs]
              cases hcj : children.get? j with
              | none => rw [hcj] at hq; simp at hq
              | some c =>
                simp only [hcj] at hq
                exact ⟨g, hq⟩

/-- After a frame was pushed below the frame that a path leads to, the path
followed by the position of the new child leads to the new frame. -/
theorem descend_new_child (frame : Frame) :
    ∀ (path : List Nat) (root root' parent : Frame),
      Frame.pushChildAt path root frame = some root' → Frame.descend path root = some parent →
      Frame.descend (path ++ [parent.children.length]) root' = some frame := by
  intro path
  induction path with
  | nil =>
    intro root root' parent h hd
    cases root with
    | mk name pt pr pq ps ft par pose children =>
      simp only [Frame.pushChildAt, Option.some.injEq] at h
      simp only [Frame.descend, Option.some.injEq] at hd
      subst h
      subst hd
      simp [Frame.descend, Frame.children]
  | cons i path ih =>
    intro root root' parent h hd
    cases root with
    | mk name pt pr pq ps ft par pose children =>
      simp only [Frame.pushChildAt] at h
      simp only [Frame.descend, Frame.children] at hd
      cases hc : children.get? i with
      | none => rw [hc] at h; simp at h
      | some child =>
        simp only [hc] at h hd
        cases hp : Frame.pushChildAt path child frame with
        | none => simp only [hp] at h; simp at h
        | some child' =>
          simp only [hp, Option.some.injEq] at h
          subst h
          have hlt : i < children.length := by
            by_contra hge
            rw [List.get?_eq_none.mpr (not_lt.mp hge)] at hc
            simp at hc
          have hs : (children.set i child').get? i = some child' := by
            rw [List.get?_eq_getElem?, List.getElem?_set_self hlt]
          simp only [List.cons_append, Frame.descend, Frame.children, hs]
          exact ih child child' parent hp hd

/-- An entry found by `lookup` is an entry of the list. -/
theorem lookup_mem (k : Str) (p : FramePtr) :
    ∀ l : List (Str × FramePtr), l.lookup k = some p → (k, p) ∈ l := by
  intro l
  induction l with
  | nil => intro h; simp at h
  | cons e l ih =>
    intro h
    obtain ⟨a, b⟩ := e
    by_cases hk : k = a
    · subst hk
      simp only [List.lookup, beq_self_eq_true, Option.some.injEq] at h
      subst h
      exact List.mem_cons_self _ _
    · have hbeq : (k == a) = false := by simpa using hk
      simp only [List.lookup, hbeq] at h
      exact List.mem_cons_of_mem _ (ih h)

/-- Removing the entries of another key does not change what `lookup` finds. -/
theorem lookup_filter_ne (k n : Str) (hk : k ≠ n) :
    ∀ l : List (Str × FramePtr), (l.filter (fun e => e.1 ≠ n)).lookup k = l.lookup k := by
  intro l
  induction l with
  | nil => rfl
  | cons e l ih =>
    obtain ⟨a, b⟩ := e
    by_cases ha : a = n
    · subst ha
      have hbeq : (k == a) = false := by simpa using hk
      simp only [List.filter, ne_eq, not_true_eq_false, decide_False, List.lookup, hbeq, ih]
    · by_cases hka : k = a
      · subst hka
        simp [List.filter, ha, List.lookup]
      · have hbeq : (k == a) = false := by simpa using hka
        simp only [List.filter, ne_eq, ha, not_false_eq_true, decide_True, List.lookup, hbeq, ih]

/-- A name without a character of `invalid_id_characters` passes
`sanitize_frame_name`, with an underscore in front when it is numeric. -/
theorem sanitize_frame_name_clean (env : ModelEnv) (name : Str)
    (h : find_first_of name invalid_id_characters = none) :
    sanitize_frame_name env name = .ok (if env.is_numeric name then '_' :: name else name) := by
  unfold sanitize_frame_name
  simp only [h, Option.isSome_none, Bool.false_eq_true, if_false]

/-- `addFrame` returns when the names are clean and `framemap` holds the
parent name, the pointers of `framemap` leading to frames; afterwards
`framemap` holds the new name as well, and its pointers lead to frames. -/
theorem addFrame_returns (env : ModelEnv) (m : MeshupModel) (parent name : Str)
    (parent_transform : Matrix44f)
    (hinv : ∀ e ∈ m.framemap, ∃ f, m.frameAt e.2 = some f)
    (hname : find_first_of name invalid_id_characters = none)
    (hparent : find_first_of parent invalid_id_characters = none)
    (hnul : Char.ofNat 0 ∉ parent)
    (hkey : (m.framemap.lookup (if env.is_numeric parent then '_' :: parent else parent)).isSome
      = true) :
    ∃ m', m.addFrame env parent name parent_transform = .ok m' ∧
      m'.configuration = m.configuration ∧
      (∀ e ∈ m'.framemap, ∃ f, m'.frameAt e.2 = some f) ∧
      (m'.framemap.lookup (if env.is_numeric name then '_' :: name else name)).isSome = true ∧
      ∀ k, (m.framemap.lookup k).isSome = true → (m'.framemap.lookup k).isSome = true := by
  have hcstr : c_str (if env.is_numeric parent then '_' :: parent else parent)
      = (if env.is_numeric parent then '_' :: parent else parent) := by
    apply c_str_of_no_nul
    by_cases hnum : env.is_numeric parent = true
    · simp only [hnum, if_true, List.mem_cons, not_or]
      exact ⟨by decide, hnul⟩
    · simp only [hnum, if_false]
      exact hnul
  obtain ⟨ptr, hptr⟩ := Option.isSome_iff_exists.mp hkey
  obtain ⟨par, hpar⟩ := hinv (_, ptr) (lookup_mem _ ptr m.framemap hptr)
  cases ptr with
  | nil => simp [MeshupModel.frameAt] at hpar
  | cons i path =>
    simp only [MeshupModel.frameAt] at hpar
    cases hroot : m.frames.get? i with
    | none => simp only [hroot] at hpar; simp at hpar
    | some root =>
      simp only [hroot] at hpar
      obtain ⟨root', hpush⟩ := pushChildAt_returns
        (.mk (if env.is_numeric name then '_' :: name else name) ⟨0, 0, 0⟩ ⟨0, 0, 0⟩
          ⟨0, 0, 0, 1⟩ ⟨1, 1, 1⟩ parent_transform parent_transform 1 []) path root par hpar
      have hlt : i < m.frames.length := by
        by_contra hge
        rw [List.get?_eq_none.mpr (not_lt.mp hge)] at hroot
        simp at hroot
      refine ⟨{ m with
          frames_initialized := false
          frames := m.frames.set i root'
          framemap :=
            ((if env.is_numeric name then '_' :: name else name),
                (i :: path) ++ [par.children.length])
              :: m.framemap.filter
                (fun e => e.1 ≠ (if env.is_numeric name then '_' :: name else name)) },
        ?_, rfl, ?_, ?_, ?_⟩
      · simp only [MeshupModel.addFrame, sanitize_frame_name_clean env name hname,
          sanitize_frame_name_clean env parent hparent, bind, Except.bind, hcstr,
          MeshupModel.findFrame, hptr, hroot, hpar, hpush]
      · intro e he
        simp only [List.mem_cons] at he
        rcases he with he | he
        · subst he
          refine ⟨.mk (if env.is_numeric name then '_' :: name else name) ⟨0, 0, 0⟩ ⟨0, 0, 0⟩
            ⟨0, 0, 0, 1⟩ ⟨1, 1, 1⟩ parent_transform parent_transform 1 [], ?_⟩
          simp only [MeshupModel.frameAt, List.cons_append]
          rw [List.get?_eq_getElem?, List.getElem?_set_self hlt]
          exact descend_new_child _ path root root' par hpush hpar
        · have hold := hinv e (List.mem_of_mem_filter he)
          obtain ⟨g, hg⟩ := hold
          cases hq : e.2 with
          | nil => rw [hq] at hg; simp [MeshupModel.frameAt] at hg
          | cons j q =>
            rw [hq] at hg
            simp only [MeshupModel.frameAt] at hg ⊢
            by_cases hij : i = j
            · subst hij
              simp only [hroot] at hg
              rw [List.get?_eq_getElem?, List.getElem?_set_self hlt]
              exact descend_after_push _ path root root' hpush q g hg
            · rw [List.get?_eq_getElem?, List.getElem?_set_ne hij, ← List.get?_eq_getElem?]
              cases hj : m.frames.get? j with
              | none => simp only [hj] at hg; simp at hg
              | some r =>
                simp only [hj] at hg
                exact ⟨g, hg⟩
      · simp [List.lookup]
      · intro k hk
        by_cases hkn : k = (if env.is_numeric name then '_' :: name else name)
        · subst hkn
          simp [List.lookup]
        · have hbeq : (k == (if env.is_numeric name then '_' :: name else name)) = false := by
            simpa using hkn
          simp only [List.lookup, hbeq]
          rw [lookup_filter_ne k _ hkn]
          exact hk

/-- The frames of a list of nodes are added, one `addFrame` after the other,
when the parent of every node is a name seen before and the names are clean. -/
theorem loadFrames_returns (env : ModelEnv) (gl : GLOps)
    (convertAnglesToMatrix : FrameConfig → Vector3f → Matrix44f) :
    ∀ (nodes : List FrameNode) (m : MeshupModel) (seen : List Str),
      (∀ e ∈ m.framemap, ∃ f, m.frameAt e.2 = some f) →
      (∀ s ∈ seen,
        (m.framemap.lookup (if env.is_numeric s then '_' :: s else s)).isSome = true) →
      parentsPresent seen (nodes.map fun n => (n.parent.getD [], n.name)) →
      (∀ n ∈ nodes, find_first_of n.name invalid_id_characters = none ∧
        find_first_of (n.parent.getD []) invalid_id_characters = none ∧
        Char.ofNat 0 ∉ n.parent.getD []) →
      ∃ m', loadModelFromJsonFile.frames env gl convertAnglesToMatrix m nodes = .ok m' := by
  intro nodes
  induction nodes with
  | nil => intro m _ _ _ _ _; exact ⟨m, rfl⟩
  | cons n rest ih =>
    intro m seen hinv hseen hpresent hclean
    obtain ⟨hn, hp, hnul⟩ := hclean n (List.mem_cons_self _ _)
    simp only [List.map_cons, parentsPresent] at hpresent
    obtain ⟨m1, hadd, _, hinv1, hnew, hkeep⟩ := addFrame_returns env m (n.parent.getD []) n.name
      (convertAnglesToMatrix m.configuration (n.parent_rotation.getD ⟨0, 0, 0⟩)
        * gl.smTranslate
            (transposeMul m.configuration.axes_rotation (n.parent_translation.getD ⟨0, 0, 0⟩)).x
            (transposeMul m.configuration.axes_rotation (n.parent_translation.getD ⟨0, 0, 0⟩)).y
            (transposeMul m.configuration.axes_rotation (n.parent_translation.getD ⟨0, 0, 0⟩)).z)
      hinv hn hp hnul (hseen _ hpresent.1)
    have hseen1 : ∀ s ∈ n.name :: seen,
        (m1.framemap.lookup (if env.is_numeric s then '_' :: s else s)).isSome = true := by
      intro s hs
      rcases List.mem_cons.mp hs with h | h
      · rw [h]; exact hnew
      · exact hkeep _ (hseen s h)
    obtain ⟨m', hm'⟩ := ih m1 (n.name :: seen) hinv1 hseen1 hpresent.2
      (fun x hx => hclean x (List.mem_cons_of_mem _ hx))
    refine ⟨m', ?_⟩
    simp only [loadModelFromJsonFile.frames, hadd, bind, Except.bind]
    exact hm'

/-- The nodes that the JSON writer gives for a list of frames hold the names of
the frames and of their parents. -/
theorem emitAll_json_names (frame_config : FrameConfig) :
    ∀ (entries : List (Frame × Str)) (nodes : List FrameNode),
      emitAll (saveModelToJsonFile.child frame_config) entries = .ok nodes →
      nodes.map (fun n => (n.parent.getD [], n.name)) = entries.map fun e => (e.2, e.1.name) := by
  intro entries
  induction entries with
  | nil =>
    intro nodes h
    simp only [emitAll, Except.ok.injEq] at h
    rw [← h]
    rfl
  | cons e rest ih =>
    intro nodes h
    rw [emitAll] at h
    obtain ⟨node, hnode, h⟩ := bind_ok_inv _ _ _ h
    obtain ⟨others, hothers, h⟩ := bind_ok_inv _ _ _ h
    simp only [Except.ok.injEq] at h
    rw [← h, List.map_cons, List.map_cons, ih others hothers]
    unfold saveModelToJsonFile.child at hnode
    obtain ⟨raw, hraw, hnode⟩ := bind_ok_inv _ _ _ hnode
    simp only [Except.ok.injEq] at hnode
    unfold frame_to_json_value at hraw
    simp only [] at hraw
    split at hraw
    · cases hraw
    · simp only [Except.ok.injEq] at hraw
      rw [← hnode, ← hraw]
      rfl

/-- The traversal of the frames of a model whose only root is BASE, with a
child. -/
theorem frameTraversal_base {α : Type} (emit : Frame → Str → Except Halt α)
    (emitRoot : Frame → Except Halt α) (root : Frame) (hname : root.name = "BASE".toList)
    (hkids : root.children ≠ []) :
    ∃ n, ∀ fuel, n ≤ fuel →
      frameTraversal emit emitRoot fuel [root] [] = some (emitAll emit root.descendants) := by
  obtain ⟨n, hn⟩ := traversal_root emit root hkids
  refine ⟨n, fun fuel hfuel => ?_⟩
  simp only [frameTraversal, frameTraversal.root, hname, ne_eq, not_true_eq_false, if_false,
    hn fuel hfuel]
  cases emitAll emit root.descendants with
  | error e => rfl
  | ok nodes => rfl

/-- C28: for a model whose only root frame is BASE and has a child, the frame
traversal of the writers ends (with any bound on the evaluations of the loop
condition above some number) and gives the values of the descendants of BASE
in pre-order, for every writer `emit` of a child frame and for the writer of
`saveModelToJsonFile`; the frames written are the frames of the tree other than
BASE, each once, in the order of the tree; each is written with the name of the
frame whose child it is; the parent name of each is BASE or the name of a frame
written before. When the frame names hold no reserved character and no NUL,
the nodes that the JSON writer gives are read back by the `addFrame` calls of
`loadModelFromJsonFile` on a new model without an `exit`. -/
theorem C28_frame_traversal {α : Type} (emit : Frame → Str → Except Halt α)
    (emitRoot : Frame → Except Halt α) (env : ModelEnv) (gl : GLOps)
    (convertAnglesToMatrix : FrameConfig → Vector3f → Matrix44f) (m : MeshupModel)
    (root : Frame) (hframes : m.frames = [root]) (hname : root.name = "BASE".toList)
    (hkids : root.children ≠ []) :
    (∃ n, ∀ fuel, n ≤ fuel →
      frameTraversal emit emitRoot fuel m.frames [] = some (emitAll emit root.descendants) ∧
      saveModelToJsonFile.frames fuel m
        = some (emitAll (saveModelToJsonFile.child m.configuration) root.descendants)) ∧
    root.descendants.map (·.1) = ((root.withParentPose 1).map (·.1)).tail ∧
    (∀ e ∈ root.descendants,
      ∃ g, (g = root ∨ ∃ p, (g, p) ∈ root.descendants) ∧ e.1 ∈ g.children ∧ e.2 = g.name) ∧
    parentsPresent [root.name] (root.descendants.map fun e => (e.2, e.1.name)) ∧
    (env.is_numeric "BASE".toList = false →
      (∀ e ∈ root.descendants,
        find_first_of e.1.name invalid_id_characters = none ∧ Char.ofNat 0 ∉ e.1.name) →
      ∀ nodes,
        emitAll (saveModelToJsonFile.child m.configuration) root.descendants = .ok nodes →
        ∃ m', loadModelFromJsonFile.frames env gl convertAnglesToMatrix
          (MeshupModel.init m.configuration) nodes = .ok m') := by
  have hpresent := descendants_parentsPresent root [root.name] (List.mem_cons_self _ _)
  refine ⟨?_, descendants_frames root 1, descendants_parent root, hpresent, ?_⟩
  · obtain ⟨n1, h1⟩ := frameTraversal_base emit emitRoot root hname hkids
    obtain ⟨n2, h2⟩ := frameTraversal_base (saveModelToJsonFile.child m.configuration)
      (fun r => frame_to_json_value r m.configuration) root hname hkids
    refine ⟨max n1 n2, fun fuel hfuel => ⟨?_, ?_⟩⟩
    · rw [hframes]
      exact h1 fuel (le_trans (le_max_left _ _) hfuel)
    · unfold saveModelToJsonFile.frames
      rw [hframes]
      exact h2 fuel (le_trans (le_max_right _ _) hfuel)
  · intro hnum hclean nodes hnodes
    have hnames := emitAll_json_names m.configuration root.descendants nodes hnodes
    have hbase : find_first_of "BASE".toList invalid_id_characters = none ∧
        Char.ofNat 0 ∉ "BASE".toList := by decide
    apply loadFrames_returns env gl convertAnglesToMatrix nodes (MeshupModel.init m.configuration)
      [root.name]
    · intro e he
      simp only [MeshupModel.init, List.mem_singleton] at he
      subst he
      exact ⟨_, rfl⟩
    · intro s hs
      simp only [List.mem_singleton] at hs
      subst hs
      rw [hname]
      simp only [hnum, Bool.false_eq_true, if_false]
      rfl
    · rw [hnames]
      exact hpresent
    · intro nd hnd
      have hmem : (nd.parent.getD [], nd.name)
          ∈ root.descendants.map fun e => (e.2, e.1.name) := by
        rw [← hnames]
        exact List.mem_map_of_mem _ hnd
      obtain ⟨e, he, heq⟩ := List.mem_map.mp hmem
      simp only [Prod.mk.injEq] at heq
      obtain ⟨g, hg, _, hgname⟩ := descendants_parent root e he
      have hparent : find_first_of g.name invalid_id_characters = none ∧
          Char.ofNat 0 ∉ g.name := by
        rcases hg with hg | ⟨p, hp⟩
        · rw [hg, hname]; exact hbase
        · exact hclean (g, p) hp
      rw [← heq.1, ← heq.2, hgname]
      exact ⟨(hclean e he).1, hparent.1, hparent.2⟩

/-- Witness of C28: the sample model BASE -> PELVIS -> TORSO and the JSON
writer: PELVIS is written with the parent BASE, then TORSO with the parent
PELVIS, after five evaluations of the loop condition, and the nodes read back
give the same names. -/
theorem C28_frame_traversal_witness :
    sampleModel.frames = [sampleRoot] ∧ sampleRoot.name = "BASE".toList ∧
    sampleRoot.children ≠ [] ∧
    (sampleModelEnv []).is_numeric "BASE".toList = false ∧
    (∀ e ∈ sampleRoot.descendants,
      find_first_of e.1.name invalid_id_characters = none ∧ Char.ofNat 0 ∉ e.1.name) ∧
    sampleRoot.descendants.map (fun e => (e.2, e.1.name))
      = [("BASE".toList, "PELVIS".toList), ("PELVIS".toList, "TORSO".toList)] ∧
    (saveModelToJsonFile.frames 5 sampleModel).map
        (fun r => r.map fun nodes => nodes.map fun n => (n.parent, n.name))
      = some (.ok [(some "BASE".toList, "PELVIS".toList),
          (some "PELVIS".toList, "TORSO".toList)]) ∧
    (saveModelToJsonFile.frames 5 sampleModel).map
        (fun r => r >>= fun nodes =>
          (loadModelFromJsonFile.frames (sampleModelEnv []) sampleGL (fun _ _ => 1)
            (MeshupModel.init sampleModel.configuration) nodes).map MeshupModel.frameNames)
      = some (.ok ["BASE".toList, "PELVIS".toList, "TORSO".toList]) ∧
    ((∃ n, ∀ fuel, n ≤ fuel →
      frameTraversal (saveModelToJsonFile.child sampleModel.configuration)
          (fun r => frame_to_json_value r sampleModel.configuration) fuel sampleModel.frames []
        = some (emitAll (saveModelToJsonFile.child sampleModel.configuration)
            sampleRoot.descendants) ∧
      saveModelToJsonFile.frames fuel sampleModel
        = some (emitAll (saveModelToJsonFile.child sampleModel.configuration)
            sampleRoot.descendants)) ∧
    sampleRoot.descendants.map (·.1) = ((sampleRoot.withParentPose 1).map (·.1)).tail ∧
    (∀ e ∈ sampleRoot.descendants,
      ∃ g, (g = sampleRoot ∨ ∃ p, (g, p) ∈ sampleRoot.descendants) ∧ e.1 ∈ g.children ∧
        e.2 = g.name) ∧
    parentsPresent [sampleRoot.name] (sampleRoot.descendants.map fun e => (e.2, e.1.name)) ∧
    (∀ nodes,
      emitAll (saveModelToJsonFile.child sampleModel.configuration) sampleRoot.descendants
        = .ok nodes →
      ∃ m', loadModelFromJsonFile.frames (sampleModelEnv []) sampleGL (fun _ _ => 1)
        (MeshupModel.init sampleModel.configuration) nodes = .ok m')) :=
  have hclean : ∀ e ∈ sampleRoot.descendants,
      find_first_of e.1.name invalid_id_characters = none ∧ Char.ofNat 0 ∉ e.1.name := by
    decide
  have h := C28_frame_traversal (saveModelToJsonFile.child sampleModel.configuration)
    (fun r => frame_to_json_value r sampleModel.configuration) (sampleModelEnv []) sampleGL
    (fun _ _ => 1) sampleModel sampleRoot rfl rfl (List.cons_ne_nil samplePelvis [])
  ⟨rfl, rfl, List.cons_ne_nil samplePelvis [], rfl, hclean, by decide, by decide!, by decide!,
    h.1, h.2.1, h.2.2.1, h.2.2.2.1,
    h.2.2.2.2 rfl hclean⟩

/-! ## C21: the names after a sequence of calls of `addFrame` -/

/-- The names of a subtree: the name of the frame, then the names of the
subtrees of its children. -/
theorem names_mk (name : Str) (pt pr : Vector3f) (pq : smQuaternion) (ps : Vector3f)
    (ft par pose : Matrix44f) (children : List Frame) :
    (Frame.mk name pt pr pq ps ft par pose children).names
      = name :: children.flatMap Frame.names := by
  have hch : ∀ (cs : List Frame) (P : Matrix44f),
      (withParentPoseChildren cs P).map (fun e => e.1.name) = cs.flatMap Frame.names := by
    intro cs
    induction cs with
    | nil => intro P; simp [withParentPoseChildren]
    | cons c cs ih =>
      intro P
      have hc : (c.withParentPose P).map (fun e => e.1.name) = c.names := by
        cases c with
        | mk n a b q s f p t ch => simp [Frame.names, Frame.withParentPose]
      simp only [withParentPoseChildren, List.map_append, hc, ih P, List.flatMap_cons]
  simp only [Frame.names, Frame.withParentPose, List.map_cons, hch]
  rfl

/-- Replacing an element of a list by one that gives the same values and some
more gives the values of the list and those more. -/
theorem flatMap_set_perm {α β : Type} (g : α → List β) (xs : List β) :
    ∀ (l : List α) (i : Nat) (a b : α), l.get? i = some a → (g b).Perm (xs ++ g a) →
      ((l.set i b).flatMap g).Perm (xs ++ l.flatMap g) := by
  intro l
  induction l with
  | nil => intro i a b h; simp at h
  | cons c l ih =>
    intro i a b h hp
    cases i with
    | zero =>
      simp only [List.get?_cons_zero, Option.some.injEq] at h
      subst h
      simp only [List.set_cons_zero, List.flatMap_cons]
      rw [← List.append_assoc]
      exact hp.append_right _
    | succ i =>
      simp only [List.get?_cons_succ] at h
      simp only [List.set_cons_succ, List.flatMap_cons]
      have h1 := (ih i a b h hp).append_left (g c)
      refine h1.trans ?_
      rw [← List.append_assoc, ← List.append_assoc]
      exact List.perm_append_comm.append_right _

/-- After a frame was pushed into a tree the names of the tree are the names
of the pushed frame and the names of before. -/
theorem pushChildAt_names (frame : Frame) :
    ∀ (path : List Nat) (root root' : Frame), Frame.pushChildAt path root frame = some root' →
      root'.names.Perm (frame.names ++ root.names) := by
  intro path
  induction path with
  | nil =>
    intro root root' h
    cases root with
    | mk name pt pr pq ps ft par pose children =>
      simp only [Frame.pushChildAt, Option.some.injEq] at h
      subst h
      rw [names_mk, names_mk, List.flatMap_append]
      simp only [List.flatMap_cons, List.flatMap_nil, List.append_nil]
      refine (List.Perm.cons name List.perm_append_comm).trans ?_
      exact (List.perm_middle).symm
  | cons i path ih =>
    intro root root' h
    cases root with
    | mk name pt pr pq ps ft par pose children =>
      simp only [Frame.pushChildAt] at h
      cases hc : children.get? i with
      | none => rw [hc] at h; simp at h
      | some child =>
        simp only [hc] at h
        cases hp : Frame.pushChildAt path child frame with
        | none => simp only [hp] at h; simp at h
        | some child' =>
          simp only [hp, Option.some.injEq] at h
          subst h
          rw [names_mk, names_mk]
          have hs := flatMap_set_perm Frame.names frame.names children i child child' hc
            (ih child child' hp)
          refine (List.Perm.cons name hs).trans ?_
          exact (List.perm_middle).symm

/-- A call of `addFrame` that returns adds one frame, named by the sanitized
name of the call, and keeps the other frames. -/
theorem addFrame_names (env : ModelEnv) (m m' : MeshupModel) (parent name : Str)
    (parent_transform : Matrix44f)
    (h : m.addFrame env parent name parent_transform = .ok m') :
    m'.frameNames.Perm
      ((if env.is_numeric name then '_' :: name else name) :: m.frameNames) := by
  have hfn : ∀ m : MeshupModel, m.frameNames = m.frames.flatMap Frame.names := fun _ => rfl
  by_cases hbad : (find_first_of name invalid_id_characters).isSome = true
  · simp [MeshupModel.addFrame, sanitize_frame_name, hbad, bind, Except.bind] at h
  by_cases hbadp : (find_first_of parent invalid_id_characters).isSome = true
  · simp [MeshupModel.addFrame, sanitize_frame_name, hbad, hbadp, bind, Except.bind] at h
  have hn : find_first_of name invalid_id_characters = none := by
    cases hf : find_first_of name invalid_id_characters with
    | none => rfl
    | some v => rw [hf] at hbad; simp at hbad
  have hpn : find_first_of parent invalid_id_characters = none := by
    cases hf : find_first_of parent invalid_id_characters with
    | none => rfl
    | some v => rw [hf] at hbadp; simp at hbadp
  simp only [MeshupModel.addFrame, sanitize_frame_name_clean env name hn,
    sanitize_frame_name_clean env parent hpn, bind, Except.bind, MeshupModel.findFrame] at h
  split at h
  · simp at h
  · simp at h
  · rename_i i path hl
    split at h
    · simp at h
    · rename_i root hroot
      split at h
      · rename_i par root' hd hp
        simp only [Except.ok.injEq] at h
        subst h
        rw [hfn, hfn]
        have hnew := pushChildAt_names _ path root root' hp
        have hroot' : m.frames.get? i = some root := by
          simpa [List.get?_eq_getElem?] using hroot
        have hs := flatMap_set_perm Frame.names _ m.frames i root root' hroot' hnew
        rw [names_mk] at hs
        simpa using hs
      · simp at h

/-- A sequence of calls of `addFrame` that returns adds one frame for every
call, named by the sanitized name of the call. -/
theorem addFrameCalls_names (env : ModelEnv) :
    ∀ (calls : List FrameCall) (m m' : MeshupModel),
      MeshupModel.addFrameCalls env m calls = .ok m' →
      m'.frameNames.Perm
        (calls.map (fun c =>
            if env.is_numeric c.frame_name then '_' :: c.frame_name else c.frame_name)
          ++ m.frameNames) := by
  intro calls
  induction calls with
  | nil =>
    intro m m' h
    simp only [MeshupModel.addFrameCalls, Except.ok.injEq] at h
    subst h
    simp
  | cons c calls ih =>
    intro m m' h
    simp only [MeshupModel.addFrameCalls, bind, Except.bind] at h
    generalize hr : m.addFrame env c.parent_frame_name c.frame_name c.parent_transform = r at h
    cases r with
    | error e => simp at h
    | ok m1 =>
      simp only at h
      have h1 := addFrame_names env m m1 _ _ _ hr
      have h2 := ih m1 m' h
      refine h2.trans ?_
      simp only [List.map_cons, List.cons_append]
      exact ((List.Perm.append_left _ h1).trans List.perm_middle)

/-- C21 (amended): after a sequence of calls of `addFrame` on a new model that
all return, the frames of the tree are the root `BASE` and one frame for every
call, named by the name of the call (with an underscore in front when the name
is numeric); so no two frames have the same name exactly when these names are
pairwise different and different from `BASE`. -/
theorem C21_frame_names (env : ModelEnv) (configuration : FrameConfig)
    (calls : List FrameCall) (m : MeshupModel)
    (h : MeshupModel.addFrameCalls env (MeshupModel.init configuration) calls = .ok m) :
    m.frameNames.Perm
      ("BASE".toList :: calls.map (fun c =>
        if env.is_numeric c.frame_name then '_' :: c.frame_name else c.frame_name)) ∧
    (m.frameNames.Nodup ↔
      ("BASE".toList :: calls.map (fun c =>
        if env.is_numeric c.frame_name then '_' :: c.frame_name else c.frame_name)).Nodup) := by
  have hp : m.frameNames.Perm
      ("BASE".toList :: calls.map (fun c =>
        if env.is_numeric c.frame_name then '_' :: c.frame_name else c.frame_name)) := by
    have h1 := addFrameCalls_names env calls _ m h
    refine h1.trans ?_
    have h0 : (MeshupModel.init configuration).frameNames = ["BASE".toList] := rfl
    rw [h0]
    exact List.perm_append_comm
  exact ⟨hp, hp.nodup_iff⟩

/-- Witness of C21: the calls `addFrame ("BASE", "A", ...)` and
`addFrame ("A", "B", ...)` on a new model return, and the three frames have
different names. -/
theorem C21_frame_names_witness :
    ∃ m, MeshupModel.addFrameCalls (sampleModelEnv []) (MeshupModel.init ⟨1⟩) sampleFrameCalls
        = .ok m ∧
      m.frameNames = ["BASE".toList, "A".toList, "B".toList] ∧
      m.frameNames.Perm
        ("BASE".toList :: sampleFrameCalls.map (fun c =>
          if (sampleModelEnv []).is_numeric c.frame_name then '_' :: c.frame_name
          else c.frame_name)) ∧
      (m.frameNames.Nodup ↔
        ("BASE".toList :: sampleFrameCalls.map (fun c =>
          if (sampleModelEnv []).is_numeric c.frame_name then '_' :: c.frame_name
          else c.frame_name)).Nodup) :=
  ⟨_, rfl, rfl, C21_frame_names (sampleModelEnv []) ⟨1⟩ sampleFrameCalls _ rfl⟩

/-! ## C4: the norm of the interpolated rotation -/

/-- The squared norm of a multiple of a quaternion. -/
theorem squaredNorm_smul (a : ℝ) (q : Reals.smQuaternion) :
    (Reals.smQuaternion.smul a q).squaredNorm = a ^ 2 * q.squaredNorm := by
  simp only [Reals.smQuaternion.squaredNorm, Reals.smQuaternion.dot, Reals.smQuaternion.smul]
  ring

/-- The squared norm of a combination of two quaternions. -/
theorem squaredNorm_combination (a b : ℝ) (p q : Reals.smQuaternion) :
    (Reals.smQuaternion.add (Reals.smQuaternion.smul a p)
        (Reals.smQuaternion.smul b q)).squaredNorm
      = a ^ 2 * p.squaredNorm + b ^ 2 * q.squaredNorm
        + 2 * a * b * Reals.smQuaternion.dot p q := by
  simp only [Reals.smQuaternion.squaredNorm, Reals.smQuaternion.dot, Reals.smQuaternion.smul,
    Reals.smQuaternion.add]
  ring

/-- A quaternion that is not zero has the norm 1 after it was normalized. -/
theorem squaredNorm_normalized (q : Reals.smQuaternion) (h : 0 < q.squaredNorm) :
    q.normalized.squaredNorm = 1 := by
  unfold Reals.smQuaternion.normalized
  rw [squaredNorm_smul, div_pow, one_pow, Real.sq_sqrt h.le]
  field_simp

/-- The scalar product of two unit quaternions is at most 1. -/
theorem dot_le_one (p q : Reals.smQuaternion) (hp : p.squaredNorm = 1)
    (hq : q.squaredNorm = 1) : Reals.smQuaternion.dot p q ≤ 1 := by
  simp only [Reals.smQuaternion.squaredNorm, Reals.smQuaternion.dot] at hp hq ⊢
  nlinarith [sq_nonneg (p.x - q.x), sq_nonneg (p.y - q.y), sq_nonneg (p.z - q.z),
    sq_nonneg (p.w - q.w)]

/-- The end of the shortest arc is a unit quaternion whose scalar product with
the start is not negative. -/
theorem shortestArc_spec (q0 q1 : Reals.smQuaternion) (h1 : q1.squaredNorm = 1) :
    (Reals.smQuaternion.shortestArc q0 q1).squaredNorm = 1 ∧
    0 ≤ Reals.smQuaternion.dot q0 (Reals.smQuaternion.shortestArc q0 q1) := by
  unfold Reals.smQuaternion.shortestArc
  by_cases h : Reals.smQuaternion.dot q0 q1 < 0
  · rw [if_pos h]
    refine ⟨by rw [squaredNorm_smul, h1]; norm_num, ?_⟩
    simp only [Reals.smQuaternion.dot, Reals.smQuaternion.smul] at h ⊢
    linarith
  · rw [if_neg h]
    exact ⟨h1, not_lt.mp h⟩

/-- The spherical combination of two unit quaternions with the angle `θ`
between them has the norm 1. -/
theorem spherical_unit (p q : Reals.smQuaternion) (f θ : ℝ) (hp : p.squaredNorm = 1)
    (hq : q.squaredNorm = 1) (hd : Reals.smQuaternion.dot p q = Real.cos θ)
    (hs : Real.sin θ ≠ 0) :
    (Reals.smQuaternion.add
      (Reals.smQuaternion.smul (Real.sin ((1 - f) * θ) / Real.sin θ) p)
      (Reals.smQuaternion.smul (Real.sin (f * θ) / Real.sin θ) q)).squaredNorm = 1 := by
  rw [squaredNorm_combination, hp, hq, hd]
  have hθ : θ = (1 - f) * θ + f * θ := by ring
  have hsin : Real.sin θ = Real.sin ((1 - f) * θ) * Real.cos (f * θ)
      + Real.cos ((1 - f) * θ) * Real.sin (f * θ) := by
    conv_lhs => rw [hθ]
    exact Real.sin_add _ _
  have hcos : Real.cos θ = Real.cos ((1 - f) * θ) * Real.cos (f * θ)
      - Real.sin ((1 - f) * θ) * Real.sin (f * θ) := by
    conv_lhs => rw [hθ]
    exact Real.cos_add _ _
  have hA := Real.sin_sq_add_cos_sq ((1 - f) * θ)
  have hB := Real.sin_sq_add_cos_sq (f * θ)
  have hs2 : Real.sin θ ^ 2 ≠ 0 := pow_ne_zero 2 hs
  have hnum : Real.sin ((1 - f) * θ) ^ 2 + Real.sin (f * θ) ^ 2
      + 2 * Real.sin ((1 - f) * θ) * Real.sin (f * θ) * Real.cos θ = Real.sin θ ^ 2 := by
    rw [hcos, hsin]
    linear_combination (-(Real.sin ((1 - f) * θ) ^ 2)) * hB + (-(Real.sin (f * θ) ^ 2)) * hA
  have hgoal : (Real.sin ((1 - f) * θ) / Real.sin θ) ^ 2 * 1
      + (Real.sin (f * θ) / Real.sin θ) ^ 2 * 1
      + 2 * (Real.sin ((1 - f) * θ) / Real.sin θ) * (Real.sin (f * θ) / Real.sin θ)
        * Real.cos θ
      = (Real.sin ((1 - f) * θ) ^ 2 + Real.sin (f * θ) ^ 2
        + 2 * Real.sin ((1 - f) * θ) * Real.sin (f * θ) * Real.cos θ) / Real.sin θ ^ 2 := by
    field_simp
    ring
  rw [hgoal, hnum, div_self hs2]

/-- The slerp of the spec between two unit quaternions is a unit quaternion,
for every fraction. -/
theorem slerp_unit (eps : ℝ) (heps : 0 < eps) (q0 q1 : Reals.smQuaternion) (f : ℝ)
    (h0 : q0.squaredNorm = 1) (h1 : q1.squaredNorm = 1) :
    (Reals.smQuaternion.slerp eps q0 f q1).squaredNorm = 1 := by
  obtain ⟨hs1, hd0⟩ := shortestArc_spec q0 q1 h1
  have hd1 := dot_le_one q0 _ h0 hs1
  unfold Reals.smQuaternion.slerp
  generalize Reals.smQuaternion.shortestArc q0 q1 = q at hs1 hd0 hd1 ⊢
  generalize hd : Reals.smQuaternion.dot q0 q = d at hd0 hd1 ⊢
  by_cases hb : 1 - eps < d
  · rw [if_pos hb]
    apply squaredNorm_normalized
    rw [squaredNorm_combination, h0, hs1, hd]
    by_cases hf : 0 ≤ f * (1 - f)
    · nlinarith [sq_nonneg (2 * f - 1), mul_nonneg hf hd0]
    · have hneg : f * (1 - f) < 0 := not_le.mp hf
      nlinarith [mul_nonneg (le_of_lt (neg_pos.mpr hneg)) (sub_nonneg.mpr hd1)]
  · rw [if_neg hb]
    have hlt : d < 1 := by linarith [not_lt.mp hb]
    have hcos : Real.cos (Real.arccos d) = d := Real.cos_arccos (by linarith) hd1
    have hsin : Real.sin (Real.arccos d) ≠ 0 := by
      rw [Real.sin_arccos]
      apply ne_of_gt
      apply Real.sqrt_pos.mpr
      nlinarith
    apply squaredNorm_normalized
    rw [spherical_unit q0 q f (Real.arccos d) h0 hs1 (hd.trans hcos.symm) hsin]
    norm_num

/-- The product of two quaternions has the product of the squared norms. -/
theorem squaredNorm_mul (p q : Reals.smQuaternion) :
    (p.mul q).squaredNorm = p.squaredNorm * q.squaredNorm := by
  simp only [Reals.smQuaternion.squaredNorm, Reals.smQuaternion.dot, Reals.smQuaternion.mul]
  ring

/-- The axis-angle quaternion of a unit axis is a unit quaternion. -/
theorem fromGLRotate_unit (angle x y z : ℝ) (h : x ^ 2 + y ^ 2 + z ^ 2 = 1) :
    (Reals.smQuaternion.fromGLRotate angle x y z).squaredNorm = 1 := by
  simp only [Reals.smQuaternion.squaredNorm, Reals.smQuaternion.dot,
    Reals.smQuaternion.fromGLRotate]
  have hsc := Real.sin_sq_add_cos_sq (angle * Real.pi / 360)
  nlinarith [hsc, h]

/-- Rotations about unit axes, composed with a unit quaternion, give a unit
quaternion. -/
theorem composeRotations_unit :
    ∀ (rots : List (ℝ × Vector3f)) (q : Reals.smQuaternion), q.squaredNorm = 1 →
      (∀ r ∈ rots, (r.2.x : ℝ) ^ 2 + (r.2.y : ℝ) ^ 2 + (r.2.z : ℝ) ^ 2 = 1) →
      (Reals.composeRotations q rots).squaredNorm = 1 := by
  intro rots
  induction rots with
  | nil => intro q hq _; exact hq
  | cons r rest ih =>
    intro q hq h
    obtain ⟨value, axis⟩ := r
    unfold Reals.composeRotations
    apply ih
    · rw [squaredNorm_mul, hq, fromGLRotate_unit _ _ _ _ (h (value, axis) (List.mem_cons_self _ _))]
      norm_num
    · exact fun r hr => h r (List.mem_cons_of_mem _ hr)

/-- The rotation of a keyframe with rotations about z, y and x is a unit
quaternion. -/
theorem eulerZYX_unit (z y x : ℝ) : (Reals.eulerZYX z y x).squaredNorm = 1 := by
  unfold Reals.eulerZYX
  apply composeRotations_unit
  · simp [Reals.smQuaternion.squaredNorm, Reals.smQuaternion.dot]
  · intro r hr
    simp only [List.mem_cons, List.mem_singleton, List.not_mem_nil, or_false] at hr
    rcases hr with rfl | rfl | rfl <;> norm_num

/-- The bracketing loop returns a start pose that is a keyframe of the track
or the start pose given; and, when the iterator is not at the end, an end pose
that is a keyframe or the end pose given. -/
theorem reals_bracketLoop_mem (junk : Reals.FramePose) (time : ℝ) (P : Reals.FramePose → Prop) :
    ∀ (it : List Reals.FramePose) (s e : Reals.FramePose), P s → (it ≠ [] → P e) →
      (∀ p ∈ it, P p) →
      P (Reals.bracketLoop junk time it s e).2.1 ∧
      ((Reals.bracketLoop junk time it s e).1 ≠ [] →
        P (Reals.bracketLoop junk time it s e).2.2) := by
  intro it
  induction it with
  | nil => intro s e hs _ _; exact ⟨hs, fun h => absurd rfl h⟩
  | cons p rest ih =>
    intro s e hs he hall
    unfold Reals.bracketLoop
    by_cases hle : e.timestamp ≤ time
    · rw [if_pos hle]
      apply ih
      · exact he (List.cons_ne_nil _ _)
      · intro hne
        cases rest with
        | nil => exact absurd rfl hne
        | cons r rest' => exact hall r (List.mem_cons_of_mem _ (List.mem_cons_self _ _))
      · exact fun q hq => hall q (List.mem_cons_of_mem _ hq)
    · rw [if_neg hle]
      exact ⟨hs, fun _ => he (List.cons_ne_nil _ _)⟩

/-- The rotation that `interpolatePose` returns for a track of unit
quaternions is a unit quaternion, when `slerp` gives unit quaternions for unit
quaternions. -/
theorem reals_interpolatePose_unit
    (slerp : Reals.smQuaternion → ℝ → Reals.smQuaternion → Reals.smQuaternion)
    (hslerp : ∀ q0 f q1, q0.squaredNorm = 1 → q1.squaredNorm = 1 →
      (slerp q0 f q1).squaredNorm = 1)
    (junk : Reals.FramePose) (poses : List Reals.FramePose) (time : ℝ)
    (h : ∀ p ∈ poses, p.rotation_quaternion.squaredNorm = 1) :
    (Reals.interpolatePose slerp junk poses time).rotation_quaternion.squaredNorm = 1 := by
  have hblend : ∀ s e : Reals.FramePose, s.rotation_quaternion.squaredNorm = 1 →
      e.rotation_quaternion.squaredNorm = 1 →
      (Reals.blendPoses slerp s e time).rotation_quaternion.squaredNorm = 1 := by
    intro s e hs he
    unfold Reals.blendPoses
    split
    · exact hs
    · exact hslerp _ _ _ hs he
  match poses, h with
  | [], _ => simp [Reals.interpolatePose, Reals.FramePose.init, Reals.smQuaternion.squaredNorm,
      Reals.smQuaternion.dot]
  | [p], h => exact h p (List.mem_singleton_self p)
  | p0 :: p1 :: rest, h =>
    have hmem := reals_bracketLoop_mem junk time
      (fun p => p.rotation_quaternion.squaredNorm = 1) (p1 :: rest) p0 p1
      (h p0 (List.mem_cons_self _ _))
      (fun _ => h p1 (List.mem_cons_of_mem _ (List.mem_cons_self _ _)))
      (fun p hp => h p (List.mem_cons_of_mem _ hp))
    have hdef : Reals.interpolatePose slerp junk (p0 :: p1 :: rest) time
        = (match Reals.bracketLoop junk time (p1 :: rest) p0 p1 with
          | ([], start_pose, _) => Reals.blendPoses slerp start_pose start_pose time
          | (_ :: _, start_pose, end_pose) => Reals.blendPoses slerp start_pose end_pose time) :=
      rfl
    rw [hdef]
    generalize Reals.bracketLoop junk time (p1 :: rest) p0 p1 = r at hmem
    obtain ⟨it, s, e⟩ := r
    cases it with
    | nil => exact hblend s s hmem.1 hmem.1
    | cons a b => exact hblend s e hmem.1 (hmem.2 (List.cons_ne_nil _ _))

/-- C4: over the real numbers, with the slerp of the spec (shortest arc,
normalized result, linear interpolation where the scalar product is within
`eps > 0` of 1): the slerp of two unit quaternions has the squared norm 1 for
every fraction; so has the rotation that `InterpolateModelFramePose` stores and
the rotation that `interpolatePose` returns, for every track whose keyframes
hold unit quaternions and every query time; the keyframes that line 488 builds
from the identity by rotations about unit axes hold unit quaternions; in
particular, halfway (t = 2.5 of 5) between the rotations (0, 0, 0) and
(200, 120, 200) degrees about z, y, x the squared norm is 1, within 1e-8. -/
theorem C4_interpolated_rotation_unit (eps : ℝ) (heps : 0 < eps) :
    (∀ (q0 q1 : Reals.smQuaternion) (f : ℝ), q0.squaredNorm = 1 → q1.squaredNorm = 1 →
      (Reals.smQuaternion.slerp eps q0 f q1).squaredNorm = 1) ∧
    (∀ (start_pose end_pose : Reals.FramePose) (fraction : ℝ),
      start_pose.rotation_quaternion.squaredNorm = 1 →
      end_pose.rotation_quaternion.squaredNorm = 1 →
      (Reals.InterpolateModelFramePose (Reals.smQuaternion.slerp eps) start_pose end_pose
        fraction).squaredNorm = 1) ∧
    (∀ (junk : Reals.FramePose) (poses : List Reals.FramePose) (time : ℝ),
      (∀ p ∈ poses, p.rotation_quaternion.squaredNorm = 1) →
      (Reals.interpolatePose (Reals.smQuaternion.slerp eps) junk poses
        time).rotation_quaternion.squaredNorm = 1) ∧
    (∀ rots : List (ℝ × Vector3f),
      (∀ r ∈ rots, (r.2.x : ℝ) ^ 2 + (r.2.y : ℝ) ^ 2 + (r.2.z : ℝ) ^ 2 = 1) →
      (Reals.composeRotations ⟨0, 0, 0, 1⟩ rots).squaredNorm = 1) ∧
    (∀ z y x : ℝ, (Reals.eulerZYX z y x).squaredNorm = 1) ∧
    |(Reals.interpolatePose (Reals.smQuaternion.slerp eps) Reals.FramePose.init
        [⟨0, Reals.eulerZYX 0 0 0⟩, ⟨5, Reals.eulerZYX 200 120 200⟩]
        (5 / 2)).rotation_quaternion.squaredNorm - 1| ≤ 1 / 100000000 := by
  have hs := fun q0 f q1 h0 h1 => slerp_unit eps heps q0 q1 f h0 h1
  have hi := fun junk poses time h =>
    reals_interpolatePose_unit (Reals.smQuaternion.slerp eps) hs junk poses time h
  refine ⟨fun q0 q1 f h0 h1 => hs q0 f q1 h0 h1, ?_, hi, ?_, eulerZYX_unit, ?_⟩
  · intro s e f h0 h1
    exact hs _ _ _ h0 h1
  · intro rots h
    exact composeRotations_unit rots _
      (by simp [Reals.smQuaternion.squaredNorm, Reals.smQuaternion.dot]) h
  · rw [hi]
    · norm_num
    · intro p hp
      simp only [List.mem_cons, List.mem_singleton, List.not_mem_nil, or_false] at hp
      rcases hp with rfl | rfl <;> exact eulerZYX_unit _ _ _

/-- Witness of C4: the threshold `eps = 1 / 1000`. -/
theorem C4_interpolated_rotation_unit_witness :
    (0 : ℝ) < 1 / 1000 ∧
    (∀ (q0 q1 : Reals.smQuaternion) (f : ℝ), q0.squaredNorm = 1 → q1.squaredNorm = 1 →
      (Reals.smQuaternion.slerp (1 / 1000) q0 f q1).squaredNorm = 1) ∧
    |(Reals.interpolatePose (Reals.smQuaternion.slerp (1 / 1000)) Reals.FramePose.init
        [⟨0, Reals.eulerZYX 0 0 0⟩, ⟨5, Reals.eulerZYX 200 120 200⟩]
        (5 / 2)).rotation_quaternion.squaredNorm - 1| ≤ 1 / 100000000 :=
  ⟨by norm_num, (C4_interpolated_rotation_unit (1 / 1000) (by norm_num)).1,
    (C4_interpolated_rotation_unit (1 / 1000) (by norm_num)).2.2.2.2.2⟩
end MeshUp
